import Mathlib

/-!
# IEEE 754 rounding

The values of `double` (binary64) and `float` (binary32) variables are
rationals; an arithmetic operation of the source is the exact operation
followed by `fl`, the rounding to the nearest number of the format, ties to the
even significand.  The exponent is not bounded above: a result of magnitude
`2^1024` (binary64) or `2^128` (binary32) and more stands for the infinity of
its sign.
-/

namespace Ieee

/-- The number of halvings that bring `n` below 2, at most `fuel` of them. -/
def log2Fuel : Nat → Nat → Nat
  | 0, _ => 0
  | f + 1, n => if 2 ≤ n then log2Fuel f (n / 2) + 1 else 0

/-- The position of the highest set bit of `n` (0 for `n = 0`). -/
def ilog2 (n : Nat) : Nat := log2Fuel n n

/-- The power of two `2^k`, for an integer `k`. -/
def pow2 (k : Int) : ℚ :=
  if 0 ≤ k then ((2 ^ k.toNat : Nat) : ℚ) else 1 / ((2 ^ (-k).toNat : Nat) : ℚ)

/-- The binary exponent of `x ≠ 0`: the `e` with `2^e ≤ |x| < 2^(e+1)`. -/
def binade (x : ℚ) : Int :=
  let k : Int := (ilog2 x.num.natAbs : Int) - (ilog2 x.den : Int)
  if pow2 k ≤ |x| then k else k - 1

/-- The nearest integer, a tie going to the even one. -/
def roundEven (x : ℚ) : Int :=
  let f : Int := Int.floor x
  let d : ℚ := x - (f : ℚ)
  if d < 1 / 2 then f else if 1 / 2 < d then f + 1 else if f % 2 = 0 then f else f + 1

/-- The spacing of the numbers of the format around `x`: `2^(e - prec + 1)`
for the exponent `e` of `x`, which is not taken below `emin` (the subnormal
numbers share the spacing of the smallest normal ones). -/
def quantum (prec : Nat) (emin : Int) (x : ℚ) : ℚ :=
  pow2 (max (binade x) emin - ((prec : Int) - 1))

/-- Rounding to the nearest number with a significand of `prec` bits and an
exponent of at least `emin`, ties to even. -/
def fl (prec : Nat) (emin : Int) (x : ℚ) : ℚ :=
  if x = 0 then 0
  else (roundEven (x / quantum prec emin x) : ℚ) * quantum prec emin x

/-- Rounding to `double` (binary64: 53 bits, smallest normal exponent -1022).
-/
def fl64 (x : ℚ) : ℚ := fl 53 (-1022) x

/-- Rounding to `float` (binary32: 24 bits, smallest normal exponent -126). -/
def fl32 (x : ℚ) : ℚ := fl 24 (-126) x

/-- The conversion `(long)v` of an integer-valued `double` to a 64 bit `long`.
Outside the range of `long` the conversion is undefined in C; the value taken
is the one the x86-64 conversion instruction delivers, `-2^63`. -/
def castLong (v : Int) : Int :=
  if -(2 ^ 63) ≤ v ∧ v < 2 ^ 63 then v else -(2 ^ 63)

/-- A result of `long` arithmetic, wrapped into 64 bits (two's complement). -/
def wrapLong (v : Int) : Int := (v + 2 ^ 63) % 2 ^ 64 - 2 ^ 63

/-- Whether `v` is within the range of a 64 bit `long`. -/
def inLong (v : Int) : Bool := decide (-(2 ^ 63) ≤ v ∧ v < 2 ^ 63)

end Ieee

/-!
# openEAR / openSMILE: `cWaveSource` (RIFF/WAVE PCM reader)

A shallow embedding of `src/src/waveSource.cpp`.

Modelling conventions

* The open `FILE*` is a byte list together with a read position
  (`FileStream`); `fread` delivers as many of the requested bytes as the list
  still holds after the position, `fseek(.., SEEK_SET)` sets the position and
  `ftell` reports it.
* The header struct `sRiffPcmWaveHeader` is read on a little-endian host (the
  source says so: "TODO: support other endianness") with its natural, padding
  free 44 byte layout.
* C integers are mathematical integers.  The header fields are decoded from
  their bytes, hence are within their widths by construction.
* `double` values are rationals.  The products `start * srate`,
  `end * srate` and `endrel * srate` of `configureWriter` are rounded to
  `double` (`Ieee.fl64`) and converted to `long` (`Ieee.castLong`).  The sample
  conversion of `readData` is the exact quotient, before it is rounded to
  `FLOAT_DMEM`.
* A C++ exception (`COMP_ERR`, `OUT_OF_MEMORY`) and undefined behaviour
  (integer division by zero, reading through a closed stream) end the run with
  an `Except.error`; an ordinary `return 0` is the value `0`.
-/

namespace WaveSource

/-! ## The byte stream -/

/-- One octet of the file. -/
abbrev Byte := Fin 256

/-- An open `FILE*`: the file's bytes and the current read position. -/
structure FileStream where
  content : List Byte
  pos : Nat
deriving DecidableEq

namespace FileStream

/-- The call `fread(buf, 1, n, f)`: the bytes obtained (at most `n`) and the
advanced stream. -/
def fread (f : FileStream) (n : Nat) : List Byte × FileStream :=
  let got := (f.content.drop f.pos).take n
  (got, { f with pos := f.pos + got.length })

/-- The call `fseek(f, off, SEEK_SET)`. -/
def fseek (f : FileStream) (off : Nat) : FileStream :=
  { f with pos := off }

/-- The call `ftell(f)`. -/
def ftell (f : FileStream) : Nat := f.pos

end FileStream

/-- The byte at index `i` of a buffer as a number (0 past the end). -/
def byteAt (buf : List Byte) (i : Nat) : Nat := (buf.getD i 0).val

/-- A little-endian `uint16_t` at byte offset `off`. -/
def le16 (buf : List Byte) (off : Nat) : Nat :=
  byteAt buf off + 256 * byteAt buf (off + 1)

/-- A little-endian `uint32_t` at byte offset `off`. -/
def le32 (buf : List Byte) (off : Nat) : Nat :=
  byteAt buf off + 256 * byteAt buf (off + 1) + 65536 * byteAt buf (off + 2)
    + 16777216 * byteAt buf (off + 3)

/-! ## Header structures -/

/-- The struct `sRiffPcmWaveHeader` (44 bytes). -/
structure sRiffPcmWaveHeader where
  Riff : Nat
  FileSize : Nat
  Format : Nat
  Subchunk1ID : Nat
  Subchunk1Size : Nat
  AudioFormat : Nat
  NumChannels : Nat
  SampleRate : Nat
  ByteRate : Nat
  BlockAlign : Nat
  BitsPerSample : Nat
  Subchunk2ID : Nat
  Subchunk2Size : Nat
deriving DecidableEq

/-- The value of `sizeof(sRiffPcmWaveHeader)`. -/
def sizeofHead : Nat := 44

/-- The value of `sizeof(sRiffChunkHeader)`. -/
def sizeofChunkhead : Nat := 8

/-- The header struct as laid out over the 44 bytes `fread` stored in it. -/
def parseHead (buf : List Byte) : sRiffPcmWaveHeader where
  Riff := le32 buf 0
  FileSize := le32 buf 4
  Format := le32 buf 8
  Subchunk1ID := le32 buf 12
  Subchunk1Size := le32 buf 16
  AudioFormat := le16 buf 20
  NumChannels := le16 buf 22
  SampleRate := le32 buf 24
  ByteRate := le32 buf 28
  BlockAlign := le16 buf 32
  BitsPerSample := le16 buf 34
  Subchunk2ID := le32 buf 36
  Subchunk2Size := le32 buf 40

/-- The member `pcmParam` (the fields this file assigns or reads). -/
structure sWaveParameters where
  sampleRate : Nat
  nChan : Nat
  nBPS : Nat
  nBits : Nat
  nBlocks : Nat
  blockSize : Nat
deriving DecidableEq

/-- How a run ends other than by returning. -/
inductive Abort where
  /-- The macro `COMP_ERR` threw. -/
  | compErr
  /-- The macro `OUT_OF_MEMORY` fired (`malloc` returned `NULL`). -/
  | outOfMemory
  /-- Integer division by zero (undefined behaviour). -/
  | divByZero
  /-- A read through a `NULL` file handle (undefined behaviour). -/
  | nullStream
deriving DecidableEq

/-- The magic `RIFF`. -/
def magicRIFF : Nat := 0x46464952
/-- The magic `WAVE`. -/
def magicWAVE : Nat := 0x45564157
/-- The magic `fmt `. -/
def magicFmt : Nat := 0x20746D66
/-- The magic `data`. -/
def magicData : Nat := 0x61746164

/-- The loop `while ((head.Subchunk2ID != 0x61746164)&&(safetytimeout>0))` of
`readWaveHeader` (lines 464-486), by recursion on `safetytimeout`; the
arguments are `safetytimeout`, `head.Subchunk2ID`, `head.Subchunk2Size` and the
stream.
`Except.error f`: one of the `return 0` statements inside the loop was taken,
with the stream left as `f`.
`Except.ok (safetytimeout, Subchunk2ID, Subchunk2Size, f)`: the loop was left
with these values. -/
def searchData : Nat → Nat → Nat → FileStream →
    Except FileStream (Nat × Nat × Nat × FileStream)
  | 0, id, size, f => .ok (0, id, size, f)
  | t + 1, id, size, f =>
    if id = magicData then .ok (t + 1, id, size, f)
    else if size < 99999 then
      let r := f.fread size
      if r.1.length ≠ size then .error r.2
      else
        let c := r.2.fread sizeofChunkhead
        if c.1.length ≠ sizeofChunkhead then .error c.2
        else searchData t (le32 c.1 0) (le32 c.1 4) c.2
    else .error f

/-! ## The output matrix -/

/-- The class `cMatrix` as far as `readData` uses it: `N` rows, `nT` columns
and the float cells; `dataF c i` is the cell of row `c` and column `i`. -/
structure cMatrix where
  N : Int
  nT : Int
  dataF : Nat → Nat → ℚ

/-- The method `m->setF(c, i, v)`. -/
def cMatrix.setF (m : cMatrix) (c i : Nat) (v : ℚ) : cMatrix :=
  { m with dataF := fun c' i' => if c' = c ∧ i' = i then v else m.dataF c' i' }

/-- Modelled from the spec: `allocMat(n, nT)` of the base class `cDataSource`
is not in the source files; the spec calls it the shared buffer allocator that
provides pre-allocated output storage.  It yields an `n` by `nT` matrix, here
of zeros. -/
def allocMat (n nT : Int) : cMatrix := ⟨n, nT, fun _ _ => 0⟩

/-! ## The component state and its configuration -/

/-- The members of `cWaveSource` (and of its base class, `blocksizeW` and
`mat`) that the modelled methods touch.  The member `end` is `endSec` here. -/
structure cWaveSource where
  filehandle : Option FileStream
  pcmParam : sWaveParameters
  pcmDataBegin : Nat
  curReadPos : Int
  eof : Bool
  monoMixdown : Bool
  start : ℚ
  endSec : ℚ
  endrel : ℚ
  startSamples : Int
  endSamples : Int
  endrelSamples : Int
  blocksizeW : Int
  mat : Option cMatrix

/-- What the configuration manager answers for this instance.  For the keys
the code asks `isSet` about, `none` is "not set" and `some v` is "set, and
`getInt` gives `v`"; `endrelIsSet` is `isSet("endrel")`.  The other fields are
what `getInt` / `getDouble` give (the registered default when the key is not
set: `start` 0.0, `end` -1.0, `endrel` 0.0, `monoMixdown` 0). -/
structure ConfigInstance where
  monoMixdown : Bool
  start : ℚ
  endSec : ℚ
  endrel : ℚ
  endrelIsSet : Bool
  startSamples : Option Int
  endSamples : Option Int
  endrelSamples : Option Int

/-- The constructor `cWaveSource::cWaveSource` followed by `fetchConfig` and
the `fopen` of `myConfigureInstance`: the state in which `configureWriter`
runs.  `blocksizeW` is the block size in frames the base class derived from
its own configuration. -/
def init (cfg : ConfigInstance) (file : List Byte) (blocksizeW : Int) : cWaveSource where
  filehandle := some ⟨file, 0⟩
  pcmParam := ⟨0, 0, 0, 0, 0, 0⟩
  pcmDataBegin := 0
  curReadPos := 0
  eof := false
  monoMixdown := cfg.monoMixdown
  start := cfg.start
  endSec := cfg.endSec
  endrel := cfg.endrel
  startSamples := 0
  endSamples := 0
  endrelSamples := 0
  blocksizeW := blocksizeW
  mat := none

/-! ## `readWaveHeader` -/

/-- The header check of lines 452-457: true when the header is bogus. -/
def bogusHeader (head : sRiffPcmWaveHeader) : Bool :=
  head.Riff != magicRIFF || head.Format != magicWAVE || head.Subchunk1ID != magicFmt
    || head.AudioFormat != 1 || head.Subchunk1Size != 16

/-- The method `cWaveSource::readWaveHeader` (lines 435-517): the returned
`int` and the state afterwards. -/
def readWaveHeader (s : cWaveSource) : Except Abort (Nat × cWaveSource) :=
  match s.filehandle with
  | none => .ok (0, s)
  | some fh =>
    let r := (fh.fseek 0).fread sizeofHead
    if r.1.length ≠ sizeofHead then .ok (0, { s with filehandle := some r.2 })
    else
      let head := parseHead r.1
      if bogusHeader head then .ok (0, { s with filehandle := some r.2 })
      else
        match searchData 20 head.Subchunk2ID head.Subchunk2Size r.2 with
        | .error f => .ok (0, { s with filehandle := some f })
        | .ok (safetytimeout, _, Subchunk2Size, f) =>
          if safetytimeout ≤ 0 then .ok (0, { s with filehandle := some f })
          else if head.NumChannels = 0 then .error .divByZero
          else if head.BlockAlign = 0 then .error .divByZero
          else
            .ok (1, { s with
              filehandle := some f
              pcmParam :=
                { sampleRate := head.SampleRate
                  nChan := head.NumChannels
                  nBPS := head.BlockAlign / head.NumChannels
                  nBits := head.BitsPerSample
                  nBlocks := Subchunk2Size / head.BlockAlign
                  blockSize := head.BlockAlign }
              pcmDataBegin := f.ftell })

/-! ## `configureWriter` -/

/-- The local `srate` of `configureWriter` (lines 132-133). -/
def srateOf (sampleRate : Nat) : ℚ :=
  if (sampleRate : ℚ) = 0 then 1 else (sampleRate : ℚ)

/-- The expression `(long)floor(x * srate)` of lines 140 and 162: the product
rounded to `double`, rounded down, and converted to `long`. -/
def floorFrames (x srate : ℚ) : Int :=
  Ieee.castLong (Int.floor (Ieee.fl64 (x * srate)))

/-- The expression `(long)ceil(x * srate)` of line 150: the product rounded to
`double`, rounded up, and converted to `long`. -/
def ceilFrames (x srate : ℚ) : Int :=
  Ieee.castLong (Int.ceil (Ieee.fl64 (x * srate)))

/-- Lines 136-143 of `configureWriter`: the member `startSamples`, from the
configuration, the member `start`, `srate` and `flen`. -/
def resolveStartSamples (cfg : ConfigInstance) (start srate : ℚ) (flen : Int) : Int :=
  let startSamples : Int :=
    match cfg.startSamples with
    | some v => v
    | none => floorFrames start srate
  let startSamples := if startSamples < 0 then 0 else startSamples
  if startSamples > flen then flen else startSamples

/-- Lines 146-169 of `configureWriter`: the member `endSamples`, from the
configuration, the members `end` and `endrel`, `srate` and `flen`. -/
def resolveEndSamples (cfg : ConfigInstance) (endSec endrel srate : ℚ) (flen : Int) : Int :=
  let endSamples : Int :=
    match cfg.endSamples with
    | some v => v
    | none => if endSec < 0 then -1 else ceilFrames endSec srate
  let endSamples : Int :=
    if endSamples < 0 then
      match cfg.endrelSamples with
      | some v =>
        let endrelSamples : Int := if v < 0 then 0 else v
        let e := flen - endrelSamples
        if e < 0 then 0 else e
      | none =>
        if cfg.endrelIsSet then
          let e := Ieee.wrapLong (flen - floorFrames endrel srate)
          if e < 0 then 0 else e
        else flen
    else endSamples
  if endSamples > flen then flen else endSamples

/-- Line 155-156: the member `endrelSamples` after `configureWriter`. -/
def resolveEndrelSamples (cfg : ConfigInstance) (endSec srate : ℚ) (old : Int) : Int :=
  let endSamples : Int :=
    match cfg.endSamples with
    | some v => v
    | none => if endSec < 0 then -1 else ceilFrames endSec srate
  if endSamples < 0 then
    match cfg.endrelSamples with
    | some v => if v < 0 then 0 else v
    | none => old
  else old

/-- The method `cWaveSource::configureWriter` (lines 127-187): the returned
`int` and the state afterwards (the level configuration `c.T` is left out). -/
def configureWriter (s : cWaveSource) (cfg : ConfigInstance) :
    Except Abort (Nat × cWaveSource) :=
  match readWaveHeader s with
  | .error a => .error a
  | .ok (ret, s) =>
    if ret = 0 then .error .compErr
    else
      let srate := srateOf s.pcmParam.sampleRate
      let flen : Int := (s.pcmParam.nBlocks : Int)
      let startSamples := resolveStartSamples cfg s.start srate flen
      let endSamples := resolveEndSamples cfg s.endSec s.endrel srate flen
      let s := { s with
        startSamples := startSamples
        endSamples := endSamples
        endrelSamples := resolveEndrelSamples cfg s.endSec srate s.endrelSamples }
      if startSamples > 0 then
        .ok (1, { s with
          curReadPos := startSamples
          filehandle := s.filehandle.map
            (fun f => f.fseek (startSamples * (s.pcmParam.blockSize : Int)).toNat) })
      else .ok (1, s)

/-! ## `readData` -/

/-- The value of a `w` bit two's complement pattern `u`. -/
def toSigned (w : Nat) (u : Nat) : Int :=
  if u < 2 ^ (w - 1) then (u : Int) else (u : Int) - 2 ^ w

/-- The element `b8[j]` of the buffer seen as `int8_t*`. -/
def b8 (buf : List Byte) (j : Nat) : Int := toSigned 8 (byteAt buf j)

/-- The element `b16[j]` of the buffer seen as `int16_t*`. -/
def b16 (buf : List Byte) (j : Nat) : Int := toSigned 16 (le16 buf (2 * j))

/-- The element `b32[j]` of the buffer seen as `int32_t*`. -/
def b32 (buf : List Byte) (j : Nat) : Int := toSigned 32 (le32 buf (4 * j))

/-- The expression `b32[j]&0xFFFFFF`: the bitwise and acts on the 32 bit
pattern of `b32[j]`, and its result has the sign bit clear. -/
def b32and24 (buf : List Byte) (j : Nat) : Int :=
  ((le32 buf (4 * j) &&& 0xFFFFFF : Nat) : Int)

/-- The mixdown loops (lines 333-339, 342-348, 361-367, 370-376) for sample
accessor `samp` and divisor `D`:
`for i < m->nT: tmp = 0; for c < nChan: tmp += samp[i*nChan+c];
m->setF(0, i, (tmp/nChan)/D)`. -/
def mixdownLoop (samp : Nat → Int) (nChan : Nat) (D : ℚ) (m : cMatrix) : cMatrix :=
  (List.range m.nT.toNat).foldl
    (fun m i =>
      let tmp : ℚ := (List.range nChan).foldl (fun tmp c => tmp + (samp (i * nChan + c) : ℚ)) 0
      m.setF 0 i ((tmp / (nChan : ℚ)) / D))
    m

/-- The multi-channel loops (lines 392-394, 396-398, 410-412, 414-416) for
sample accessor `samp` and divisor `D`:
`for i < m->nT: for c < nChan: m->setF(c, i, samp[i*nChan+c]/D)`. -/
def channelLoop (samp : Nat → Int) (nChan : Nat) (D : ℚ) (m : cMatrix) : cMatrix :=
  (List.range m.nT.toNat).foldl
    (fun m i =>
      (List.range nChan).foldl (fun m c => m.setF c i ((samp (i * nChan + c) : ℚ) / D)) m)
    m

/-- The two `switch(pcmParam.nBPS)` statements of `readData` (lines 329-425).
The result is the matrix and whether the format was known; `false` is the
`default:` label, which sets `nRead=0`. -/
def convert (monoMixdown : Bool) (p : sWaveParameters) (buf : List Byte) (m : cMatrix) :
    Except Abort (cMatrix × Bool) :=
  if monoMixdown then
    if p.nBPS = 1 then .ok (mixdownLoop (b8 buf) p.nChan 127 m, true)
    else if p.nBPS = 2 then .ok (mixdownLoop (b16 buf) p.nChan 32767 m, true)
    else if p.nBPS = 3 then .error .compErr
    else if p.nBPS = 4 then
      if p.nBits = 24 then .ok (mixdownLoop (b32and24 buf) p.nChan (32767 * 256) m, true)
      else if p.nBits = 32 then .ok (mixdownLoop (b32 buf) p.nChan (32767 * 32767 * 2) m, true)
      else .ok (m, false)
    else .ok (m, false)
  else
    if p.nBPS = 1 then .ok (channelLoop (b8 buf) p.nChan 127 m, true)
    else if p.nBPS = 2 then .ok (channelLoop (b16 buf) p.nChan 32767 m, true)
    else if p.nBPS = 3 then .error .compErr
    else if p.nBPS = 4 then
      if p.nBits = 24 then
        .ok (channelLoop (b32and24 buf) p.nChan (32767 * 32767 * 2) m, true)
      else if p.nBits = 32 then .ok (channelLoop (b32 buf) p.nChan (32767 * 32767 * 2) m, true)
      else .ok (m, false)
    else .ok (m, false)

/-- The body of `cWaveSource::readData` from line 298 on, for the matrix `m`
that lines 291-297 selected.  The result is the returned `int`, the state and
the matrix afterwards.  A negative byte count makes `malloc` fail
(`OUT_OF_MEMORY`); `malloc(0)` is taken to succeed, as it does in glibc. -/
def readDataInto (s : cWaveSource) (m : cMatrix) : Except Abort (Nat × cWaveSource × cMatrix) :=
  if m.N ≠ (s.pcmParam.nChan : Int) ∧ (s.monoMixdown = false ∧ m.N = 1) then .ok (0, s, m)
  else
    let full : Int := (s.pcmParam.blockSize : Int) * s.blocksizeW
    let bs : Int :=
      if s.endSamples - s.curReadPos < s.blocksizeW then
        (s.endSamples - s.curReadPos) * (s.pcmParam.blockSize : Int)
      else full
    if bs < 0 then .error .outOfMemory
    else
      match s.filehandle with
      | none => .error .nullStream
      | some fh =>
        let r := fh.fread bs.toNat
        let buf := r.1
        let nRead : Nat := buf.length
        if (nRead : Int) ≠ full ∧ s.pcmParam.blockSize = 0 then .error .divByZero
        else
          let sm : cWaveSource × cMatrix :=
            if (nRead : Int) ≠ full then
              ({ s with eof := true, filehandle := none },
               { m with nT := ((nRead / s.pcmParam.blockSize : Nat) : Int) })
            else ({ s with filehandle := some r.2 }, m)
          if nRead > 0 then
            if s.pcmParam.blockSize = 0 then .error .divByZero
            else
              let s1 := { sm.1 with
                curReadPos := sm.1.curReadPos + ((nRead / s.pcmParam.blockSize : Nat) : Int) }
              match convert s.monoMixdown s.pcmParam buf sm.2 with
              | .error a => .error a
              | .ok (m1, known) => .ok (if known then 1 else 0, s1, m1)
          else .ok (0, sm.1, sm.2)

/-- The method `cWaveSource::readData(cMatrix *m)` (lines 282-433); `none` is
`m == NULL`, for which the member `mat` is used (and allocated when absent).
The result is the returned `int`, the state afterwards and the caller's
matrix afterwards. -/
def readData (s : cWaveSource) (mArg : Option cMatrix) :
    Except Abort (Nat × cWaveSource × Option cMatrix) :=
  if s.eof then .ok (0, s, mArg)
  else
    match mArg with
    | some m =>
      match readDataInto s m with
      | .error a => .error a
      | .ok (ret, s1, m1) => .ok (ret, s1, some m1)
    | none =>
      let m : cMatrix :=
        match s.mat with
        | some m => m
        | none =>
          if s.monoMixdown then allocMat 1 s.blocksizeW
          else allocMat (s.pcmParam.nChan : Int) s.blocksizeW
      match readDataInto { s with mat := some m } m with
      | .error a => .error a
      | .ok (ret, s1, m1) => .ok (ret, { s1 with mat := some m1 }, none)

/-! ## Driving `readData`, and files to run on -/

/-- The frames one `readData()` call hands on, as `myTick` sees it: when the
call returns non-zero the matrix `mat` goes to the data memory with its `nT`
frames, when it returns 0 nothing does. -/
def produced (ret : Nat) (s : cWaveSource) : Int :=
  if ret = 0 then 0
  else
    match s.mat with
    | some m => m.nT
    | none => 0

/-- Successive `readData()` calls (on the member `mat`, as `myTick` makes
them) up to and including the one that sets `eof`, at most `fuel` of them: the
frame counts produced, in order, and the final state. -/
def readAll : Nat → cWaveSource → Except Abort (List Int × cWaveSource)
  | 0, s => .ok ([], s)
  | fuel + 1, s =>
    if s.eof then .ok ([], s)
    else
      match readData s none with
      | .error a => .error a
      | .ok (ret, s1, _) =>
        match readAll fuel s1 with
        | .error a => .error a
        | .ok (l, s2) => .ok (produced ret s1 :: l, s2)

/-- The two bytes of a little-endian `uint16_t`. -/
def u16le (n : Nat) : List Byte := [Fin.ofNat n, Fin.ofNat (n / 256)]

/-- The four bytes of a little-endian `uint32_t`. -/
def u32le (n : Nat) : List Byte :=
  [Fin.ofNat n, Fin.ofNat (n / 256), Fin.ofNat (n / 65536), Fin.ofNat (n / 16777216)]

/-- The eight bytes of a chunk header with the given id and size. -/
def chunkHeader (id size : Nat) : List Byte := u32le id ++ u32le size

/-- The first 36 bytes of a canonical PCM header, up to the end of the `fmt `
chunk: channel count, sample rate, block align and bits per sample are given,
`size` is the length of what follows the RIFF size field minus 36. -/
def fmtPart (numChannels sampleRate blockAlign bits size : Nat) : List Byte :=
  u32le magicRIFF ++ u32le (36 + size) ++ u32le magicWAVE ++ u32le magicFmt ++ u32le 16
    ++ u16le 1 ++ u16le numChannels ++ u32le sampleRate ++ u32le (sampleRate * blockAlign)
    ++ u16le blockAlign ++ u16le bits

/-- The 44 bytes of a canonical PCM header: the `fmt ` part and the id and
size of the chunk that follows it. -/
def canonicalHeader (numChannels sampleRate blockAlign bits id size : Nat) : List Byte :=
  fmtPart numChannels sampleRate blockAlign bits size ++ chunkHeader id size

/-- The chunk id `LIST`. -/
def magicLIST : Nat := 0x5453494C

/-- A configuration with every key left at its default. -/
def defaultConfig : ConfigInstance where
  monoMixdown := false
  start := 0
  endSec := -1
  endrel := 0
  endrelIsSet := false
  startSamples := none
  endSamples := none
  endrelSamples := none

/-- A mono, 16 bit, 8000 Hz file of 10 frames: the samples 0, 16384, -32768,
32767 and six more that are 0. -/
def mono16File : List Byte :=
  canonicalHeader 1 8000 2 16 magicData 20
    ++ (u16le 0 ++ u16le 16384 ++ u16le 32768 ++ u16le 32767 ++ List.replicate 12 0)

/-- A 44 byte file whose bytes 8..11 spell `WAVX`. -/
def wavxFile : List Byte :=
  u32le magicRIFF ++ u32le 36 ++ [0x57, 0x41, 0x56, 0x58] ++ u32le magicFmt ++ u32le 16
    ++ u16le 1 ++ u16le 1 ++ u32le 8000 ++ u32le 16000 ++ u16le 2 ++ u16le 16
    ++ chunkHeader magicData 0

/-- A mono 16 bit file in which `k` empty `LIST` chunks stand between the
`fmt ` chunk and a `data` chunk of two frames. -/
def skipFile (k : Nat) : List Byte :=
  fmtPart 1 8000 2 16 (8 * k + 12) ++ (List.replicate k (chunkHeader magicLIST 0)).flatten
    ++ chunkHeader magicData 4 ++ [0, 0, 1, 0]

/-- A mono 16 bit file in which one `LIST` chunk of `size` bytes, all of them
present, stands between the `fmt ` chunk and a `data` chunk of two frames. -/
def listFile (size : Nat) : List Byte :=
  canonicalHeader 1 8000 2 16 magicLIST size ++ List.replicate size 0
    ++ chunkHeader magicData 4 ++ [0, 0, 1, 0]

/-- A canonical 16 bit file whose channel count field is 0. -/
def zeroChannelFile : List Byte :=
  canonicalHeader 0 8000 2 16 magicData 4 ++ [0, 0, 1, 0]

/-- A mono file of one frame with 24 significant bits in a 4 byte word, the
word being 0x00000100. -/
def packed24File : List Byte :=
  canonicalHeader 1 8000 4 24 magicData 4 ++ u32le 0x100

/-- A mono file of two frames of 3 byte samples. -/
def slim24File : List Byte :=
  canonicalHeader 1 8000 3 24 magicData 6 ++ [0, 0, 0, 0, 1, 0]

/-- The returned `int` alone. -/
def returned {σ : Type} (r : Except Abort (Nat × σ)) : Except Abort Nat :=
  match r with
  | .ok (ret, _) => .ok ret
  | .error a => .error a

/-- The state after `configureWriter` on a freshly opened file, when it
returns. -/
def configured (cfg : ConfigInstance) (file : List Byte) (blocksizeW : Int) :
    Option cWaveSource :=
  match configureWriter (init cfg file blocksizeW) cfg with
  | .ok (_, s) => some s
  | .error _ => none

/-- The read position of the stream, when it is open. -/
def streamPos (s : cWaveSource) : Option Nat :=
  match s.filehandle with
  | some f => some f.pos
  | none => none

/-- The cell of row `c` and column `i` of the member `mat` after one
`readData()` call on the state `s`. -/
def cellAfterRead (s : cWaveSource) (c i : Nat) : Option ℚ :=
  match readData s none with
  | .ok (_, s1, _) =>
    match s1.mat with
    | some m => some (m.dataF c i)
    | none => none
  | .error _ => none

/-! ## Range resolution in the words of the specification -/

/-- The end counted from the end of the file, in the words of the
specification: `T - endrelSamples` when `endrelSamples` is set (a negative
value counting as 0), else `T - floor(endrel * rate)` when `endrel` is set,
else `T`. -/
def relativeEnd (cfg : ConfigInstance) (rate : ℚ) (T : Int) : Int :=
  match cfg.endrelSamples with
  | some r => T - max r 0
  | none => if cfg.endrelIsSet then T - Int.floor (cfg.endrel * rate) else T

/-- The start frame as the specification states it: the explicit
`startSamples` when set, otherwise `floor(start * sampleRate)`, clamped into
`[0, T]`. -/
def specStartFrame (cfg : ConfigInstance) (sampleRate : Nat) (T : Int) : Int :=
  let raw : Int :=
    match cfg.startSamples with
    | some v => v
    | none => Int.floor (cfg.start * (sampleRate : ℚ))
  min T (max 0 raw)

/-- The end frame as the specification states it: the explicit `endSamples`
if set and non-negative; otherwise `ceil(end * sampleRate)` if `end` is
non-negative; otherwise the end relative to the end of the file; a negative
result becomes 0 and the value is clamped into `[0, T]`. -/
def specEndFrame (cfg : ConfigInstance) (sampleRate : Nat) (T : Int) : Int :=
  let fromSeconds : Int :=
    if 0 ≤ cfg.endSec then Int.ceil (cfg.endSec * (sampleRate : ℚ))
    else relativeEnd cfg (sampleRate : ℚ) T
  let raw : Int :=
    match cfg.endSamples with
    | some v => if 0 ≤ v then v else fromSeconds
    | none => fromSeconds
  min T (max 0 raw)

/-- The start frame rule with the arithmetic `configureWriter` uses: `rate` is
`srate` (the sample rate, or 1 when that is 0), and the floor is taken of the
product `start * rate` rounded to `double`. -/
def startFrameRule (cfg : ConfigInstance) (rate : ℚ) (T : Int) : Int :=
  let raw : Int :=
    match cfg.startSamples with
    | some v => v
    | none => Int.floor (Ieee.fl64 (cfg.start * rate))
  min T (max 0 raw)

/-- The end counted from the end of the file with the arithmetic
`configureWriter` uses: as `relativeEnd`, the floor being taken of the product
`endrel * rate` rounded to `double`. -/
def relativeEndRule (cfg : ConfigInstance) (rate : ℚ) (T : Int) : Int :=
  match cfg.endrelSamples with
  | some r => T - max r 0
  | none => if cfg.endrelIsSet then T - Int.floor (Ieee.fl64 (cfg.endrel * rate)) else T

/-- The end frame rule with the precedence and the arithmetic `configureWriter`
uses: a set `endSamples` is taken when non-negative and otherwise sends the
resolution straight to the end relative to the end of the file; `end` in
seconds is consulted only when `endSamples` is not set, and the ceiling is
taken of the product `end * rate` rounded to `double`. -/
def endFrameRule (cfg : ConfigInstance) (rate : ℚ) (T : Int) : Int :=
  let raw : Int :=
    match cfg.endSamples with
    | some v => if 0 ≤ v then v else relativeEndRule cfg rate T
    | none =>
      if 0 ≤ cfg.endSec then Int.ceil (Ieee.fl64 (cfg.endSec * rate))
      else relativeEndRule cfg rate T
  min T (max 0 raw)

/-- A mono 16 bit file of 20 frames with a sample rate of 100 Hz. -/
def rate100File : List Byte :=
  canonicalHeader 1 100 2 16 magicData 40 ++ List.replicate 40 0

/-- The configuration `start = 0.03` seconds (the `double` nearest to 0.03),
everything else at its default. -/
def startAtThreeHundredths : ConfigInstance :=
  { defaultConfig with start := Ieee.fl64 (3 / 100) }

/-- The configuration `end = 0.07` seconds (the `double` nearest to 0.07),
everything else at its default. -/
def endAtSevenHundredths : ConfigInstance :=
  { defaultConfig with endSec := Ieee.fl64 (7 / 100) }

/-- The configuration `end = 0.01` seconds (the `double` nearest to 0.01),
everything else at its default. -/
def endAtOneHundredth : ConfigInstance :=
  { defaultConfig with endSec := Ieee.fl64 (1 / 100) }

/-- A mono 16 bit file of 10 frames whose sample rate field is 0. -/
def zeroRateFile : List Byte :=
  canonicalHeader 1 0 2 16 magicData 20 ++ List.replicate 20 0

/-- The state `configureWriter` leaves on `mono16File` when it resolves the
range `[startSamples, endSamples]`; the stream is at `pos`. -/
def mono16State (cfg : ConfigInstance) (pos : Nat) (startSamples endSamples : Int)
    (blocksizeW : Int) : cWaveSource where
  filehandle := some ⟨mono16File, pos⟩
  pcmParam := ⟨8000, 1, 2, 16, 10, 2⟩
  pcmDataBegin := 44
  curReadPos := startSamples
  eof := false
  monoMixdown := cfg.monoMixdown
  start := cfg.start
  endSec := cfg.endSec
  endrel := cfg.endrel
  startSamples := startSamples
  endSamples := endSamples
  endrelSamples := 0
  blocksizeW := blocksizeW
  mat := none

/-- The configuration `startSamples = 2`, everything else at its default. -/
def startAtTwo : ConfigInstance := { defaultConfig with startSamples := some 2 }

/-- The configuration `start = 3` (seconds), everything else at its default. -/
def startAtThreeSeconds : ConfigInstance := { defaultConfig with start := 3 }

/-- The configuration `startSamples = 0`, `endSamples = 8`. -/
def endAtEight : ConfigInstance :=
  { defaultConfig with startSamples := some 0, endSamples := some 8 }

/-- The configuration `endSamples = -1` (explicitly set) and `end = 0.0005`
seconds (2^-11, a `double`). -/
def endUnsetBySentinel : ConfigInstance :=
  { defaultConfig with endSamples := some (-1), endSec := 1 / 2048 }

/-- The configuration `startSamples = 5`, `endSamples = 3`. -/
def startAfterEnd : ConfigInstance :=
  { defaultConfig with startSamples := some 5, endSamples := some 3 }

/-- The configuration `startSamples = 1`, `endSamples = 9`. -/
def oneToNine : ConfigInstance :=
  { defaultConfig with startSamples := some 1, endSamples := some 9 }

/-- The sample formats the two `switch` statements of `readData` convert: 1
or 2 bytes per sample, or 4 bytes per sample with 24 or 32 bits. -/
def convertible (p : sWaveParameters) : Bool :=
  p.nBPS == 1 || p.nBPS == 2 || (p.nBPS == 4 && (p.nBits == 24 || p.nBits == 32))

/-- A state in which `readData()` calls stream from the open file `fh`: the
latch is clear, the block size is at least one frame, the frame size is not 0,
the sample format is convertible, the cursor has not passed the resolved end,
the file holds every byte from the read position up to the resolved end, and
the member `mat`, once allocated, has `blocksizeW` columns and the row count
`setupNewNames` gives it. -/
structure Streaming (s : cWaveSource) (fh : FileStream) : Prop where
  latch : s.eof = false
  handle : s.filehandle = some fh
  block : 1 ≤ s.blocksizeW
  align : 0 < s.pcmParam.blockSize
  format : convertible s.pcmParam = true
  cursor : s.curReadPos ≤ s.endSamples
  avail : (fh.pos : Int) + (s.endSamples - s.curReadPos) * (s.pcmParam.blockSize : Int)
    ≤ (fh.content.length : Int)
  buffer : ∀ m, s.mat = some m →
    m.nT = s.blocksizeW ∧ m.N = (if s.monoMixdown then 1 else (s.pcmParam.nChan : Int))

/-- The abort a run ended with, if it did. -/
def abortOf {α : Type} (r : Except Abort α) : Option Abort :=
  match r with
  | .ok _ => none
  | .error a => some a

/-- The matrix lines 291-297 of `readData` select: the caller's, or the
member `mat`, allocated when absent. -/
def selectedMatrix (s : cWaveSource) (mArg : Option cMatrix) : cMatrix :=
  match mArg with
  | some m => m
  | none =>
    match s.mat with
    | some m => m
    | none =>
      if s.monoMixdown then allocMat 1 s.blocksizeW
      else allocMat (s.pcmParam.nChan : Int) s.blocksizeW

/-- The matrix a `readData` call worked on, after the call: the caller's, or
the member `mat`. -/
def resultMatrix (s1 : cWaveSource) (mOut : Option cMatrix) : Option cMatrix :=
  match mOut with
  | some m => some m
  | none => s1.mat

/-- The condition of line 298 under which `readData` reports an incompatible
read and returns 0 without reading. -/
def rowMismatch (s : cWaveSource) (m : cMatrix) : Bool :=
  decide (m.N ≠ (s.pcmParam.nChan : Int) ∧ (s.monoMixdown = false ∧ m.N = 1))

/-- The requested byte count in the words of the specification:
`min(blockFrames, endFrame - currentFrame) * blockAlign`. -/
def requestedBytes (s : cWaveSource) : Int :=
  min s.blocksizeW (s.endSamples - s.curReadPos) * (s.pcmParam.blockSize : Int)

/-- The number of bytes the stream delivers when `requestedBytes` are asked
of it. -/
def deliveredBytes (s : cWaveSource) : Nat :=
  match s.filehandle with
  | some fh => (fh.fread (requestedBytes s).toNat).1.length
  | none => 0

/-- The byte count of a whole block, `blockFrames * blockAlign`. -/
def fullBlockBytes (s : cWaveSource) : Int :=
  (s.pcmParam.blockSize : Int) * s.blocksizeW

/-- The latch after one `readData()` call on the state `s`, when it returns. -/
def eofAfterRead (s : cWaveSource) : Option Bool :=
  match readData s none with
  | .ok (_, s1, _) => some s1.eof
  | .error _ => none

/-- The state `configureWriter` leaves on `mono16File` for the range `[0, 8]`
with a block size of 16 frames. -/
def shortRangeState : cWaveSource := mono16State endAtEight 44 0 8 16

/-- A state after the end of the stream: the latch is set and the stream is
closed. -/
def latchedState : cWaveSource :=
  { mono16State endAtEight 44 8 8 16 with eof := true, filehandle := none }

/-- A mono file of three frames with 24 significant bits in a 4 byte word: the
words 0x00FFFFFF (the 24 bit pattern of -1), 0x00800000 (that of -8388608) and
0xFF000001. -/
def negative24File : List Byte :=
  canonicalHeader 1 8000 4 24 magicData 12
    ++ (u32le 0xFFFFFF ++ u32le 0x800000 ++ u32le 0xFF000001)

/-- A stereo, 16 bit, 8000 Hz file of two frames: the samples (1, 2) and
(3, 4). -/
def stereo16File : List Byte :=
  canonicalHeader 2 8000 4 16 magicData 8 ++ (u16le 1 ++ u16le 2 ++ u16le 3 ++ u16le 4)

/-- A caller's matrix of `rows` rows and two columns, holding zeros. -/
def callerMatrix (rows : Int) : cMatrix := ⟨rows, 2, fun _ _ => 0⟩

/-- What one `readData(m)` call on the caller's matrix `m` returns, with the
stream position and the cursor it leaves; `none` when it aborts. -/
def callOutcome (s : cWaveSource) (m : cMatrix) : Option (Nat × Option Nat × Int) :=
  match readData s (some m) with
  | .ok (ret, s1, _) => some (ret, streamPos s1, s1.curReadPos)
  | .error _ => none

/-- A state like `shortRangeState` for a header that declares one channel of
8 byte samples with 64 bits. -/
def wideSampleState : cWaveSource :=
  { shortRangeState with pcmParam := ⟨8000, 1, 8, 64, 2, 8⟩ }

/-- The configuration `start = 1e30` seconds, everything else at its default.
-/
def startBeyondLong : ConfigInstance :=
  { defaultConfig with start := Ieee.fl64 1000000000000000000000000000000 }

/-- The configuration `end = 1e30` seconds and `endrel = 2^-10` seconds. -/
def endBeyondLong : ConfigInstance :=
  { defaultConfig with
    endSec := Ieee.fl64 1000000000000000000000000000000
    endrel := 1 / 1024
    endrelIsSet := true }

end WaveSource

/-!
# `cFunctionalPercentiles` (quartiles, percentiles and their ranges)

A shallow embedding of `src/src/functionalPercentiles.cpp`.

Modelling conventions

* `double` and `FLOAT_DMEM` values are rationals.  The type `FLOAT_DMEM` is
  declared outside the source files; the specification calls these values
  `float`, and they are taken to be IEEE binary32.  An operation on `double`
  operands is the exact operation rounded to binary64 (`Ieee.fl64`), one on
  `FLOAT_DMEM` operands is rounded to binary32 (`Ieee.fl32`), each operation on
  its own (no extended precision, no fused multiply-add); a conversion from
  `double` to `FLOAT_DMEM` rounds to binary32, and one from `long` to `double`
  rounds to binary64.
* The conversion of a `double` to `long` is `Ieee.castLong`.
* `long` and `int` values are mathematical integers.
-/

namespace FunctionalPercentiles

/-! ## Constants -/

/-- The macro `FUNCT_QUART1`. -/
def FUNCT_QUART1 : Nat := 0
/-- The macro `FUNCT_QUART2`. -/
def FUNCT_QUART2 : Nat := 1
/-- The macro `FUNCT_QUART3`. -/
def FUNCT_QUART3 : Nat := 2
/-- The macro `FUNCT_IQR12`. -/
def FUNCT_IQR12 : Nat := 3
/-- The macro `FUNCT_IQR23`. -/
def FUNCT_IQR23 : Nat := 4
/-- The macro `FUNCT_IQR13`. -/
def FUNCT_IQR13 : Nat := 5
/-- The macro `FUNCT_PERCENTILE`. -/
def FUNCT_PERCENTILE : Nat := 6
/-- The macro `FUNCT_PCTLRANGE`. -/
def FUNCT_PCTLRANGE : Nat := 7

/-! ## Rank estimation -/

/-- The C library function `round`: the nearest integer, halves away from
zero. -/
def cRound (x : ℚ) : Int :=
  if 0 ≤ x then Int.floor (x + 1 / 2) else Int.ceil (x - 1 / 2)

/-- The element `a[i]` of a C array of floats given as a list.  Outside the
array the C read is undefined; here it is 0, and the theorems index inside. -/
def elem (a : List ℚ) (i : Int) : ℚ :=
  if i < 0 then 0 else a.getD i.toNat 0

/-- The method `cFunctionalPercentiles::getPctlIdx` (lines 228-234):
`(long)round(p*(double)(N-1))`, clamped. -/
def getPctlIdx (p : ℚ) (N : Int) : Int :=
  let ret : Int := Ieee.castLong (cRound (Ieee.fl64 (p * Ieee.fl64 ((N - 1 : Int) : ℚ))))
  if ret < 0 then 0
  else if ret ≥ N then N - 1
  else ret

/-- The method `cFunctionalPercentiles::getInterpPctl` (lines 237-255). -/
def getInterpPctl (p : ℚ) (sorted : List ℚ) (N : Int) : ℚ :=
  let idx : ℚ := Ieee.fl64 (p * Ieee.fl64 ((N - 1 : Int) : ℚ))
  let i1 : Int := Ieee.castLong (Int.floor idx)
  let i2 : Int := Ieee.castLong (Int.ceil idx)
  let i1 : Int := if i1 < 0 then 0 else i1
  let i2 : Int := if i2 < 0 then 0 else i2
  let i1 : Int := if i1 ≥ N then N - 1 else i1
  let i2 : Int := if i2 ≥ N then N - 1 else i2
  if i1 ≠ i2 then
    let w1 : ℚ := Ieee.fl64 (idx - Ieee.fl64 (i1 : ℚ))
    let w2 : ℚ := Ieee.fl64 (Ieee.fl64 (i2 : ℚ) - idx)
    Ieee.fl32 (Ieee.fl32 (elem sorted i1 * Ieee.fl32 w2)
      + Ieee.fl32 (elem sorted i2 * Ieee.fl32 w1))
  else elem sorted i1

/-! ## The component state and its configuration -/

/-- The members of `cFunctionalPercentiles` that the modelled methods touch
(`enab` is the flag array of the base class).  The arrays `pctl`, `pctlr1` and
`pctlr2` are lists; `NULL` is the empty list. -/
structure cFunctionalPercentiles where
  enab : Nat → Int
  nPctl : Int
  nPctlRange : Int
  pctl : List ℚ
  pctlr1 : List Int
  pctlr2 : List Int
  quickAlgo : Int
  interp : Int

/-- What the configuration manager answers for this instance: `getInt` for the
integer keys, for `quartiles` and `iqr` also `isSet` (`none` is "not set"),
and the arrays `percentile[]` and `pctlrange[]` (`getArraySize` is their
length, `getDouble_f` and `getStr_f` give their elements). -/
structure ConfigInstance where
  interp : Int
  quartile1 : Int
  quartile2 : Int
  quartile3 : Int
  quartiles : Option Int
  iqr12 : Int
  iqr23 : Int
  iqr13 : Int
  iqr : Option Int
  percentile : List ℚ
  pctlrange : List (List Char)

/-- The constructor `cFunctionalPercentiles::cFunctionalPercentiles`.  The
flag array is allocated by the constructor of the base class
`cFunctionalComponent`, which is not in the source files: its initial content
is the parameter `enab0`. -/
def construct (enab0 : Nat → Int) : cFunctionalPercentiles where
  enab := enab0
  nPctl := 0
  nPctlRange := 0
  pctl := []
  pctlr1 := []
  pctlr2 := []
  quickAlgo := 0
  interp := 0

/-- The assignment `enab[i] = v`. -/
def setEnab (e : Nat → Int) (i : Nat) (v : Int) : Nat → Int :=
  fun j => if j = i then v else e j

/-! ## Parsing a percentile range -/

/-- The C library function `isspace` (in the C locale). -/
def isspace (c : Char) : Bool :=
  c.toNat == 32 || (9 ≤ c.toNat && c.toNat ≤ 13)

/-- The C library function `isdigit`. -/
def isdigit (c : Char) : Bool :=
  48 ≤ c.toNat && c.toNat ≤ 57

/-- The decimal digits at the head of a string: their value on top of `acc`,
and their number on top of `k`. -/
def readDigits : List Char → Nat → Nat → Nat × Nat
  | [], acc, k => (acc, k)
  | c :: cs, acc, k =>
    if isdigit c then readDigits cs (acc * 10 + (c.toNat - 48)) (k + 1) else (acc, k)

/-- The call `strtol(s, &ep, 10)`: the value and `ep - s`, the number of
characters converted.  White space is skipped, a sign is optional, and when no
digit follows nothing is converted: the value is 0 and `ep == s`.  The value
is clamped into the range of `long` (64 bits). -/
def strtol (s : List Char) : Int × Nat :=
  let ws : Nat := (s.takeWhile isspace).length
  let rest : List Char := s.drop ws
  let sign : Bool × Nat :=
    match rest with
    | c :: _ => if c.toNat = 45 then (true, 1) else if c.toNat = 43 then (false, 1) else (false, 0)
    | [] => (false, 0)
  let d : Nat × Nat := readDigits (rest.drop sign.2) 0 0
  if d.2 = 0 then (0, 0)
  else
    let v : Int := if sign.1 then -(d.1 : Int) else (d.1 : Int)
    (max (-(2 ^ 63)) (min (2 ^ 63 - 1) v), ws + sign.2 + d.2)

/-- The conversion of a `long` to `int` (32 bits, two's complement). -/
def toInt (v : Int) : Int := (v + 2 ^ 31) % 2 ^ 32 - 2 ^ 31

/-- The call `strchr(tmp, '-')`: the offset of the first `-`, if there is one.
-/
def strchrDash (tmp : List Char) : Option Nat :=
  let k : Nat := (tmp.takeWhile (fun c => c.toNat != 45)).length
  if k < tmp.length then some k else none

/-- The errors the range parser reports through `SMILE_ERR`. -/
inductive RangeReport where
  /-- The message "X (=..) is out of range". -/
  | xOutOfRange
  /-- The message "Y (=..) is out of range". -/
  | yOutOfRange
  /-- The message "X must be != Y". -/
  | equalIndices
  /-- The message "Error parsing percentile range". -/
  | parseError
deriving DecidableEq

/-- The body of the loop over `pctlrange[i]` in `fetchConfig` (lines 151-194)
for one token: the values stored in `pctlr1[i]` and `pctlr2[i]`, and the
errors reported.  The pointer `tmp` is offset 0 of the token, `s2` is the
offset after the first `-`, and after the second `strtol` the pointer `ep` is
`s2` plus the number of characters converted, which the code compares with
`tmp`. -/
def parseRange (nPctl : Int) (tok : List Char) : Int × Int × List RangeReport :=
  match strchrDash tok with
  | some k =>
    let tmp : List Char := tok.take k
    let s2 : Nat := k + 1
    let c1 := strtol tmp
    let r1 : Int := toInt c1.1
    let err1 : Bool := r1 == 0 && c1.2 == 0
    let log1 : List RangeReport :=
      if err1 then [] else if r1 < 0 ∨ r1 ≥ nPctl then [.xOutOfRange] else []
    let c2 := strtol (tok.drop s2)
    let r2 : Int := toInt c2.1
    let err2 : Bool := r2 == 0 && (s2 + c2.2 == 0)
    let log2 : List RangeReport :=
      if err2 then []
      else if r2 < 0 ∨ r2 ≥ nPctl then [.yOutOfRange]
      else if r2 = r1 then [.equalIndices]
      else []
    if err1 || err2 then (-1, -1, log1 ++ log2 ++ [.parseError])
    else (r1, r2, log1 ++ log2)
  | none => (-1, -1, [.parseError])

/-! ## `fetchConfig` -/

/-- The clipping of one percentile fraction (lines 138-145):
`if (v < 0.0) v = 0.0; if (v > 1.0) v = 1.0;`. -/
def clip (v : ℚ) : ℚ :=
  let v : ℚ := if v < 0 then 0 else v
  if v > 1 then 1 else v

/-- Lines 113-119 of `fetchConfig`: the three quartile flags.  All three are
set to 1, set to 1 again where the individual key is non-zero, and overwritten
by `getInt("quartiles")` when that key is set. -/
def quartileFlags (e : Nat → Int) (cfg : ConfigInstance) : Nat → Int :=
  let e := setEnab (setEnab (setEnab e FUNCT_QUART3 1) FUNCT_QUART2 1) FUNCT_QUART1 1
  let e := if cfg.quartile1 ≠ 0 then setEnab e FUNCT_QUART1 1 else e
  let e := if cfg.quartile2 ≠ 0 then setEnab e FUNCT_QUART2 1 else e
  let e := if cfg.quartile3 ≠ 0 then setEnab e FUNCT_QUART3 1 else e
  match cfg.quartiles with
  | some v => setEnab (setEnab (setEnab e FUNCT_QUART3 v) FUNCT_QUART2 v) FUNCT_QUART1 v
  | none => e

/-- Lines 121-127 of `fetchConfig`: the three inter-quartile range flags, in
the same way from `iqr12`, `iqr23`, `iqr13` and `iqr`. -/
def iqrFlags (e : Nat → Int) (cfg : ConfigInstance) : Nat → Int :=
  let e := setEnab (setEnab (setEnab e FUNCT_IQR13 1) FUNCT_IQR23 1) FUNCT_IQR12 1
  let e := if cfg.iqr12 ≠ 0 then setEnab e FUNCT_IQR12 1 else e
  let e := if cfg.iqr23 ≠ 0 then setEnab e FUNCT_IQR23 1 else e
  let e := if cfg.iqr13 ≠ 0 then setEnab e FUNCT_IQR13 1 else e
  match cfg.iqr with
  | some v => setEnab (setEnab (setEnab e FUNCT_IQR13 v) FUNCT_IQR23 v) FUNCT_IQR12 v
  | none => e

/-- The method `cFunctionalPercentiles::fetchConfig` (lines 108-200) up to the
call of the base class method, which is not in the source files and only
counts the enabled flags into `nEnab`; `nEnab` is left out. -/
def fetchConfig (c : cFunctionalPercentiles) (cfg : ConfigInstance) : cFunctionalPercentiles :=
  let e := iqrFlags (quartileFlags c.enab cfg) cfg
  let nPctl : Int := (cfg.percentile.length : Int)
  let nPctlRange : Int := (cfg.pctlrange.length : Int)
  if nPctl > 0 then
    let e := setEnab e FUNCT_PERCENTILE 1
    let pctl : List ℚ := cfg.percentile.map clip
    if nPctlRange > 0 then
      { c with
        interp := cfg.interp
        enab := setEnab e FUNCT_PCTLRANGE 1
        nPctl := nPctl
        nPctlRange := nPctlRange
        pctl := pctl
        pctlr1 := cfg.pctlrange.map (fun tok => (parseRange nPctl tok).1)
        pctlr2 := cfg.pctlrange.map (fun tok => (parseRange nPctl tok).2.1) }
    else
      { c with interp := cfg.interp, enab := e, nPctl := nPctl, nPctlRange := nPctlRange,
               pctl := pctl }
  else
    { c with interp := cfg.interp, enab := e, nPctl := nPctl, nPctlRange := nPctlRange }

/-- The errors `fetchConfig` reports while parsing `pctlrange[]`, in order. -/
def rangeReports (cfg : ConfigInstance) : List RangeReport :=
  if cfg.percentile.length > 0 then
    (cfg.pctlrange.map (fun tok => (parseRange (cfg.percentile.length : Int) tok).2.2)).flatten
  else []

/-! ## `process` -/

/-- The output array `out` as `process` sees it, and the counter `n`. -/
abbrev OutState := (Nat → ℚ) × Nat

/-- The statement `out[n++] = v`. -/
def put (st : OutState) (v : ℚ) : OutState :=
  (fun j => if j = st.2 then v else st.1 j, st.2 + 1)

/-- How `process` ends other than by returning. -/
inductive Fault where
  /-- The array `inSorted` is `NULL` and is read (undefined behaviour). -/
  | nullSorted
deriving DecidableEq

/-- The loop over the percentile ranges (lines 334-340), `n0` being the
offset of the first percentile value in `out`. -/
def rangeLoop (c : cFunctionalPercentiles) (n0 : Nat) (st : OutState) : OutState :=
  (List.range c.nPctlRange.toNat).foldl
    (fun st i =>
      let r1 : Int := c.pctlr1.getD i 0
      let r2 : Int := c.pctlr2.getD i 0
      if r1 ≥ 0 ∧ r2 ≥ 0 then
        put st |Ieee.fl32 (st.1 ((n0 : Int) + r2).toNat - st.1 ((n0 : Int) + r1).toNat)|
      else put st 0)
    st

/-- The two loops over the percentiles (lines 325-333). -/
def percentileLoop (c : cFunctionalPercentiles) (inSorted : List ℚ) (Nin : Int)
    (st : OutState) : OutState :=
  if c.interp ≠ 0 then
    (List.range c.nPctl.toNat).foldl
      (fun st i => put st (getInterpPctl (c.pctl.getD i 0) inSorted Nin)) st
  else
    (List.range c.nPctl.toNat).foldl
      (fun st i => put st (elem inSorted (getPctlIdx (c.pctl.getD i 0) Nin))) st

/-- Lines 315-320 of `process`: the six guarded writes
`if (enab[..]) out[n++] = ..` of the quartiles and inter-quartile ranges. -/
def quartileWrites (c : cFunctionalPercentiles) (q1 q2 q3 : ℚ) (st : OutState) : OutState :=
  let st := if c.enab FUNCT_QUART1 ≠ 0 then put st q1 else st
  let st := if c.enab FUNCT_QUART2 ≠ 0 then put st q2 else st
  let st := if c.enab FUNCT_QUART3 ≠ 0 then put st q3 else st
  let st := if c.enab FUNCT_IQR12 ≠ 0 then put st (Ieee.fl32 (q2 - q1)) else st
  let st := if c.enab FUNCT_IQR23 ≠ 0 then put st (Ieee.fl32 (q3 - q2)) else st
  if c.enab FUNCT_IQR13 ≠ 0 then put st (Ieee.fl32 (q3 - q1)) else st

/-- Lines 323-342 of `process`: the percentiles and their ranges. -/
def variableWrites (c : cFunctionalPercentiles) (inSorted : List ℚ) (Nin : Int)
    (st : OutState) : OutState :=
  if c.enab FUNCT_PERCENTILE ≠ 0 ∨ c.enab FUNCT_PCTLRANGE ≠ 0 then
    let n0 : Nat := st.2
    let st := percentileLoop c inSorted Nin st
    if c.enab FUNCT_PCTLRANGE ≠ 0 then rangeLoop c n0 st else st
  else st

/-- The method `cFunctionalPercentiles::process` (lines 257-347) for float
data: the returned count and the array `out` afterwards.  `none` is a `NULL`
pointer.  The arguments `in` and `Nout` are not used by the code and are left
out; the writes to `out` are not bounded by the code. -/
def process (c : cFunctionalPercentiles) (inSorted : Option (List ℚ))
    (out : Option (Nat → ℚ)) (Nin : Int) : Except Fault (Int × Option (Nat → ℚ)) :=
  match out with
  | none => .ok (0, none)
  | some o =>
    if Nin > 0 then
      if c.quickAlgo ≠ 0 then .ok (0, some o)
      else
        match inSorted with
        | none => .error .nullSorted
        | some sorted =>
          let q1 : ℚ :=
            if c.interp ≠ 0 then getInterpPctl (1 / 4) sorted Nin
            else elem sorted (getPctlIdx (1 / 4) Nin)
          let q2 : ℚ :=
            if c.interp ≠ 0 then getInterpPctl (1 / 2) sorted Nin
            else elem sorted (getPctlIdx (1 / 2) Nin)
          let q3 : ℚ :=
            if c.interp ≠ 0 then getInterpPctl (3 / 4) sorted Nin
            else elem sorted (getPctlIdx (3 / 4) Nin)
          let st : OutState := quartileWrites c q1 q2 q3 (o, 0)
          let st := variableWrites c sorted Nin st
          .ok ((st.2 : Int), some st.1)
    else .ok (0, some o)

/-! ## Rank estimation in the words of the specification, and data to run on -/

/-- An index clamped into `[0, N-1]`. -/
def clampIndex (N x : Int) : Int := max 0 (min (N - 1) x)

/-- The position `p*(double)(N-1)` as the code computes it: `N-1` converted to
`double` and the product rounded to `double`. -/
def rankPosition (p : ℚ) (N : Int) : ℚ :=
  Ieee.fl64 (p * Ieee.fl64 ((N - 1 : Int) : ℚ))

/-- The interpolated estimate with the arithmetic of the code: with `pos` the
rounded position, `i1 = floor(pos)` and `i2 = ceil(pos)` clamped into
`[0, N-1]`, it is `sorted[i1]` when `i1 = i2`; otherwise the weights
`i2 - pos` and `pos - i1` are computed in `double` and converted to
`FLOAT_DMEM`, and the two products and their sum are `FLOAT_DMEM` operations.
-/
def interpRounded (p : ℚ) (sorted : List ℚ) (N : Int) : ℚ :=
  let pos : ℚ := rankPosition p N
  let i1 : Int := clampIndex N (Int.floor pos)
  let i2 : Int := clampIndex N (Int.ceil pos)
  if i1 = i2 then elem sorted i1
  else
    Ieee.fl32
      (Ieee.fl32 (elem sorted i1 * Ieee.fl32 (Ieee.fl64 (Ieee.fl64 (i2 : ℚ) - pos)))
        + Ieee.fl32 (elem sorted i2 * Ieee.fl32 (Ieee.fl64 (pos - Ieee.fl64 (i1 : ℚ)))))

/-- The interpolated estimate as the specification defines it: with
`pos = p*(N-1)`, `i1 = floor(pos)` and `i2 = ceil(pos)` clamped into
`[0, N-1]`, it is `sorted[i1]` when `i1 = i2` and
`sorted[i1]*(i2 - pos) + sorted[i2]*(pos - i1)` otherwise. -/
def interpReference (p : ℚ) (sorted : List ℚ) (N : Int) : ℚ :=
  let pos : ℚ := p * ((N - 1 : Int) : ℚ)
  let i1 : Int := clampIndex N (Int.floor pos)
  let i2 : Int := clampIndex N (Int.ceil pos)
  if i1 = i2 then elem sorted i1
  else elem sorted i1 * ((i2 : ℚ) - pos) + elem sorted i2 * (pos - (i1 : ℚ))

/-- The sorted window of the samples 0, 16384, -32768, 32767. -/
def exampleWindow : List ℚ := [-32768, 0, 16384, 32767]

/-- A configuration with `interp = 0` and every other key unset or 0. -/
def nearestRankConfig : ConfigInstance where
  interp := 0
  quartile1 := 0
  quartile2 := 0
  quartile3 := 0
  quartiles := none
  iqr12 := 0
  iqr23 := 0
  iqr13 := 0
  iqr := none
  percentile := []
  pctlrange := []

/-- A flag array of zeros, as `calloc` gives it. -/
def zeroFlags : Nat → Int := fun _ => 0

/-- An output array of zeros. -/
def zeroOut : Nat → ℚ := fun _ => 0

/-- The cell `out[j]` after `process`, when it returns with a present array. -/
def outCell (r : Except Fault (Int × Option (Nat → ℚ))) (j : Nat) : Option ℚ :=
  match r with
  | .ok (_, some o) => some (o j)
  | _ => none

/-- The count `process` returns, when it returns. -/
def outCount (r : Except Fault (Int × Option (Nat → ℚ))) : Option Int :=
  match r with
  | .ok (n, _) => some n
  | .error _ => none

/-- A configuration with the percentile fractions 1.5, -0.2 and 0.3. -/
def clippedConfig : ConfigInstance :=
  { nearestRankConfig with percentile := [3 / 2, -1 / 5, 3 / 10] }

/-- A configuration with the percentile fractions 0, 0.5 and 1, the range
tokens `2-2` and `0-5`, and the quartiles and inter-quartile ranges switched
off. -/
def badRangeConfig : ConfigInstance :=
  { nearestRankConfig with
    quartiles := some 0
    iqr := some 0
    percentile := [0, 1 / 2, 1]
    pctlrange := [['2', '-', '2'], ['0', '-', '5']] }

/-- An output array holding 100 in every cell. -/
def hundredOut : Nat → ℚ := fun _ => 100

/-! ## The outputs of `process` in the words of the specification -/

/-- The array `o` with the values `l` written contiguously from index 0; the
cells from `l.length` on are those of `o`. -/
def writeList (o : Nat → ℚ) (l : List ℚ) : Nat → ℚ :=
  fun j => if j < l.length then l.getD j 0 else o j

/-- The estimate for the fraction `p` in the mode the state selects:
interpolated when `interp` is set, nearest rank otherwise. -/
def estimate (c : cFunctionalPercentiles) (p : ℚ) (sorted : List ℚ) (N : Int) : ℚ :=
  if c.interp ≠ 0 then getInterpPctl p sorted N else elem sorted (getPctlIdx p N)

/-- The value `v` when the flag `enab[i]` is enabled, nothing otherwise. -/
def whenEnabled (c : cFunctionalPercentiles) (i : Nat) (v : ℚ) : List ℚ :=
  if c.enab i ≠ 0 then [v] else []

/-- Those of `[q1, q2, q3, q2-q1, q3-q2, q3-q1]` whose flag is enabled, in
that order; the differences are `FLOAT_DMEM` subtractions. -/
def quartileOutputs (c : cFunctionalPercentiles) (sorted : List ℚ) (N : Int) : List ℚ :=
  whenEnabled c FUNCT_QUART1 (estimate c (1 / 4) sorted N)
    ++ whenEnabled c FUNCT_QUART2 (estimate c (1 / 2) sorted N)
    ++ whenEnabled c FUNCT_QUART3 (estimate c (3 / 4) sorted N)
    ++ whenEnabled c FUNCT_IQR12
        (Ieee.fl32 (estimate c (1 / 2) sorted N - estimate c (1 / 4) sorted N))
    ++ whenEnabled c FUNCT_IQR23
        (Ieee.fl32 (estimate c (3 / 4) sorted N - estimate c (1 / 2) sorted N))
    ++ whenEnabled c FUNCT_IQR13
        (Ieee.fl32 (estimate c (3 / 4) sorted N - estimate c (1 / 4) sorted N))

/-- Whether the percentile or the percentile-range output is enabled. -/
def variableEnabled (c : cFunctionalPercentiles) : Bool :=
  decide (c.enab FUNCT_PERCENTILE ≠ 0 ∨ c.enab FUNCT_PCTLRANGE ≠ 0)

/-- A configuration with two percentile fractions and one range, quartile 2
switched off by nothing (the individual keys do not switch off). -/
def twoPercentilesConfig : ConfigInstance :=
  { nearestRankConfig with percentile := [1 / 4, 3 / 4], pctlrange := [['0', '-', '1']] }

/-- A configuration with the percentile fractions 0 and 1, the range tokens
`x-1`, `1-x`, `abc` and `0-1`, and the quartiles and inter-quartile ranges
switched off. -/
def malformedRangeConfig : ConfigInstance :=
  { nearestRankConfig with
    quartiles := some 0
    iqr := some 0
    percentile := [0, 1]
    pctlrange := [['x', '-', '1'], ['1', '-', 'x'], ['a', 'b', 'c'], ['0', '-', '1']] }

/-- The percentile values `process` emits, in order: one estimate per stored
fraction. -/
def percentileOutputs (c : cFunctionalPercentiles) (sorted : List ℚ) (N : Int) : List ℚ :=
  (List.range c.nPctl.toNat).map (fun i => estimate c (c.pctl.getD i 0) sorted N)

/-- What the specification says of a percentile-range value `v` for the stored
pair `(A, B)` and the emitted percentile values `P`: it is not negative, it is
0 when an index is negative (as in the sentinel (-1, -1)), and it is
`|P[B] - P[A]|`, the difference being a `FLOAT_DMEM` subtraction, when both
indices point into `P`. -/
def RangeValue (P : List ℚ) (A B : Int) (v : ℚ) : Prop :=
  0 ≤ v
    ∧ ((A < 0 ∨ B < 0) → v = 0)
    ∧ (0 ≤ A → A.toNat < P.length → 0 ≤ B → B.toNat < P.length →
        v = |Ieee.fl32 (P.getD B.toNat 0 - P.getD A.toNat 0)|)

/-- The tolerance of the interpolated estimate: `2^-21` of the larger
magnitude of the two ends of the window, plus `2^-148`. -/
def interpTolerance (sorted : List ℚ) (N : Int) : ℚ :=
  max |elem sorted 0| |elem sorted (N - 1)| * Ieee.pow2 (-21) + Ieee.pow2 (-148)

/-- The values of the first `k` percentile ranges in the words of the
specification, read off the output array: `written` are the values already in
`out` from index 0 (over the array `o`), `n0` is the offset of the first
percentile value.  The range `i` with the stored pair `(A, B)` gives
`|out[n0+B] - out[n0+A]|`, a `FLOAT_DMEM` subtraction on the array as it is
after the ranges before `i`, when both indices are non-negative, and 0
otherwise. -/
def rangeOutputs (c : cFunctionalPercentiles) (o : Nat → ℚ) (written : List ℚ) (n0 : Nat) :
    Nat → List ℚ
  | 0 => []
  | k + 1 =>
    let before : List ℚ := rangeOutputs c o written n0 k
    let cells : Nat → ℚ := writeList o (written ++ before)
    before ++
      [if c.pctlr1.getD k 0 ≥ 0 ∧ c.pctlr2.getD k 0 ≥ 0 then
        |Ieee.fl32 (cells ((n0 : Int) + c.pctlr2.getD k 0).toNat
          - cells ((n0 : Int) + c.pctlr1.getD k 0).toNat)|
      else 0]

/-- The values `process` is to write, in order, for the state `c` made from
the configuration `cfg`: the enabled quartile outputs, then, when the
percentile or the percentile-range output is enabled, one estimate per
configured percentile fraction (clipped into `[0, 1]`) and one value per
configured percentile range. -/
def expectedOutputs (c : cFunctionalPercentiles) (cfg : ConfigInstance) (sorted : List ℚ)
    (o : Nat → ℚ) (N : Int) : List ℚ :=
  quartileOutputs c sorted N
    ++ (if variableEnabled c then
          cfg.percentile.map (fun v => estimate c (clip v) sorted N)
            ++ rangeOutputs c o
                (quartileOutputs c sorted N
                  ++ cfg.percentile.map (fun v => estimate c (clip v) sorted N))
                (quartileOutputs c sorted N).length cfg.pctlrange.length
        else [])

end FunctionalPercentiles

/-! # Theorems -/

namespace Ieee

/-- The executable power of two is the power of two. -/
theorem pow2_eq (k : Int) : pow2 k = (2 : ℚ) ^ k := by
  unfold pow2
  split
  · rename_i h
    have hk : ((k.toNat : Nat) : Int) = k := Int.toNat_of_nonneg h
    rw [Nat.cast_pow, Nat.cast_ofNat]
    nth_rewrite 2 [← hk]
    rw [zpow_natCast]
  · rename_i h
    have hk : (((-k).toNat : Nat) : Int) = -k := Int.toNat_of_nonneg (by omega)
    have hk2 : k = -(((-k).toNat : Nat) : Int) := by omega
    rw [Nat.cast_pow, Nat.cast_ofNat]
    nth_rewrite 2 [hk2]
    rw [zpow_neg, zpow_natCast, one_div]

/-- A power of two is positive. -/
theorem pow2_pos (k : Int) : 0 < pow2 k := by
  rw [pow2_eq]; positivity

/-- Powers of two multiply by adding exponents. -/
theorem pow2_add (a b : Int) : pow2 (a + b) = pow2 a * pow2 b := by
  rw [pow2_eq, pow2_eq, pow2_eq, zpow_add₀ (by norm_num)]

/-- Powers of two grow with the exponent. -/
theorem pow2_le (a b : Int) (h : a ≤ b) : pow2 a ≤ pow2 b := by
  rw [pow2_eq, pow2_eq]
  exact zpow_le_zpow_right₀ (by norm_num) h

/-- Powers of two are ordered as their exponents. -/
theorem pow2_lt_iff (a b : Int) : pow2 a < pow2 b ↔ a < b := by
  rw [pow2_eq, pow2_eq]
  exact zpow_lt_zpow_iff_right₀ (by norm_num)

/-- A power of two with a natural exponent is an integer. -/
theorem pow2_natCast (n : Nat) : pow2 (n : Int) = (((2 : Int) ^ n : Int) : ℚ) := by
  rw [pow2_eq, zpow_natCast]; push_cast; rfl

/-- With enough fuel the halving count is the binary logarithm. -/
theorem log2Fuel_eq (f : Nat) : ∀ n, n ≤ f → log2Fuel f n = Nat.log2 n := by
  induction f with
  | zero =>
    intro n hn
    have : n = 0 := by omega
    subst this
    simp [log2Fuel, Nat.log2]
  | succ f ih =>
    intro n hn
    unfold log2Fuel
    rw [Nat.log2]
    split
    · rename_i h
      rw [ih (n / 2) (by omega)]
    · rfl

/-- The position of the highest set bit is the binary logarithm. -/
theorem ilog2_eq (n : Nat) : ilog2 n = Nat.log2 n := log2Fuel_eq n n (le_refl n)

/-- A positive number lies between the power of two of its highest bit and the next. -/
theorem ilog2_bounds (n : Nat) (h : n ≠ 0) : 2 ^ ilog2 n ≤ n ∧ n < 2 ^ (ilog2 n + 1) := by
  rw [ilog2_eq]
  exact ⟨Nat.log2_self_le h, Nat.lt_log2_self⟩


/-- The binary exponent brackets the magnitude of a non-zero number. -/
theorem binade_bounds (x : ℚ) (hx : x ≠ 0) :
    pow2 (binade x) ≤ |x| ∧ |x| < pow2 (binade x + 1) := by
  have hn : x.num.natAbs ≠ 0 := by
    intro h
    exact hx (Rat.zero_of_num_zero (Int.natAbs_eq_zero.mp h))
  have hd : x.den ≠ 0 := x.den_nz
  obtain ⟨n1, n2⟩ := ilog2_bounds _ hn
  obtain ⟨d1, d2⟩ := ilog2_bounds _ hd
  have habs : |x| = (x.num.natAbs : ℚ) / (x.den : ℚ) := by
    conv_lhs => rw [← Rat.num_div_den x]
    rw [abs_div, Nat.abs_cast, Nat.cast_natAbs, Int.cast_abs]
  have hdpos : (0 : ℚ) < (x.den : ℚ) := by exact_mod_cast Nat.pos_of_ne_zero hd
  have n1q : (2 : ℚ) ^ (ilog2 x.num.natAbs) ≤ (x.num.natAbs : ℚ) := by exact_mod_cast n1
  have n2q : (x.num.natAbs : ℚ) < (2 : ℚ) ^ (ilog2 x.num.natAbs + 1) := by exact_mod_cast n2
  have d1q : (2 : ℚ) ^ (ilog2 x.den) ≤ (x.den : ℚ) := by exact_mod_cast d1
  have d2q : (x.den : ℚ) < (2 : ℚ) ^ (ilog2 x.den + 1) := by exact_mod_cast d2
  have hup : |x| < pow2 ((ilog2 x.num.natAbs : Int) - (ilog2 x.den : Int) + 1) := by
    rw [habs, pow2_eq, div_lt_iff₀ hdpos]
    have e : ((ilog2 x.num.natAbs : Int) - (ilog2 x.den : Int) + 1)
        = ((ilog2 x.num.natAbs + 1 : Nat) : Int) - ((ilog2 x.den : Nat) : Int) := by push_cast; ring
    rw [e, zpow_sub₀ (by norm_num), zpow_natCast, zpow_natCast]
    have hp : (0 : ℚ) < 2 ^ ilog2 x.den := by positivity
    calc (x.num.natAbs : ℚ) < 2 ^ (ilog2 x.num.natAbs + 1) := n2q
      _ = 2 ^ (ilog2 x.num.natAbs + 1) / 2 ^ ilog2 x.den * 2 ^ ilog2 x.den := by
          field_simp
      _ ≤ 2 ^ (ilog2 x.num.natAbs + 1) / 2 ^ ilog2 x.den * (x.den : ℚ) := by
          apply mul_le_mul_of_nonneg_left d1q
          positivity
  have hlo : pow2 ((ilog2 x.num.natAbs : Int) - (ilog2 x.den : Int) - 1) ≤ |x| := by
    rw [habs, pow2_eq, le_div_iff₀ hdpos]
    have e : ((ilog2 x.num.natAbs : Int) - (ilog2 x.den : Int) - 1)
        = ((ilog2 x.num.natAbs : Nat) : Int) - ((ilog2 x.den + 1 : Nat) : Int) := by push_cast; ring
    rw [e, zpow_sub₀ (by norm_num), zpow_natCast, zpow_natCast]
    have hp : (0 : ℚ) < 2 ^ (ilog2 x.den + 1) := by positivity
    calc 2 ^ ilog2 x.num.natAbs / 2 ^ (ilog2 x.den + 1) * (x.den : ℚ)
        ≤ 2 ^ ilog2 x.num.natAbs / 2 ^ (ilog2 x.den + 1) * 2 ^ (ilog2 x.den + 1) := by
          apply mul_le_mul_of_nonneg_left (le_of_lt d2q)
          positivity
      _ = 2 ^ ilog2 x.num.natAbs := by field_simp
      _ ≤ (x.num.natAbs : ℚ) := n1q
  unfold binade
  simp only
  split
  · rename_i h
    exact ⟨h, hup⟩
  · rename_i h
    refine ⟨hlo, ?_⟩
    rw [sub_add_cancel]
    exact not_le.mp h


/-- The nearest integer is the floor or the floor plus one. -/
theorem roundEven_cases (x : ℚ) :
    roundEven x = Int.floor x ∨ roundEven x = Int.floor x + 1 := by
  unfold roundEven
  simp only
  split_ifs <;> simp

/-- The nearest integer is at most one half away. -/
theorem roundEven_error (x : ℚ) : |(roundEven x : ℚ) - x| ≤ 1 / 2 := by
  have h1 := Int.floor_le x
  have h2 := Int.lt_floor_add_one x
  unfold roundEven
  simp only
  rw [abs_le]
  split_ifs with a b c
  · constructor <;> linarith
  · push_cast; constructor <;> linarith
  · have : x - (Int.floor x : ℚ) = 1 / 2 := le_antisymm (not_lt.mp b) (not_lt.mp a)
    constructor <;> linarith
  · have : x - (Int.floor x : ℚ) = 1 / 2 := le_antisymm (not_lt.mp b) (not_lt.mp a)
    push_cast; constructor <;> linarith

/-- An integer is its own nearest integer. -/
theorem roundEven_intCast (n : Int) : roundEven (n : ℚ) = n := by
  unfold roundEven
  simp

/-- Rounding to the nearest integer is monotone. -/
theorem roundEven_mono (x y : ℚ) (h : x ≤ y) : roundEven x ≤ roundEven y := by
  have hf : Int.floor x ≤ Int.floor y := Int.floor_le_floor h
  rcases lt_or_eq_of_le hf with hlt | heq
  · have h1 : roundEven x ≤ Int.floor x + 1 := by
      rcases roundEven_cases x with e | e <;> omega
    have h2 : Int.floor y ≤ roundEven y := by
      rcases roundEven_cases y with e | e <;> omega
    omega
  · unfold roundEven
    simp only
    rw [← heq]
    have hd : x - (Int.floor x : ℚ) ≤ y - (Int.floor x : ℚ) := by linarith
    split_ifs <;> first | omega | (exfalso; linarith)

/-- Rounding to the nearest integer, ties to even, commutes with negation. -/
theorem roundEven_neg (x : ℚ) : roundEven (-x) = -roundEven x := by
  by_cases hint : (Int.floor x : ℚ) = x
  · rw [← hint, ← Int.cast_neg, roundEven_intCast, roundEven_intCast]
  · have h1 := Int.floor_le x
    have h2 := Int.lt_floor_add_one x
    have hlt : (Int.floor x : ℚ) < x := lt_of_le_of_ne h1 hint
    have hfl : Int.floor (-x) = -Int.floor x - 1 := by
      rw [Int.floor_eq_iff]
      push_cast
      constructor <;> linarith
    unfold roundEven
    simp only
    rw [hfl]
    push_cast
    have hmod : ∀ f : Int, ((-f - 1) % 2 = 0 ↔ ¬ (f % 2 = 0)) := by intro f; omega
    split_ifs <;> first | omega | (exfalso; linarith)


/-- Rounding a non-zero number: the nearest multiple of the spacing. -/
theorem fl_eq (prec : Nat) (emin : Int) (x : ℚ) (hx : x ≠ 0) :
    fl prec emin x = (roundEven (x / quantum prec emin x) : ℚ) * quantum prec emin x := by
  unfold fl
  rw [if_neg hx]

/-- Zero rounds to zero. -/
theorem fl_zero (prec : Nat) (emin : Int) : fl prec emin 0 = 0 := by
  unfold fl
  rw [if_pos rfl]

/-- A number and its negation have the same binary exponent. -/
theorem binade_neg (x : ℚ) : binade (-x) = binade x := by
  unfold binade
  simp only [Rat.num_neg_eq_neg_num, Int.natAbs_neg, Rat.den_neg_eq_den, abs_neg]

/-- A number and its negation have the same spacing. -/
theorem quantum_neg (prec : Nat) (emin : Int) (x : ℚ) :
    quantum prec emin (-x) = quantum prec emin x := by
  unfold quantum
  rw [binade_neg]

/-- The spacing is positive. -/
theorem quantum_pos (prec : Nat) (emin : Int) (x : ℚ) : 0 < quantum prec emin x :=
  pow2_pos _

/-- Rounding commutes with negation. -/
theorem fl_neg (prec : Nat) (emin : Int) (x : ℚ) : fl prec emin (-x) = -fl prec emin x := by
  by_cases hx : x = 0
  · subst hx
    simp [fl_zero]
  · have hx2 : -x ≠ 0 := neg_ne_zero.mpr hx
    rw [fl_eq _ _ _ hx, fl_eq _ _ _ hx2, quantum_neg, neg_div, roundEven_neg]
    push_cast
    ring

/-- The rounding error is at most half the spacing. -/
theorem fl_error_quantum (prec : Nat) (emin : Int) (x : ℚ) (hx : x ≠ 0) :
    |fl prec emin x - x| ≤ quantum prec emin x / 2 := by
  have hq := quantum_pos prec emin x
  rw [fl_eq _ _ _ hx]
  have h := roundEven_error (x / quantum prec emin x)
  have e : (roundEven (x / quantum prec emin x) : ℚ) * quantum prec emin x - x
      = ((roundEven (x / quantum prec emin x) : ℚ) - x / quantum prec emin x)
          * quantum prec emin x := by
    field_simp
  rw [e, abs_mul, abs_of_pos hq]
  calc |(roundEven (x / quantum prec emin x) : ℚ) - x / quantum prec emin x|
        * quantum prec emin x
      ≤ 1 / 2 * quantum prec emin x := mul_le_mul_of_nonneg_right h (le_of_lt hq)
    _ = quantum prec emin x / 2 := by ring

/-- The rounding error: at most `2^-prec` of the value, or `2^(emin - prec)`
below the normal range. -/
theorem fl_error (prec : Nat) (emin : Int) (x : ℚ) :
    |fl prec emin x - x| ≤ pow2 (-(prec : Int)) * |x| + pow2 (emin - (prec : Int)) := by
  by_cases hx : x = 0
  · subst hx
    rw [fl_zero]
    simp only [sub_zero, abs_zero, mul_zero, zero_add]
    exact le_of_lt (pow2_pos _)
  · have h := fl_error_quantum prec emin x hx
    have hb := (binade_bounds x hx).1
    have hp1 := pow2_pos (-(prec : Int))
    have hp2 := pow2_pos (emin - (prec : Int))
    have habs := abs_nonneg x
    have hhalf : ∀ k : Int, pow2 (k - ((prec : Int) - 1)) / 2 = pow2 (k - (prec : Int)) := by
      intro k
      have e : k - ((prec : Int) - 1) = (k - (prec : Int)) + 1 := by ring
      rw [e, pow2_add]
      have : pow2 1 = 2 := by decide
      rw [this]
      ring
    unfold quantum at h
    rw [hhalf] at h
    rcases le_total (binade x) emin with hle | hle
    · rw [max_eq_right hle] at h
      have : 0 ≤ pow2 (-(prec : Int)) * |x| := mul_nonneg (le_of_lt hp1) habs
      linarith
    · rw [max_eq_left hle] at h
      have e : binade x - (prec : Int) = -(prec : Int) + binade x := by ring
      rw [e, pow2_add] at h
      have : pow2 (-(prec : Int)) * pow2 (binade x) ≤ pow2 (-(prec : Int)) * |x| :=
        mul_le_mul_of_nonneg_left hb (le_of_lt hp1)
      linarith

/-- A non-negative number rounds to a non-negative number. -/
theorem fl_nonneg (prec : Nat) (emin : Int) (x : ℚ) (hx : 0 ≤ x) : 0 ≤ fl prec emin x := by
  by_cases h0 : x = 0
  · subst h0
    rw [fl_zero]
  · have hq := quantum_pos prec emin x
    rw [fl_eq _ _ _ h0]
    have h1 : (0 : ℚ) ≤ x / quantum prec emin x := div_nonneg hx (le_of_lt hq)
    have h2 := roundEven_mono 0 _ h1
    have h3 : roundEven (0 : ℚ) = 0 := by
      have := roundEven_intCast 0
      simpa using this
    rw [h3] at h2
    have h4 : (0 : ℚ) ≤ (roundEven (x / quantum prec emin x) : ℚ) := by exact_mod_cast h2
    exact mul_nonneg h4 (le_of_lt hq)

/-- A rounded positive value does not pass the next power of two. -/
theorem fl_upper (prec : Nat) (emin : Int) (x : ℚ) (hx : 0 < x) :
    fl prec emin x ≤ pow2 (max (binade x) emin + 1) := by
  have h0 : x ≠ 0 := ne_of_gt hx
  have hq := quantum_pos prec emin x
  have hb := (binade_bounds x h0).2
  rw [abs_of_pos hx] at hb
  have hle : x ≤ pow2 (max (binade x) emin + 1) :=
    le_trans (le_of_lt hb) (pow2_le _ _ (by have := le_max_left (binade x) emin; omega))
  have hsplit : pow2 (max (binade x) emin + 1)
      = (((2 : Int) ^ prec : Int) : ℚ) * quantum prec emin x := by
    unfold quantum
    rw [← pow2_natCast, ← pow2_add]
    congr 1
    ring
  rw [fl_eq _ _ _ h0, hsplit]
  apply mul_le_mul_of_nonneg_right _ (le_of_lt hq)
  have h1 : x / quantum prec emin x ≤ (((2 : Int) ^ prec : Int) : ℚ) := by
    rw [div_le_iff₀ hq, ← hsplit]
    exact hle
  have h2 := roundEven_mono _ _ h1
  rw [roundEven_intCast] at h2
  exact_mod_cast h2

/-- A rounded positive normal value does not fall below its power of two. -/
theorem fl_lower (prec : Nat) (emin : Int) (x : ℚ) (hx : 0 < x) (hp : 1 ≤ prec)
    (hn : emin ≤ binade x) : pow2 (binade x) ≤ fl prec emin x := by
  have h0 : x ≠ 0 := ne_of_gt hx
  have hq := quantum_pos prec emin x
  have hb := (binade_bounds x h0).1
  rw [abs_of_pos hx] at hb
  have hsplit : pow2 (binade x)
      = (((2 : Int) ^ (prec - 1) : Int) : ℚ) * quantum prec emin x := by
    unfold quantum
    rw [max_eq_left hn, ← pow2_natCast, ← pow2_add]
    congr 1
    have : ((prec - 1 : Nat) : Int) = (prec : Int) - 1 := by omega
    rw [this]
    ring
  rw [fl_eq _ _ _ h0, hsplit]
  apply mul_le_mul_of_nonneg_right _ (le_of_lt hq)
  have h1 : (((2 : Int) ^ (prec - 1) : Int) : ℚ) ≤ x / quantum prec emin x := by
    rw [le_div_iff₀ hq, ← hsplit]
    exact hb
  have h2 := roundEven_mono _ _ h1
  rw [roundEven_intCast] at h2
  exact_mod_cast h2

/-- The binary exponent grows with a positive number. -/
theorem binade_mono (x y : ℚ) (hx : 0 < x) (h : x ≤ y) : binade x ≤ binade y := by
  have hy : 0 < y := lt_of_lt_of_le hx h
  have bx := (binade_bounds x (ne_of_gt hx)).1
  have by' := (binade_bounds y (ne_of_gt hy)).2
  rw [abs_of_pos hx] at bx
  rw [abs_of_pos hy] at by'
  have : pow2 (binade x) < pow2 (binade y + 1) := lt_of_le_of_lt (le_trans bx h) by'
  have := (pow2_lt_iff _ _).mp this
  omega

/-- Rounding is monotone on positive numbers. -/
theorem fl_mono_pos (prec : Nat) (emin : Int) (hp : 1 ≤ prec) (x y : ℚ) (hx : 0 < x)
    (h : x ≤ y) : fl prec emin x ≤ fl prec emin y := by
  have hy : 0 < y := lt_of_lt_of_le hx h
  have hb := binade_mono x y hx h
  rcases eq_or_lt_of_le (max_le_max hb (le_refl emin)) with he | hlt
  · have hq : quantum prec emin x = quantum prec emin y := by
      unfold quantum
      rw [he]
    have hqp := quantum_pos prec emin y
    rw [fl_eq _ _ _ (ne_of_gt hx), fl_eq _ _ _ (ne_of_gt hy), hq]
    apply mul_le_mul_of_nonneg_right _ (le_of_lt hqp)
    have := roundEven_mono _ _ (div_le_div_of_nonneg_right h (le_of_lt hqp))
    exact_mod_cast this
  · have hn : emin ≤ binade y := by
      by_contra hc
      have h1 : max (binade y) emin = emin := max_eq_right (by omega)
      have h2 := le_max_right (binade x) emin
      omega
    have hmy : max (binade y) emin = binade y := max_eq_left hn
    calc fl prec emin x ≤ pow2 (max (binade x) emin + 1) := fl_upper prec emin x hx
      _ ≤ pow2 (binade y) := pow2_le _ _ (by omega)
      _ ≤ fl prec emin y := fl_lower prec emin y hy hp hn

/-- Rounding is monotone. -/
theorem fl_mono (prec : Nat) (emin : Int) (hp : 1 ≤ prec) (x y : ℚ) (h : x ≤ y) :
    fl prec emin x ≤ fl prec emin y := by
  rcases lt_trichotomy x 0 with hx | hx | hx
  · rcases lt_or_le y 0 with hy | hy
    · have h1 := fl_mono_pos prec emin hp (-y) (-x) (by linarith) (by linarith)
      rw [fl_neg, fl_neg] at h1
      linarith
    · have h1 := fl_nonneg prec emin (-x) (by linarith)
      rw [fl_neg] at h1
      have h2 := fl_nonneg prec emin y hy
      linarith
  · subst hx
    rw [fl_zero]
    exact fl_nonneg prec emin y h
  · exact fl_mono_pos prec emin hp x y hx h

/-- A multiple of the spacing is not changed by rounding. -/
theorem fl_exact (prec : Nat) (emin : Int) (x : ℚ) (m : Int)
    (h : x = (m : ℚ) * quantum prec emin x) : fl prec emin x = x := by
  by_cases hx : x = 0
  · subst hx
    exact fl_zero prec emin
  · have hq := quantum_pos prec emin x
    rw [fl_eq _ _ _ hx]
    have : x / quantum prec emin x = (m : ℚ) := by
      rw [div_eq_iff (ne_of_gt hq)]
      exact h
    rw [this, roundEven_intCast]
    exact h.symm


/-- An integer of at most `prec` bits is not changed by rounding. -/
theorem fl_intCast (prec : Nat) (emin : Int) (hp : 1 ≤ prec) (he : emin ≤ 0) (n : Int)
    (hn : |n| ≤ 2 ^ prec) : fl prec emin (n : ℚ) = (n : ℚ) := by
  by_cases h0 : n = 0
  · subst h0
    simpa using fl_zero prec emin
  · have hx : (n : ℚ) ≠ 0 := by exact_mod_cast h0
    obtain ⟨b1, b2⟩ := binade_bounds (n : ℚ) hx
    have habs1 : (1 : ℚ) ≤ |(n : ℚ)| := by
      have : (1 : Int) ≤ |n| := Int.one_le_abs h0
      exact_mod_cast this
    have habs2 : |(n : ℚ)| ≤ pow2 (prec : Int) := by
      rw [pow2_natCast]
      exact_mod_cast hn
    have hp0 : pow2 0 = 1 := by decide
    have e0 : 0 ≤ binade (n : ℚ) := by
      have : pow2 0 < pow2 (binade (n : ℚ) + 1) := by
        rw [hp0]; exact lt_of_le_of_lt habs1 b2
      have := (pow2_lt_iff _ _).mp this
      omega
    have e1 : binade (n : ℚ) ≤ prec := by
      by_contra hc
      have : pow2 (prec : Int) < pow2 (binade (n : ℚ)) := (pow2_lt_iff _ _).mpr (by omega)
      linarith
    have hmax : max (binade (n : ℚ)) emin = binade (n : ℚ) := max_eq_left (by omega)
    rcases lt_or_eq_of_le e1 with hlt | heq
    · obtain ⟨j, hj⟩ : ∃ j : Nat, (j : Int) = (prec : Int) - 1 - binade (n : ℚ) :=
        ⟨((prec : Int) - 1 - binade (n : ℚ)).toNat, Int.toNat_of_nonneg (by omega)⟩
      apply fl_exact prec emin (n : ℚ) (n * 2 ^ j)
      unfold quantum
      rw [hmax]
      have : binade (n : ℚ) - ((prec : Int) - 1) = -(j : Int) := by omega
      rw [this, pow2_eq, zpow_neg, zpow_natCast]
      push_cast
      field_simp
    · have habs3 : |(n : ℚ)| = pow2 (prec : Int) := le_antisymm habs2 (by rw [← heq]; exact b1)
      have hn2 : |n| = 2 ^ prec := by
        rw [pow2_natCast] at habs3
        exact_mod_cast habs3
      have hq : quantum prec emin (n : ℚ) = 2 := by
        unfold quantum
        rw [hmax, heq]
        have : (prec : Int) - ((prec : Int) - 1) = 1 := by ring
        rw [this]
        decide
      obtain ⟨k, hk⟩ : ∃ k : Nat, prec = k + 1 := ⟨prec - 1, by omega⟩
      have hpow : (2 : Int) ^ prec = 2 * 2 ^ k := by rw [hk, pow_succ]; ring
      rcases abs_eq_abs.mp (show |n| = |(2 : Int) ^ prec| by
          rw [hn2, abs_of_nonneg (by positivity)]) with hpos | hneg
      · apply fl_exact prec emin (n : ℚ) (2 ^ k)
        rw [hq, hpos, hpow]
        push_cast
        ring
      · apply fl_exact prec emin (n : ℚ) (-(2 ^ k))
        rw [hq, hneg, hpow]
        push_cast
        ring

/-- A rounded value of at least `2^(prec-1)` is an integer. -/
theorem fl_large_int (prec : Nat) (emin : Int) (hp : 1 ≤ prec) (x : ℚ) (hx : 0 < x)
    (h : pow2 ((prec : Int) - 1) ≤ fl prec emin x) : ∃ n : Int, fl prec emin x = (n : ℚ) := by
  have h0 : x ≠ 0 := ne_of_gt hx
  rcases le_or_lt ((prec : Int) - 1) (max (binade x) emin) with hge | hlt
  · obtain ⟨j, hj⟩ : ∃ j : Nat, (j : Int) = max (binade x) emin - ((prec : Int) - 1) :=
      ⟨(max (binade x) emin - ((prec : Int) - 1)).toNat, Int.toNat_of_nonneg (by omega)⟩
    refine ⟨roundEven (x / quantum prec emin x) * 2 ^ j, ?_⟩
    rw [fl_eq _ _ _ h0]
    have : quantum prec emin x = (((2 : Int) ^ j : Int) : ℚ) := by
      unfold quantum
      rw [← hj, pow2_natCast]
    rw [this]
    push_cast
    ring
  · have hu := fl_upper prec emin x hx
    have : pow2 (max (binade x) emin + 1) ≤ pow2 ((prec : Int) - 1) := pow2_le _ _ (by omega)
    have heq : fl prec emin x = pow2 ((prec : Int) - 1) := le_antisymm (le_trans hu this) h
    refine ⟨2 ^ (prec - 1), ?_⟩
    rw [heq]
    have : ((prec : Int) - 1) = ((prec - 1 : Nat) : Int) := by omega
    rw [this, pow2_natCast]

/-- Rounding to `double` is monotone. -/
theorem fl64_mono (x y : ℚ) (h : x ≤ y) : fl64 x ≤ fl64 y := fl_mono 53 (-1022) (by decide) x y h

/-- Rounding to `float` is monotone. -/
theorem fl32_mono (x y : ℚ) (h : x ≤ y) : fl32 x ≤ fl32 y := fl_mono 24 (-126) (by decide) x y h

/-- A value within the range of `long` is converted unchanged. -/
theorem castLong_of_range (v : Int) (h1 : -(2 ^ 63) ≤ v) (h2 : v < 2 ^ 63) : castLong v = v := by
  unfold castLong
  rw [if_pos ⟨h1, h2⟩]

/-- A value within the range of `long` is not changed by wrapping. -/
theorem wrapLong_of_range (v : Int) (h1 : -(2 ^ 63) ≤ v) (h2 : v < 2 ^ 63) : wrapLong v = v := by
  unfold wrapLong
  omega

end Ieee

namespace WaveSource

/-- Reading inside a taken initial segment is reading the list. -/
theorem byteAt_take (l : List Byte) (n i : Nat) (h : i < n) :
    byteAt (l.take n) i = byteAt l i := by
  unfold byteAt
  simp [List.getD_eq_getElem?_getD, List.getElem?_take, h]

/-- A 16 bit field inside a taken initial segment. -/
theorem le16_take (l : List Byte) (n off : Nat) (h : off + 1 < n) :
    le16 (l.take n) off = le16 l off := by
  unfold le16
  rw [byteAt_take l n off (by omega), byteAt_take l n (off + 1) (by omega)]

/-- A 32 bit field inside a taken initial segment. -/
theorem le32_take (l : List Byte) (n off : Nat) (h : off + 3 < n) :
    le32 (l.take n) off = le32 l off := by
  unfold le32
  rw [byteAt_take l n off (by omega), byteAt_take l n (off + 1) (by omega),
    byteAt_take l n (off + 2) (by omega), byteAt_take l n (off + 3) (by omega)]

/-- A byte is below 256. -/
theorem byteAt_lt (l : List Byte) (i : Nat) : byteAt l i < 256 := by
  unfold byteAt
  exact (l.getD i 0).isLt

/-- The first read of `readWaveHeader`: from offset 0, `sizeofHead` bytes. -/
theorem fread_head (fh : FileStream) :
    (fh.fseek 0).fread sizeofHead
      = (fh.content.take 44, ⟨fh.content, (fh.content.take 44).length⟩) := by
  simp [FileStream.fseek, FileStream.fread, sizeofHead]

/-- Inside the buffer `byteAt` is the element. -/
theorem byteAt_eq_get (l : List Byte) (i : Nat) (h : i < l.length) :
    byteAt l i = (l.get ⟨i, h⟩).val := by
  unfold byteAt
  simp [List.getD_eq_getElem?_getD, List.getElem?_eq_getElem h]

/-- A 32 bit field determines its four bytes. -/
theorem take4_of_le32 (l : List Byte) (off : Nat) (hlen : off + 4 ≤ l.length)
    (b0 b1 b2 b3 : Byte)
    (h : le32 l off = b0.val + 256 * b1.val + 65536 * b2.val + 16777216 * b3.val) :
    (l.drop off).take 4 = [b0, b1, b2, b3] := by
  have h0 := byteAt_eq_get l off (by omega)
  have h1 := byteAt_eq_get l (off + 1) (by omega)
  have h2 := byteAt_eq_get l (off + 2) (by omega)
  have h3 := byteAt_eq_get l (off + 3) (by omega)
  have l0 := byteAt_lt l off
  have l1 := byteAt_lt l (off + 1)
  have l2 := byteAt_lt l (off + 2)
  have l3 := byteAt_lt l (off + 3)
  have c0 := b0.isLt
  have c1 := b1.isLt
  have c2 := b2.isLt
  have c3 := b3.isLt
  unfold le32 at h
  have v0 : l.get ⟨off, by omega⟩ = b0 := Fin.ext (by omega)
  have v1 : l.get ⟨off + 1, by omega⟩ = b1 := Fin.ext (by omega)
  have v2 : l.get ⟨off + 2, by omega⟩ = b2 := Fin.ext (by omega)
  have v3 : l.get ⟨off + 3, by omega⟩ = b3 := Fin.ext (by omega)
  apply List.ext_getElem
  · simp; omega
  · intro i hi1 hi2
    simp at hi2
    have hi : i = 0 ∨ i = 1 ∨ i = 2 ∨ i = 3 := by omega
    simp only [List.get_eq_getElem] at v0 v1 v2 v3
    rcases hi with rfl | rfl | rfl | rfl <;> simp [List.getElem_take, List.getElem_drop, v0, v1, v2, v3]


/-- The two early `return 0` statements of `readWaveHeader` (lines 446-449 and
452-462). -/
theorem readWaveHeader_early (s : cWaveSource) (fh : FileStream)
    (hs : s.filehandle = some fh)
    (h : fh.content.length < 44 ∨ bogusHeader (parseHead (fh.content.take 44)) = true) :
    readWaveHeader s
      = .ok (0, { s with filehandle := some ⟨fh.content, (fh.content.take 44).length⟩ }) := by
  unfold readWaveHeader
  rw [hs]
  simp only [fread_head]
  by_cases hlen : fh.content.length < 44
  · have hne : (fh.content.take 44).length ≠ sizeofHead := by
      simp [sizeofHead]; omega
    rw [if_pos hne]
  · have heq : ¬ (fh.content.take 44).length ≠ sizeofHead := by
      simp [sizeofHead]; omega
    rcases h with h | h
    · exact absurd h hlen
    · rw [if_neg heq, if_pos h]

/-- The check of lines 452-457 in terms of the file's bytes. -/
theorem bogus_of_fields (l : List Byte)
    (h : le32 l 0 ≠ 0x46464952 ∨ le32 l 8 ≠ 0x45564157 ∨ le32 l 12 ≠ 0x20746D66
      ∨ le16 l 20 ≠ 1 ∨ le32 l 16 ≠ 16) :
    bogusHeader (parseHead (l.take 44)) = true := by
  simp only [bogusHeader, parseHead, magicRIFF, magicWAVE, magicFmt, Bool.or_eq_true, bne_iff_ne,
    le32_take l 44 0 (by omega), le32_take l 44 8 (by omega), le32_take l 44 12 (by omega),
    le32_take l 44 16 (by omega), le16_take l 44 20 (by omega)]
  tauto

/-- C7. `readWaveHeader` returns 0 and leaves `pcmParam` and `pcmDataBegin`
as they were, and `configureWriter` aborts with `COMP_ERR` before any frame
can be read, whenever the file is shorter than 44 bytes, or the RIFF, WAVE or
`fmt ` magic, the audio format (1) or the fmt chunk size (16) is not the
required one; in particular whenever bytes 8..11 are not `WAVE`. -/
theorem readWaveHeader_rejects_bogus (s : cWaveSource) (cfg : ConfigInstance) (fh : FileStream)
    (hs : s.filehandle = some fh)
    (h : fh.content.length < 44 ∨ le32 fh.content 0 ≠ 0x46464952
      ∨ le32 fh.content 8 ≠ 0x45564157 ∨ le32 fh.content 12 ≠ 0x20746D66
      ∨ le16 fh.content 20 ≠ 1 ∨ le32 fh.content 16 ≠ 16
      ∨ (fh.content.drop 8).take 4 ≠ [0x57, 0x41, 0x56, 0x45]) :
    (∃ s1, readWaveHeader s = .ok (0, s1) ∧ s1.pcmParam = s.pcmParam
        ∧ s1.pcmDataBegin = s.pcmDataBegin)
      ∧ configureWriter s cfg = .error .compErr := by
  have key : fh.content.length < 44 ∨ bogusHeader (parseHead (fh.content.take 44)) = true := by
    by_cases hlen : fh.content.length < 44
    · exact Or.inl hlen
    · right
      apply bogus_of_fields
      rcases h with h | h | h | h | h | h | h
      · exact absurd h hlen
      · exact Or.inl h
      · exact Or.inr (Or.inl h)
      · exact Or.inr (Or.inr (Or.inl h))
      · exact Or.inr (Or.inr (Or.inr (Or.inl h)))
      · exact Or.inr (Or.inr (Or.inr (Or.inr h)))
      · right; left
        intro hw
        apply h
        exact take4_of_le32 fh.content 8 (by omega) 0x57 0x41 0x56 0x45 (by rw [hw]; rfl)
  have hr := readWaveHeader_early s fh hs key
  refine ⟨⟨_, hr, rfl, rfl⟩, ?_⟩
  unfold configureWriter
  rw [hr]
  rfl

/-- A 44 byte file whose bytes 8..11 spell `WAVX` is rejected: `readWaveHeader`
returns 0 and `configureWriter` aborts. -/
theorem readWaveHeader_rejects_bogus_witness :
    (init defaultConfig wavxFile 4).filehandle = some ⟨wavxFile, 0⟩
      ∧ (wavxFile.drop 8).take 4 ≠ [0x57, 0x41, 0x56, 0x45]
      ∧ ((∃ s1, readWaveHeader (init defaultConfig wavxFile 4) = .ok (0, s1)
            ∧ s1.pcmParam = (init defaultConfig wavxFile 4).pcmParam
            ∧ s1.pcmDataBegin = (init defaultConfig wavxFile 4).pcmDataBegin)
          ∧ configureWriter (init defaultConfig wavxFile 4) defaultConfig = .error .compErr) :=
  ⟨rfl, by decide,
    readWaveHeader_rejects_bogus (init defaultConfig wavxFile 4) defaultConfig ⟨wavxFile, 0⟩ rfl
      (Or.inr (Or.inr (Or.inr (Or.inr (Or.inr (Or.inr (by decide)))))))⟩


/-- C8 (the code at the failing input). With 20 empty `LIST` chunks before
the `data` chunk, `readWaveHeader` returns 0 and `configureWriter` aborts,
although the chunk id read after the 20th skip is `data`; with 19 such chunks
the same file layout is accepted. -/
theorem readWaveHeader_twenty_skips :
    returned (readWaveHeader (init defaultConfig (skipFile 20) 4)) = .ok 0
      ∧ returned (configureWriter (init defaultConfig (skipFile 20) 4) defaultConfig)
          = .error .compErr
      ∧ returned (readWaveHeader (init defaultConfig (skipFile 19) 4)) = .ok 1 :=
  ⟨rfl, rfl, rfl⟩

/-- The file `listFile size` holds the 44 byte header, the `size` payload
bytes of the `LIST` chunk and the 12 bytes of the `data` chunk. -/
theorem listFile_length (size : Nat) : (listFile size).length = 44 + size + 12 := by
  have h1 : (canonicalHeader 1 8000 2 16 magicLIST size).length = 44 := by
    simp [canonicalHeader, fmtPart, chunkHeader, u32le, u16le]
  have h2 : (chunkHeader magicData 4).length = 8 := rfl
  simp only [listFile, List.length_append, List.length_replicate, h1, h2, List.length_cons,
    List.length_nil]

/-- C9 (the code at the failing input). A `LIST` chunk of declared size
99999 whose 99999 bytes are all present, followed by a `data` chunk, makes
`readWaveHeader` return 0: the loop takes its "Subchunk2Size > 99999" exit for
the size 99999 itself. -/
theorem readWaveHeader_chunk_99999 :
    returned (readWaveHeader (init defaultConfig (listFile 99999) 4)) = .ok 0
      ∧ (listFile 99999).length = 44 + 99999 + 12 :=
  ⟨rfl, listFile_length 99999⟩

/-- C10 (the code at the failing input). On a canonical header whose channel
count field is 0, `readWaveHeader` does not return 0: it passes every check
and reaches `head.BlockAlign/head.NumChannels` with a zero divisor. -/
theorem readWaveHeader_zero_channels :
    returned (readWaveHeader (init defaultConfig zeroChannelFile 4)) = .error .divByZero
      ∧ le16 zeroChannelFile 22 = 0 :=
  ⟨rfl, rfl⟩

/-- C2 (the code at the failing input). On the 10 frame mono 16 bit file
with `startSamples = 2`, `configureWriter` leaves the stream at byte 4, inside
the RIFF header, while the data chunk starts at byte 44 and frame 2 at byte
48; the first cell decoded afterwards is 56/32767, from the RIFF size field,
not -32768/32767, the sample of frame 2.  With `startSamples` unset the stream
is at byte 44. -/
theorem configureWriter_seek_offset :
    (configured { defaultConfig with startSamples := some 2 } mono16File 4).map
        (fun s => (streamPos s, s.pcmDataBegin, s.startSamples, s.pcmParam.blockSize))
        = some (some 4, 44, 2, 2)
      ∧ (configured { defaultConfig with startSamples := some 2 } mono16File 4).bind
          (fun s => cellAfterRead s 0 0) = some (56 / 32767)
      ∧ b16 (mono16File.drop 44) 2 = -32768
      ∧ (configured defaultConfig mono16File 4).map
          (fun s => (streamPos s, s.pcmDataBegin)) = some (some 44, 44) :=
  ⟨by decide, by decide!, by decide, by decide!⟩

/-- C1 (the code at the failing input). For a mono file of 4 byte samples
with 24 significant bits and the word 0x100, `readData` without mixdown writes
256/(32767*32767*2), not 256/(32767*256); with mixdown it writes
256/(32767*256).  The 16 bit mono samples 0, 16384, -32768, 32767 are written
as 0, 16384/32767, -32768/32767, 1. -/
theorem readData_packed24_divisor :
    (configured defaultConfig packed24File 1).bind (fun s => cellAfterRead s 0 0)
        = some (256 / (32767 * 32767 * 2))
      ∧ (256 : ℚ) / (32767 * 32767 * 2) ≠ 256 / (32767 * 256)
      ∧ (configured { defaultConfig with monoMixdown := true } packed24File 1).bind
          (fun s => cellAfterRead s 0 0) = some (256 / (32767 * 256))
      ∧ (configured defaultConfig mono16File 4).bind
          (fun s => (List.range 4).mapM (cellAfterRead s 0))
          = some [0, 16384 / 32767, -32768 / 32767, 1] :=
  ⟨by decide!, by norm_num, by decide!, by decide!⟩

/-- The chunk search never changes the file's bytes. -/
theorem searchData_content (t : Nat) : ∀ (id size : Nat) (f : FileStream) (r : Nat × Nat × Nat × FileStream),
    searchData t id size f = .ok r → r.2.2.2.content = f.content := by
  induction t with
  | zero =>
    intro id size f r h
    simp [searchData] at h
    subst h
    rfl
  | succ t ih =>
    intro id size f r h
    unfold searchData at h
    split at h
    · simp at h; subst h; rfl
    · split at h
      · simp only at h
        split at h
        · simp at h
        · split at h
          · simp at h
          · have := ih _ _ _ r h
            rw [this]
            rfl
      · simp at h

/-- What a successful `readWaveHeader` leaves behind. -/
theorem readWaveHeader_ok (s s0 : cWaveSource) (h : readWaveHeader s = .ok (1, s0)) :
    ∃ fh f p, s.filehandle = some fh ∧ f.content = fh.content ∧ 0 < p.nChan ∧ 0 < p.blockSize
      ∧ s0 = { s with filehandle := some f, pcmParam := p, pcmDataBegin := f.pos } := by
  unfold readWaveHeader at h
  split at h
  · simp at h
  · rename_i fh hfh
    simp only [fread_head] at h
    split at h
    · simp at h
    · split at h
      · simp at h
      · split at h
        · simp at h
        · rename_i t id size f hsd
          split at h
          · simp at h
          · split at h
            · simp at h
            · split at h
              · simp at h
              · rename_i hc hb
                have hcont := searchData_content _ _ _ _ _ hsd
                simp only [Except.ok.injEq, Prod.mk.injEq, true_and] at h
                refine ⟨fh, f, _, hfh, hcont, ?_, ?_, h.symm⟩
                · exact Nat.pos_of_ne_zero hc
                · exact Nat.pos_of_ne_zero hb


/-- The method `readWaveHeader` returns 0 or 1. -/
theorem readWaveHeader_ret (s s0 : cWaveSource) (r : Nat) (h : readWaveHeader s = .ok (r, s0)) :
    r = 0 ∨ r = 1 := by
  unfold readWaveHeader at h
  split at h
  · simp at h; omega
  · simp only [fread_head] at h
    split at h
    · simp at h; omega
    · split at h
      · simp at h; omega
      · split at h
        · simp at h; omega
        · split at h
          · simp at h; omega
          · split at h
            · simp at h
            · split at h
              · simp at h
              · simp at h; omega

/-- What a returning `configureWriter` leaves behind. -/
theorem configureWriter_ok (s s1 : cWaveSource) (cfg : ConfigInstance) (ret : Nat)
    (h : configureWriter s cfg = .ok (ret, s1)) :
    ∃ s0, readWaveHeader s = .ok (1, s0) ∧ ret = 1
      ∧ s1 = { s0 with
          startSamples := resolveStartSamples cfg s0.start (srateOf s0.pcmParam.sampleRate)
            (s0.pcmParam.nBlocks : Int)
          endSamples := resolveEndSamples cfg s0.endSec s0.endrel (srateOf s0.pcmParam.sampleRate)
            (s0.pcmParam.nBlocks : Int)
          endrelSamples := resolveEndrelSamples cfg s0.endSec (srateOf s0.pcmParam.sampleRate)
            s0.endrelSamples
          curReadPos :=
            if resolveStartSamples cfg s0.start (srateOf s0.pcmParam.sampleRate)
                (s0.pcmParam.nBlocks : Int) > 0
            then resolveStartSamples cfg s0.start (srateOf s0.pcmParam.sampleRate)
                (s0.pcmParam.nBlocks : Int)
            else s0.curReadPos
          filehandle :=
            if resolveStartSamples cfg s0.start (srateOf s0.pcmParam.sampleRate)
                (s0.pcmParam.nBlocks : Int) > 0
            then s0.filehandle.map (fun f => f.fseek
              (resolveStartSamples cfg s0.start (srateOf s0.pcmParam.sampleRate)
                (s0.pcmParam.nBlocks : Int) * (s0.pcmParam.blockSize : Int)).toNat)
            else s0.filehandle } := by
  unfold configureWriter at h
  split at h
  · simp at h
  · rename_i r0 s0 hr
    split at h
    · simp at h
    · rename_i hret
      have hr1 : readWaveHeader s = .ok (1, s0) := by
        have : r0 = 1 := by
          have := readWaveHeader_ret s s0 r0 hr
          omega
        rw [hr, this]
      refine ⟨s0, hr1, ?_⟩
      simp only at h
      split at h
      · rename_i hpos
        simp only [Except.ok.injEq, Prod.mk.injEq] at h
        refine ⟨h.1.symm, ?_⟩
        rw [← h.2, if_pos hpos, if_pos hpos]
      · rename_i hpos
        simp only [Except.ok.injEq, Prod.mk.injEq] at h
        refine ⟨h.1.symm, ?_⟩
        rw [← h.2, if_neg hpos, if_neg hpos]

/-- The resolved fields after `configureWriter` on a freshly opened file. -/
theorem configureWriter_init (cfg : ConfigInstance) (file : List Byte) (B : Int) (ret : Nat)
    (s1 : cWaveSource) (h : configureWriter (init cfg file B) cfg = .ok (ret, s1)) :
    s1.startSamples = resolveStartSamples cfg cfg.start (srateOf s1.pcmParam.sampleRate)
        (s1.pcmParam.nBlocks : Int)
      ∧ s1.endSamples = resolveEndSamples cfg cfg.endSec cfg.endrel
          (srateOf s1.pcmParam.sampleRate) (s1.pcmParam.nBlocks : Int) := by
  obtain ⟨s0, hr, -, hs1⟩ := configureWriter_ok _ _ _ _ h
  obtain ⟨fh, f, p, -, -, -, -, hs0⟩ := readWaveHeader_ok _ _ hr
  subst hs0
  subst hs1
  exact ⟨rfl, rfl⟩

/-- The two clamping statements `if (x < 0) x = 0; if (x > T) x = T;`. -/
theorem clamp_eq (raw T : Int) (hT : 0 ≤ T) :
    (if (if raw < 0 then 0 else raw) > T then T else (if raw < 0 then 0 else raw))
      = min T (max 0 raw) := by
  simp only [min_def, max_def]
  split_ifs <;> omega

/-- Lines 136-143 compute the start frame rule, when the floor of the rounded
product is within the range of `long`. -/
theorem resolveStartSamples_eq (cfg : ConfigInstance) (rate : ℚ) (T : Int) (hT : 0 ≤ T)
    (hr : cfg.startSamples = none →
      Ieee.inLong (Int.floor (Ieee.fl64 (cfg.start * rate))) = true) :
    resolveStartSamples cfg cfg.start rate T = startFrameRule cfg rate T := by
  unfold resolveStartSamples startFrameRule
  cases hS : cfg.startSamples with
  | some v => exact clamp_eq _ T hT
  | none =>
    have h := hr hS
    unfold Ieee.inLong at h
    rw [decide_eq_true_iff] at h
    simp only [floorFrames, Ieee.castLong_of_range _ h.1 h.2]
    exact clamp_eq _ T hT

/-- Lines 146-169 compute the end frame rule, when the ceiling and the floor
of the rounded products, and the end counted from the end of the file, are
within the range of `long`. -/
theorem resolveEndSamples_eq (cfg : ConfigInstance) (rate : ℚ) (T : Int) (hT : 0 ≤ T)
    (hrate : 0 ≤ rate)
    (hc : cfg.endSamples = none → 0 ≤ cfg.endSec →
      Ieee.inLong (Int.ceil (Ieee.fl64 (cfg.endSec * rate))) = true)
    (hf : cfg.endrelSamples = none → cfg.endrelIsSet = true →
      Ieee.inLong (Int.floor (Ieee.fl64 (cfg.endrel * rate))) = true
        ∧ Ieee.inLong (T - Int.floor (Ieee.fl64 (cfg.endrel * rate))) = true) :
    resolveEndSamples cfg cfg.endSec cfg.endrel rate T = endFrameRule cfg rate T := by
  have hrel : cfg.endrelSamples = none → cfg.endrelIsSet = true →
      Ieee.wrapLong (T - floorFrames cfg.endrel rate)
        = T - Int.floor (Ieee.fl64 (cfg.endrel * rate)) := by
    intro h1 h2
    obtain ⟨a, b⟩ := hf h1 h2
    unfold Ieee.inLong at a b
    rw [decide_eq_true_iff] at a b
    unfold floorFrames
    rw [Ieee.castLong_of_range _ a.1 a.2, Ieee.wrapLong_of_range _ b.1 b.2]
  have hceil : cfg.endSamples = none → 0 ≤ cfg.endSec →
      ceilFrames cfg.endSec rate = Int.ceil (Ieee.fl64 (cfg.endSec * rate))
        ∧ 0 ≤ Int.ceil (Ieee.fl64 (cfg.endSec * rate)) := by
    intro h1 h2
    have a := hc h1 h2
    unfold Ieee.inLong at a
    rw [decide_eq_true_iff] at a
    unfold ceilFrames
    rw [Ieee.castLong_of_range _ a.1 a.2]
    exact ⟨rfl, Int.ceil_nonneg (Ieee.fl_nonneg _ _ _ (mul_nonneg h2 hrate))⟩
  unfold resolveEndSamples endFrameRule relativeEndRule
  simp only
  cases hE : cfg.endSamples with
  | some v =>
    cases hR : cfg.endrelSamples with
    | some r =>
      simp only [min_def, max_def]
      split_ifs <;> omega
    | none =>
      cases hS : cfg.endrelIsSet with
      | true =>
        rw [hrel hR hS]
        generalize Int.floor (Ieee.fl64 (cfg.endrel * rate)) = flo
        simp only [if_true, min_def, max_def]
        split_ifs <;> omega
      | false =>
        simp only [Bool.false_eq_true, if_false, min_def, max_def]
        split_ifs <;> omega
  | none =>
    by_cases hneg : cfg.endSec < 0
    · have hn : ¬ 0 ≤ cfg.endSec := not_le.mpr hneg
      cases hR : cfg.endrelSamples with
      | some r =>
        simp only [hneg, hn, if_true, if_false, min_def, max_def]
        split_ifs <;> omega
      | none =>
        cases hS : cfg.endrelIsSet with
        | true =>
          rw [hrel hR hS]
          generalize Int.floor (Ieee.fl64 (cfg.endrel * rate)) = flo
          simp only [hneg, hn, if_true, if_false, min_def, max_def]
          split_ifs <;> omega
        | false =>
          simp only [hneg, hn, Bool.false_eq_true, if_true, if_false, min_def, max_def]
          split_ifs <;> omega
    · have hn : 0 ≤ cfg.endSec := not_lt.mp hneg
      obtain ⟨e1, e2⟩ := hceil hE hn
      rw [e1]
      generalize Int.ceil (Ieee.fl64 (cfg.endSec * rate)) = ce at e2 ⊢
      simp only [hneg, hn, if_true, if_false, min_def, max_def]
      split_ifs <;> omega

/-- The local `srate` is positive. -/
theorem srateOf_pos (n : Nat) : 0 < srateOf n := by
  unfold srateOf
  split_ifs with h
  · exact one_pos
  · exact lt_of_le_of_ne (Nat.cast_nonneg n) (Ne.symm h)

/-- C5 (the claim fails as stated). On a file whose sample rate field is 0,
with `start = 3` seconds and `startSamples` unset, `configureWriter` resolves
the start frame 3 (it computes with `srate = 1`), while the specification's
`floor(start * sampleRate)` is 0.  On a 100 Hz file with `start = 0.03`
seconds it resolves the start frame 3, the floor of the product rounded to
`double`, while the floor of `start * sampleRate` for that `double` is 2; and
for `start = 1.001` seconds at 8000 Hz the code's expression is 8007 while
`floor(1.001 * 8000)` is 8008.  With `start = 1e30` seconds on the 10 frame
file the floor is beyond the range of `long`: the conversion delivers a
negative value and the start frame is 0, while the specification's value is
10. -/
theorem startSamples_zero_rate :
    (configured startAtThreeSeconds zeroRateFile 4).map
        (fun s => (s.pcmParam.sampleRate, s.pcmParam.nBlocks, s.startSamples,
          specStartFrame startAtThreeSeconds s.pcmParam.sampleRate (s.pcmParam.nBlocks : Int)))
      = some (0, 10, 3, 0)
    ∧ (configured startAtThreeHundredths rate100File 4).map
        (fun s => (s.pcmParam.sampleRate, s.pcmParam.nBlocks, s.startSamples,
          specStartFrame startAtThreeHundredths s.pcmParam.sampleRate (s.pcmParam.nBlocks : Int)))
      = some (100, 20, 3, 2)
    ∧ (floorFrames (Ieee.fl64 (1001 / 1000)) 8000, Int.floor ((1001 / 1000 : ℚ) * 8000))
      = (8007, 8008)
    ∧ (configured startBeyondLong mono16File 4).map
        (fun s => (s.pcmParam.nBlocks, s.startSamples,
          specStartFrame startBeyondLong s.pcmParam.sampleRate (s.pcmParam.nBlocks : Int)))
      = some (10, 0, 10) :=
  ⟨by decide!, by decide!, by decide!, by decide!⟩

/-- C5 (amended). After `configureWriter` the start frame is the explicit
`startSamples` when set, otherwise the floor of the product `start * r` rounded
to `double` (when that floor is within the range of `long`), where `r` is the
sample rate, or 1 when the sample rate field is 0; the result is clamped into
`[0, T]`.  When the sample rate is not 0 and the product is a `double`, this is
the specification's value, and with `start` left at 0 and `startSamples` unset
it is 0. -/
theorem configureWriter_startSamples (cfg : ConfigInstance) (file : List Byte) (B : Int)
    (ret : Nat) (s1 : cWaveSource)
    (h : configureWriter (init cfg file B) cfg = .ok (ret, s1))
    (hr : cfg.startSamples = none →
      Ieee.inLong (Int.floor (Ieee.fl64 (cfg.start * srateOf s1.pcmParam.sampleRate))) = true) :
    s1.startSamples
        = startFrameRule cfg (srateOf s1.pcmParam.sampleRate) (s1.pcmParam.nBlocks : Int)
      ∧ (s1.pcmParam.sampleRate ≠ 0 →
          Ieee.fl64 (cfg.start * (s1.pcmParam.sampleRate : ℚ))
            = cfg.start * (s1.pcmParam.sampleRate : ℚ) →
          s1.startSamples = specStartFrame cfg s1.pcmParam.sampleRate (s1.pcmParam.nBlocks : Int))
      ∧ (cfg.startSamples = none → cfg.start = 0 → s1.startSamples = 0) := by
  have h1 := (configureWriter_init cfg file B ret s1 h).1
  rw [resolveStartSamples_eq cfg _ _ (Int.natCast_nonneg _) hr] at h1
  refine ⟨h1, ?_, ?_⟩
  · intro hne hex
    rw [h1]
    unfold startFrameRule specStartFrame srateOf
    have : ¬ ((s1.pcmParam.sampleRate : ℚ) = 0) := by exact_mod_cast hne
    rw [if_neg this, hex]
  · intro hs h0
    rw [h1]
    unfold startFrameRule
    simp only [hs, h0, zero_mul, Ieee.fl64, Ieee.fl_zero, Int.floor_zero]
    have := Int.natCast_nonneg s1.pcmParam.nBlocks
    simp only [min_def, max_def]
    split_ifs <;> omega

/-- On the 100 Hz file `start = 0.03` seconds resolves to start frame 3, the
floor of the rounded product, and the stream is moved to byte 6. -/
theorem configureWriter_startSamples_witness :
    (configureWriter (init startAtThreeHundredths rate100File 4) startAtThreeHundredths
        = .ok (1, { init startAtThreeHundredths rate100File 4 with
            filehandle := some ⟨rate100File, 6⟩
            pcmParam := ⟨100, 1, 2, 16, 20, 2⟩
            pcmDataBegin := 44
            curReadPos := 3
            startSamples := 3
            endSamples := 20 })
      ∧ (startAtThreeHundredths.startSamples = none →
          Ieee.inLong (Int.floor (Ieee.fl64 (startAtThreeHundredths.start * srateOf 100))) = true)
      ∧ Int.floor (Ieee.fl64 (startAtThreeHundredths.start * srateOf 100)) = 3)
    ∧ ((3 : Int) = startFrameRule startAtThreeHundredths (srateOf 100) ((20 : Nat) : Int)
      ∧ ((100 : Nat) ≠ 0 →
          Ieee.fl64 (startAtThreeHundredths.start * ((100 : Nat) : ℚ))
            = startAtThreeHundredths.start * ((100 : Nat) : ℚ) →
          (3 : Int) = specStartFrame startAtThreeHundredths 100 ((20 : Nat) : Int))
      ∧ (startAtThreeHundredths.startSamples = none → startAtThreeHundredths.start = 0 →
          (3 : Int) = 0)) :=
  ⟨⟨by with_unfolding_all rfl, fun _ => by decide!, by decide!⟩,
    configureWriter_startSamples startAtThreeHundredths rate100File 4 1
      { init startAtThreeHundredths rate100File 4 with
        filehandle := some ⟨rate100File, 6⟩
        pcmParam := ⟨100, 1, 2, 16, 20, 2⟩
        pcmDataBegin := 44
        curReadPos := 3
        startSamples := 3
        endSamples := 20 }
      (by with_unfolding_all rfl) (fun _ => by decide!)⟩

/-- C4 (the claim fails as stated). With `endSamples` explicitly set to -1
and `end = 2^-11` s on the 10 frame, 8000 Hz file, `configureWriter` resolves
the end frame 10 (the whole file): a set `endSamples` keeps `end` from being
consulted.  The specification's rule gives `ceil(2^-11 * 8000) = 4`.  On a
100 Hz file with `end = 0.07` seconds it resolves the end frame 8, the ceiling
of the product rounded to `double`, while `ceil(0.07 * 100)` is 7; and with
`end = 0.01` seconds it resolves 1, while the ceiling of `end * sampleRate`
for that `double` is 2.  With `end = 1e30` seconds and `endrel = 2^-10`
seconds on the 10 frame file the ceiling is beyond the range of `long`: the
conversion delivers a negative value, the end is then counted from the end of
the file and the end frame is `10 - 7 = 3`, while the specification's value is
10. -/
theorem endSamples_sentinel_skips_seconds :
    (configured endUnsetBySentinel mono16File 4).map
        (fun s => (s.pcmParam.sampleRate, s.pcmParam.nBlocks, s.endSamples,
          specEndFrame endUnsetBySentinel s.pcmParam.sampleRate (s.pcmParam.nBlocks : Int)))
      = some (8000, 10, 10, 4)
    ∧ (configured endAtSevenHundredths rate100File 4).map
        (fun s => (s.pcmParam.sampleRate, s.pcmParam.nBlocks, s.endSamples))
      = some (100, 20, 8)
    ∧ Int.ceil ((7 / 100 : ℚ) * 100) = 7
    ∧ (configured endAtOneHundredth rate100File 4).map
        (fun s => (s.pcmParam.sampleRate, s.pcmParam.nBlocks, s.endSamples,
          specEndFrame endAtOneHundredth s.pcmParam.sampleRate (s.pcmParam.nBlocks : Int)))
      = some (100, 20, 1, 2)
    ∧ (configured endBeyondLong mono16File 4).map
        (fun s => (s.pcmParam.nBlocks, s.endSamples,
          specEndFrame endBeyondLong s.pcmParam.sampleRate (s.pcmParam.nBlocks : Int)))
      = some (10, 3, 10) :=
  ⟨by decide!, by decide!, by decide!, by decide!, by decide!⟩

/-- C4 (amended). After `configureWriter` the end frame is: the explicit
`endSamples` if it is set and non-negative; if `endSamples` is not set and
`end` is non-negative, the ceiling of the product `end * r` rounded to
`double`; otherwise (`endSamples` set and negative, or unset with `end`
negative) `T - endrelSamples` if `endrelSamples` is set (negative counting as
0), else `T` minus the floor of the product `endrel * r` rounded to `double`
if `endrel` is set, else `T`; a negative value becomes 0 and the result is
clamped into `[0, T]`.  Here `r` is the sample rate, or 1 when the sample rate
field is 0, and the ceiling, the floor and `T` minus the floor are taken to be
within the range of `long`.  When the sample rate is not 0, `endSamples` is not
set to a negative value while `end` is non-negative, and the two products are
`double` values, this is the specification's value. -/
theorem configureWriter_endSamples (cfg : ConfigInstance) (file : List Byte) (B : Int)
    (ret : Nat) (s1 : cWaveSource)
    (h : configureWriter (init cfg file B) cfg = .ok (ret, s1))
    (hc : cfg.endSamples = none → 0 ≤ cfg.endSec →
      Ieee.inLong (Int.ceil (Ieee.fl64 (cfg.endSec * srateOf s1.pcmParam.sampleRate))) = true)
    (hf : cfg.endrelSamples = none → cfg.endrelIsSet = true →
      Ieee.inLong (Int.floor (Ieee.fl64 (cfg.endrel * srateOf s1.pcmParam.sampleRate))) = true
        ∧ Ieee.inLong ((s1.pcmParam.nBlocks : Int)
            - Int.floor (Ieee.fl64 (cfg.endrel * srateOf s1.pcmParam.sampleRate))) = true) :
    s1.endSamples
        = endFrameRule cfg (srateOf s1.pcmParam.sampleRate) (s1.pcmParam.nBlocks : Int)
      ∧ (s1.pcmParam.sampleRate ≠ 0 →
          (∀ v, cfg.endSamples = some v → v < 0 → cfg.endSec < 0) →
          Ieee.fl64 (cfg.endSec * (s1.pcmParam.sampleRate : ℚ))
            = cfg.endSec * (s1.pcmParam.sampleRate : ℚ) →
          Ieee.fl64 (cfg.endrel * (s1.pcmParam.sampleRate : ℚ))
            = cfg.endrel * (s1.pcmParam.sampleRate : ℚ) →
          s1.endSamples = specEndFrame cfg s1.pcmParam.sampleRate (s1.pcmParam.nBlocks : Int)) := by
  have h1 := (configureWriter_init cfg file B ret s1 h).2
  rw [resolveEndSamples_eq cfg _ _ (Int.natCast_nonneg _) (le_of_lt (srateOf_pos _)) hc hf] at h1
  refine ⟨h1, ?_⟩
  intro hne hsent hex1 hex2
  rw [h1]
  unfold endFrameRule specEndFrame relativeEndRule relativeEnd srateOf
  have hr : ¬ ((s1.pcmParam.sampleRate : ℚ) = 0) := by exact_mod_cast hne
  rw [if_neg hr, hex1, hex2]
  cases hE : cfg.endSamples with
  | none => rfl
  | some v =>
    by_cases hv : 0 ≤ v
    · simp only [if_pos hv]
    · have hneg : ¬ (0 ≤ cfg.endSec) := not_le.mpr (hsent v hE (by omega))
      simp only [if_neg hv, if_neg hneg]

/-- On the 100 Hz file `end = 0.07` seconds resolves to end frame 8, the
ceiling of the rounded product. -/
theorem configureWriter_endSamples_witness :
    (configureWriter (init endAtSevenHundredths rate100File 4) endAtSevenHundredths
        = .ok (1, { init endAtSevenHundredths rate100File 4 with
            filehandle := some ⟨rate100File, 44⟩
            pcmParam := ⟨100, 1, 2, 16, 20, 2⟩
            pcmDataBegin := 44
            endSamples := 8 })
      ∧ Ieee.inLong (Int.ceil (Ieee.fl64 (endAtSevenHundredths.endSec * srateOf 100))) = true
      ∧ endAtSevenHundredths.endrelIsSet = false
      ∧ Int.ceil (Ieee.fl64 (endAtSevenHundredths.endSec * srateOf 100)) = 8)
    ∧ ((8 : Int) = endFrameRule endAtSevenHundredths (srateOf 100) ((20 : Nat) : Int)
      ∧ ((100 : Nat) ≠ 0 →
          (∀ v, endAtSevenHundredths.endSamples = some v → v < 0 →
            endAtSevenHundredths.endSec < 0) →
          Ieee.fl64 (endAtSevenHundredths.endSec * ((100 : Nat) : ℚ))
            = endAtSevenHundredths.endSec * ((100 : Nat) : ℚ) →
          Ieee.fl64 (endAtSevenHundredths.endrel * ((100 : Nat) : ℚ))
            = endAtSevenHundredths.endrel * ((100 : Nat) : ℚ) →
          (8 : Int) = specEndFrame endAtSevenHundredths 100 ((20 : Nat) : Int))) :=
  ⟨⟨by with_unfolding_all rfl, by decide!, rfl, by decide!⟩,
    configureWriter_endSamples endAtSevenHundredths rate100File 4 1
      { init endAtSevenHundredths rate100File 4 with
        filehandle := some ⟨rate100File, 44⟩
        pcmParam := ⟨100, 1, 2, 16, 20, 2⟩
        pcmDataBegin := 44
        endSamples := 8 }
      (by with_unfolding_all rfl) (fun _ _ => by decide!)
      (fun _ h => absurd h (by decide))⟩

/-- C6 (the code at the failing input). With `startSamples = 5` and
`endSamples = 3` on the 10 frame file, `configureWriter` resolves start frame
5 and end frame 3: each is clamped into `[0, 10]`, nothing orders the two.
The next `readData()` call computes the byte count `(3 - 5) * 2 = -4` and
ends in `OUT_OF_MEMORY`. -/
theorem range_start_after_end :
    (configured startAfterEnd mono16File 4).map
        (fun s => (s.startSamples, s.endSamples, s.pcmParam.nBlocks,
          decide (0 ≤ s.startSamples ∧ s.startSamples ≤ s.endSamples
            ∧ s.endSamples ≤ (s.pcmParam.nBlocks : Int))))
      = some (5, 3, 10, false)
    ∧ (configured startAfterEnd mono16File 4).map
        (fun s => (s.curReadPos, requestedBytes s, abortOf (readData s none)))
      = some (5, -4, some .outOfMemory) :=
  ⟨by decide, by decide⟩

/-- Lines 142-143 clamp the start frame into `[0, flen]`. -/
theorem resolveStartSamples_bounds (cfg : ConfigInstance) (start rate : ℚ) (T : Int)
    (hT : 0 ≤ T) :
    0 ≤ resolveStartSamples cfg start rate T ∧ resolveStartSamples cfg start rate T ≤ T := by
  unfold resolveStartSamples
  simp only
  constructor <;> split_ifs <;> omega

/-- Lines 153-169 leave the end frame in `[0, flen]`. -/
theorem resolveEndSamples_bounds (cfg : ConfigInstance) (endSec endrel rate : ℚ) (T : Int)
    (hT : 0 ≤ T) :
    0 ≤ resolveEndSamples cfg endSec endrel rate T
      ∧ resolveEndSamples cfg endSec endrel rate T ≤ T := by
  unfold resolveEndSamples
  simp only
  cases cfg.endSamples <;> cases cfg.endrelSamples <;> simp only <;>
    constructor <;> split_ifs <;> omega

/-- After `configureWriter` both resolved frames lie in `[0, totalFrameCount]`:
`0 <= startFrame <= T` and `0 <= endFrame <= T`. -/
theorem configureWriter_range_bounds (cfg : ConfigInstance) (file : List Byte) (B : Int)
    (ret : Nat) (s1 : cWaveSource)
    (h : configureWriter (init cfg file B) cfg = .ok (ret, s1)) :
    0 ≤ s1.startSamples ∧ s1.startSamples ≤ (s1.pcmParam.nBlocks : Int)
      ∧ 0 ≤ s1.endSamples ∧ s1.endSamples ≤ (s1.pcmParam.nBlocks : Int) := by
  obtain ⟨h1, h2⟩ := configureWriter_init cfg file B ret s1 h
  have hT := Int.natCast_nonneg s1.pcmParam.nBlocks
  obtain ⟨a, b⟩ := resolveStartSamples_bounds cfg cfg.start (srateOf s1.pcmParam.sampleRate) _ hT
  obtain ⟨c, d⟩ := resolveEndSamples_bounds cfg cfg.endSec cfg.endrel
    (srateOf s1.pcmParam.sampleRate) _ hT
  rw [h1, h2]
  exact ⟨a, b, c, d⟩

/-- After `configureWriter` the start frame does not exceed the end frame
when no end is configured (the end is then the whole file), and when
`startSamples` and `endSamples` are both set with
`startSamples <= endSamples` and `0 <= endSamples`. -/
theorem configureWriter_range_ordered (cfg : ConfigInstance) (file : List Byte) (B : Int)
    (ret : Nat) (s1 : cWaveSource)
    (h : configureWriter (init cfg file B) cfg = .ok (ret, s1)) :
    (cfg.endSamples = none → cfg.endSec < 0 → cfg.endrelSamples = none →
        cfg.endrelIsSet = false →
        s1.endSamples = (s1.pcmParam.nBlocks : Int) ∧ s1.startSamples ≤ s1.endSamples)
      ∧ (∀ a b, cfg.startSamples = some a → cfg.endSamples = some b → a ≤ b → 0 ≤ b →
          s1.startSamples ≤ s1.endSamples) := by
  obtain ⟨h1, h2⟩ := configureWriter_init cfg file B ret s1 h
  have hT := Int.natCast_nonneg s1.pcmParam.nBlocks
  obtain ⟨-, b⟩ := resolveStartSamples_bounds cfg cfg.start (srateOf s1.pcmParam.sampleRate) _ hT
  constructor
  · intro hE hneg hR hS
    have he : s1.endSamples = (s1.pcmParam.nBlocks : Int) := by
      rw [h2]
      unfold resolveEndSamples
      simp only [hE, hneg, hR, hS, if_true, Bool.false_eq_true, if_false]
      split_ifs <;> omega
    rw [he, h1]
    exact ⟨rfl, b⟩
  · intro a b' hA hB hab hb0
    rw [h1, h2]
    unfold resolveStartSamples resolveEndSamples
    simp only [hA, hB]
    split_ifs <;> omega

/-- On the 10 frame mono file the range `startSamples = 1`, `endSamples = 9`
is within bounds. -/
theorem configureWriter_range_bounds_witness :
    configureWriter (init oneToNine mono16File 4) oneToNine
        = .ok (1, mono16State oneToNine 2 1 9 4)
      ∧ (0 ≤ (mono16State oneToNine 2 1 9 4).startSamples
        ∧ (mono16State oneToNine 2 1 9 4).startSamples
            ≤ ((mono16State oneToNine 2 1 9 4).pcmParam.nBlocks : Int)
        ∧ 0 ≤ (mono16State oneToNine 2 1 9 4).endSamples
        ∧ (mono16State oneToNine 2 1 9 4).endSamples
            ≤ ((mono16State oneToNine 2 1 9 4).pcmParam.nBlocks : Int)) :=
  ⟨rfl, configureWriter_range_bounds oneToNine mono16File 4 1 (mono16State oneToNine 2 1 9 4) rfl⟩


/-- The cell read back after `setF`. -/
theorem setF_dataF (m : cMatrix) (c i : Nat) (v : ℚ) (c1 i1 : Nat) :
    (m.setF c i v).dataF c1 i1 = if c1 = c ∧ i1 = i then v else m.dataF c1 i1 := rfl

/-- The inner loop `for c < k: m->setF(c, i, v c)` writes column `i` of the
rows below `k` and nothing else. -/
theorem rowLoop_cell (v : Nat → ℚ) (i k : Nat) (m : cMatrix) (c1 i1 : Nat) :
    ((List.range k).foldl (fun m c => m.setF c i (v c)) m).dataF c1 i1
      = if c1 < k ∧ i1 = i then v c1 else m.dataF c1 i1 := by
  induction k with
  | zero => simp
  | succ k ih =>
    rw [List.range_succ, List.foldl_append, List.foldl_cons, List.foldl_nil]
    simp only [setF_dataF]
    rw [ih]
    by_cases h1 : c1 = k
    · by_cases h2 : i1 = i
      · simp [h1, h2]
      · simp [h1, h2]
    · by_cases h2 : i1 = i
      · have : c1 < k + 1 ↔ c1 < k := by omega
        simp [h1, h2, this]
      · simp [h1, h2]

/-- The accumulation `tmp = 0; for c < k: tmp += f c` is the sum of `f` over
the channels. -/
theorem sumLoop_eq (f : Nat → ℚ) (k : Nat) :
    (List.range k).foldl (fun tmp c => tmp + f c) 0 = ∑ c in Finset.range k, f c := by
  induction k with
  | zero => simp
  | succ k ih =>
    rw [List.range_succ, List.foldl_append, List.foldl_cons, List.foldl_nil, ih,
      Finset.sum_range_succ]

/-- The multi-channel loops write `samp[i*nChan+c] / D` into cell `(c, i)` for
every frame `i` below `nT` and every channel `c`, and leave the other cells. -/
theorem channelLoop_cell (samp : Nat → Int) (nChan : Nat) (D : ℚ) (m : cMatrix) (c i : Nat) :
    (channelLoop samp nChan D m).dataF c i
      = if i < m.nT.toNat ∧ c < nChan then (samp (i * nChan + c) : ℚ) / D else m.dataF c i := by
  unfold channelLoop
  generalize m.nT.toNat = n
  induction n with
  | zero => simp
  | succ n ih =>
    rw [List.range_succ, List.foldl_append, List.foldl_cons, List.foldl_nil]
    rw [rowLoop_cell (fun c => (samp (n * nChan + c) : ℚ) / D) n nChan _ c i, ih]
    by_cases h1 : i = n
    · by_cases h2 : c < nChan
      · simp [h1, h2]
      · simp [h1, h2]
    · have : i < n + 1 ↔ i < n := by omega
      simp [h1, this]

/-- The mixdown loops write `((sum over the channels of samp[i*nChan+c]) /
nChan) / D` into cell `(0, i)` for every frame `i` below `nT`, and leave the
other cells. -/
theorem mixdownLoop_cell (samp : Nat → Int) (nChan : Nat) (D : ℚ) (m : cMatrix) (c i : Nat) :
    (mixdownLoop samp nChan D m).dataF c i
      = if c = 0 ∧ i < m.nT.toNat then
          ((∑ ch in Finset.range nChan, (samp (i * nChan + ch) : ℚ)) / (nChan : ℚ)) / D
        else m.dataF c i := by
  unfold mixdownLoop
  generalize m.nT.toNat = n
  induction n with
  | zero => simp
  | succ n ih =>
    rw [List.range_succ, List.foldl_append, List.foldl_cons, List.foldl_nil]
    simp only [setF_dataF]
    rw [ih, sumLoop_eq]
    by_cases h1 : i = n
    · by_cases h2 : c = 0
      · simp [h1, h2]
      · simp [h1, h2]
    · have : i < n + 1 ↔ i < n := by omega
      simp [h1, this]


/-- A fold of steps that keep the shape keeps the shape. -/
theorem foldl_shape {α : Type} (g : cMatrix → α → cMatrix)
    (hg : ∀ m a, (g m a).nT = m.nT ∧ (g m a).N = m.N) (l : List α) (m : cMatrix) :
    (l.foldl g m).nT = m.nT ∧ (l.foldl g m).N = m.N := by
  induction l generalizing m with
  | nil => exact ⟨rfl, rfl⟩
  | cons a l ih =>
    simp only [List.foldl_cons]
    obtain ⟨h1, h2⟩ := ih (g m a)
    obtain ⟨h3, h4⟩ := hg m a
    exact ⟨h1.trans h3, h2.trans h4⟩

/-- The mixdown loop keeps the shape of the matrix. -/
theorem mixdownLoop_shape (samp : Nat → Int) (nChan : Nat) (D : ℚ) (m : cMatrix) :
    (mixdownLoop samp nChan D m).nT = m.nT ∧ (mixdownLoop samp nChan D m).N = m.N := by
  unfold mixdownLoop
  apply foldl_shape
  intro m i
  exact ⟨rfl, rfl⟩

/-- The multi-channel loop keeps the shape of the matrix. -/
theorem channelLoop_shape (samp : Nat → Int) (nChan : Nat) (D : ℚ) (m : cMatrix) :
    (channelLoop samp nChan D m).nT = m.nT ∧ (channelLoop samp nChan D m).N = m.N := by
  unfold channelLoop
  apply foldl_shape
  intro m i
  apply foldl_shape
  intro m c
  exact ⟨rfl, rfl⟩

/-- On a convertible format the conversion takes no error branch and keeps
the shape of the matrix. -/
theorem convert_ok (mono : Bool) (p : sWaveParameters) (buf : List Byte) (m : cMatrix)
    (hp : convertible p = true) :
    ∃ m1, convert mono p buf m = .ok (m1, true) ∧ m1.nT = m.nT ∧ m1.N = m.N := by
  unfold convertible at hp
  simp only [Bool.or_eq_true, Bool.and_eq_true, beq_iff_eq] at hp
  unfold convert
  rcases hp with (h | h) | ⟨h, h24 | h32⟩
  · cases mono
    · simp only [h, if_true, Bool.false_eq_true, if_false]
      exact ⟨_, rfl, channelLoop_shape _ _ _ m⟩
    · simp only [h, if_true]
      exact ⟨_, rfl, mixdownLoop_shape _ _ _ m⟩
  · cases mono
    · simp only [h, if_true, Bool.false_eq_true, if_false, OfNat.ofNat_ne_one]
      exact ⟨_, rfl, channelLoop_shape _ _ _ m⟩
    · simp only [h, if_true, if_false, OfNat.ofNat_ne_one]
      exact ⟨_, rfl, mixdownLoop_shape _ _ _ m⟩
  · have e1 : ¬ ((4 : Nat) = 1) := by decide
    have e2 : ¬ ((4 : Nat) = 2) := by decide
    have e3 : ¬ ((4 : Nat) = 3) := by decide
    cases mono
    · simp only [h, h24, e1, e2, e3, if_true, Bool.false_eq_true, if_false]
      exact ⟨_, rfl, channelLoop_shape _ _ _ m⟩
    · simp only [h, h24, e1, e2, e3, if_true, if_false]
      exact ⟨_, rfl, mixdownLoop_shape _ _ _ m⟩
  · have e1 : ¬ ((4 : Nat) = 1) := by decide
    have e2 : ¬ ((4 : Nat) = 2) := by decide
    have e3 : ¬ ((4 : Nat) = 3) := by decide
    have e4 : ¬ ((32 : Nat) = 24) := by decide
    cases mono
    · simp only [h, h32, e1, e2, e3, e4, if_true, Bool.false_eq_true, if_false]
      exact ⟨_, rfl, channelLoop_shape _ _ _ m⟩
    · simp only [h, h32, e1, e2, e3, e4, if_true, if_false]
      exact ⟨_, rfl, mixdownLoop_shape _ _ _ m⟩

/-- A read that the file can serve in full delivers every requested byte. -/
theorem fread_full (fh : FileStream) (n : Nat) (h : fh.pos + n ≤ fh.content.length) :
    fh.fread n = ((fh.content.drop fh.pos).take n, ⟨fh.content, fh.pos + n⟩)
      ∧ ((fh.content.drop fh.pos).take n).length = n := by
  have hl : ((fh.content.drop fh.pos).take n).length = n := by
    simp only [List.length_take, List.length_drop]
    omega
  refine ⟨?_, hl⟩
  unfold FileStream.fread
  simp only [hl]


/-- The row check of line 298 passes for a matrix with the row count
`setupNewNames` allocates. -/
theorem rows_ok (s : cWaveSource) (m : cMatrix)
    (hrows : m.N = (if s.monoMixdown then 1 else (s.pcmParam.nChan : Int))) :
    ¬ (m.N ≠ (s.pcmParam.nChan : Int) ∧ (s.monoMixdown = false ∧ m.N = 1)) := by
  rintro ⟨h1, h2, -⟩
  rw [h2] at hrows
  exact h1 (by simpa using hrows)

/-- A `readData` call that finds a whole block before the resolved end: it
returns 1, advances the stream and the cursor by the block and leaves the
latch alone. -/
theorem readDataInto_full (s : cWaveSource) (m : cMatrix) (fh : FileStream) (n : Nat)
    (hB : s.blocksizeW = (n : Int)) (hn : 1 ≤ n) (hk : 0 < s.pcmParam.blockSize)
    (hfmt : convertible s.pcmParam = true)
    (hrows : m.N = (if s.monoMixdown then 1 else (s.pcmParam.nChan : Int)))
    (hfh : s.filehandle = some fh)
    (hrem : (n : Int) ≤ s.endSamples - s.curReadPos)
    (havail : fh.pos + s.pcmParam.blockSize * n ≤ fh.content.length) :
    ∃ m1, readDataInto s m
        = .ok (1, { s with
            filehandle := some ⟨fh.content, fh.pos + s.pcmParam.blockSize * n⟩
            curReadPos := s.curReadPos + (n : Int) }, m1)
      ∧ m1.nT = m.nT ∧ m1.N = m.N := by
  obtain ⟨hread, hlen⟩ := fread_full fh _ havail
  obtain ⟨m1, hconv, hnT, hN⟩ := convert_ok s.monoMixdown s.pcmParam
    ((fh.content.drop fh.pos).take (s.pcmParam.blockSize * n)) m hfmt
  have hnot : ¬ (s.endSamples - s.curReadPos < (n : Int)) := by omega
  have htoNat : ((s.pcmParam.blockSize : Int) * (n : Int)).toNat = s.pcmParam.blockSize * n := by
    rw [← Nat.cast_mul, Int.toNat_natCast]
  have hnonneg : ¬ ((s.pcmParam.blockSize : Int) * (n : Int) < 0) := by
    have : (0 : Int) ≤ (s.pcmParam.blockSize : Int) * (n : Int) := by positivity
    omega
  have hpos : s.pcmParam.blockSize * n > 0 := Nat.mul_pos hk (by omega)
  have hk0 : ¬ (s.pcmParam.blockSize = 0) := by omega
  have hdiv : s.pcmParam.blockSize * n / s.pcmParam.blockSize = n := Nat.mul_div_cancel_left n hk
  refine ⟨m1, ?_, hnT, hN⟩
  unfold readDataInto
  rw [if_neg (rows_ok s m hrows)]
  simp only [hB, hfh, if_neg hnot, if_neg hnonneg, htoNat, hread, hlen, Nat.cast_mul, ne_eq,
    not_true_eq_false, false_and, if_false, hpos, if_true, hk0, hconv, hdiv]


/-- A `readData` call with fewer frames than a block left before the resolved
end: it sets the latch, moves the cursor to the end and sets the frame count
of the matrix to the frames that were left. -/
theorem readDataInto_last (s : cWaveSource) (m : cMatrix) (fh : FileStream) (n r : Nat)
    (hB : s.blocksizeW = (n : Int)) (hr : s.endSamples - s.curReadPos = (r : Int))
    (hlt : r < n) (hk : 0 < s.pcmParam.blockSize)
    (hfmt : convertible s.pcmParam = true)
    (hrows : m.N = (if s.monoMixdown then 1 else (s.pcmParam.nChan : Int)))
    (hfh : s.filehandle = some fh)
    (havail : fh.pos + r * s.pcmParam.blockSize ≤ fh.content.length) :
    ∃ ret s1 m1, readDataInto s m = .ok (ret, s1, m1) ∧ s1.eof = true
      ∧ s1.curReadPos = s.curReadPos + (r : Int) ∧ s1.endSamples = s.endSamples
      ∧ (if ret = 0 then 0 else m1.nT) = (r : Int) := by
  obtain ⟨hread, hlen⟩ := fread_full fh _ havail
  have hcond : (r : Int) < (n : Int) := by omega
  have htoNat : ((r : Int) * (s.pcmParam.blockSize : Int)).toNat = r * s.pcmParam.blockSize := by
    rw [← Nat.cast_mul, Int.toNat_natCast]
  have hnonneg : ¬ ((r : Int) * (s.pcmParam.blockSize : Int) < 0) := by
    have : (0 : Int) ≤ (r : Int) * (s.pcmParam.blockSize : Int) := by positivity
    omega
  have hne : ((r * s.pcmParam.blockSize : Nat) : Int) ≠ (s.pcmParam.blockSize : Int) * (n : Int) := by
    intro h
    have h2 : r * s.pcmParam.blockSize = s.pcmParam.blockSize * n := by exact_mod_cast h
    rw [Nat.mul_comm] at h2
    have := Nat.eq_of_mul_eq_mul_left hk h2
    omega
  have hk0 : ¬ (s.pcmParam.blockSize = 0) := by omega
  have hdiv : r * s.pcmParam.blockSize / s.pcmParam.blockSize = r := Nat.mul_div_cancel r hk
  unfold readDataInto
  rw [if_neg (rows_ok s m hrows)]
  simp only [hB, hr, hfh, if_pos hcond, if_neg hnonneg, htoNat, hread, hlen, hk0, and_false,
    if_false, if_pos hne, hdiv]
  by_cases hpos : r * s.pcmParam.blockSize > 0
  · obtain ⟨m1, hconv, hnT, -⟩ := convert_ok s.monoMixdown s.pcmParam
      ((fh.content.drop fh.pos).take (r * s.pcmParam.blockSize)) { m with nT := (r : Int) } hfmt
    simp only [if_pos hpos, hconv]
    exact ⟨1, _, m1, rfl, rfl, rfl, rfl, by simpa using hnT⟩
  · have hr0 : r = 0 := by
      rcases Nat.eq_zero_or_pos r with h | h
      · exact h
      · exact absurd (Nat.mul_pos h hk) hpos
    simp only [if_neg hpos]
    refine ⟨0, _, _, rfl, rfl, ?_, rfl, ?_⟩
    · simp [hr0]
    · simp [hr0]


/-- Once the latch is set, the driver makes no further call. -/
theorem readAll_eof (fuel : Nat) (s : cWaveSource) (h : s.eof = true) :
    readAll fuel s = .ok ([], s) := by
  cases fuel with
  | zero => rfl
  | succ k =>
    unfold readAll
    rw [if_pos h]

/-- One `readData()` call in a streaming state with a whole block left: it
produces `blocksizeW` frames and the state keeps streaming. -/
theorem readData_full (s : cWaveSource) (fh : FileStream) (hs : Streaming s fh)
    (hrem : s.blocksizeW ≤ s.endSamples - s.curReadPos) :
    ∃ s1 fh1, readData s none = .ok (1, s1, none) ∧ Streaming s1 fh1
      ∧ produced 1 s1 = s.blocksizeW ∧ s1.curReadPos = s.curReadPos + s.blocksizeW
      ∧ s1.endSamples = s.endSamples := by
  obtain ⟨n, hn⟩ := Int.eq_ofNat_of_zero_le (le_trans (by decide) hs.block)
  have hn1 : 1 ≤ n := by have := hs.block; omega
  -- the matrix the call works on
  obtain ⟨m0, hm0, hnT0, hN0⟩ : ∃ m0 : cMatrix,
      (match s.mat with
        | some m => m
        | none =>
          if s.monoMixdown then allocMat 1 s.blocksizeW
          else allocMat (s.pcmParam.nChan : Int) s.blocksizeW) = m0
      ∧ m0.nT = s.blocksizeW
      ∧ m0.N = (if s.monoMixdown then 1 else (s.pcmParam.nChan : Int)) := by
    cases hmat : s.mat with
    | some m => exact ⟨m, rfl, (hs.buffer m hmat).1, (hs.buffer m hmat).2⟩
    | none =>
      cases hmono : s.monoMixdown
      · exact ⟨_, rfl, rfl, by simp [allocMat]⟩
      · exact ⟨_, rfl, rfl, by simp [allocMat]⟩
  have havail : fh.pos + s.pcmParam.blockSize * n ≤ fh.content.length := by
    have h1 := hs.avail
    have h2 : (n : Int) * (s.pcmParam.blockSize : Int)
        ≤ (s.endSamples - s.curReadPos) * (s.pcmParam.blockSize : Int) :=
      mul_le_mul_of_nonneg_right (by omega) (Int.natCast_nonneg _)
    have h3 : ((fh.pos + s.pcmParam.blockSize * n : Nat) : Int) ≤ (fh.content.length : Int) := by
      push_cast
      nlinarith
    exact_mod_cast h3
  obtain ⟨m1, hread, hnT1, hN1⟩ := readDataInto_full { s with mat := some m0 } m0 fh n hn hn1
    hs.align hs.format hN0 hs.handle (by simpa [hn] using hrem) havail
  refine ⟨{ s with
      mat := some m1
      filehandle := some ⟨fh.content, fh.pos + s.pcmParam.blockSize * n⟩
      curReadPos := s.curReadPos + (n : Int) },
    ⟨fh.content, fh.pos + s.pcmParam.blockSize * n⟩, ?_, ?_, ?_, ?_, ?_⟩
  · have hlatch : ¬ (s.eof = true) := by simp [hs.latch]
    unfold readData
    rw [if_neg hlatch]
    simp only [hm0]
    rw [hread]
  · refine ⟨hs.latch, rfl, hs.block, hs.align, hs.format, ?_, ?_, ?_⟩
    · show s.curReadPos + (n : Int) ≤ s.endSamples
      omega
    · show ((fh.pos + s.pcmParam.blockSize * n : Nat) : Int)
          + (s.endSamples - (s.curReadPos + (n : Int))) * (s.pcmParam.blockSize : Int)
          ≤ (fh.content.length : Int)
      have h1 := hs.avail
      push_cast
      nlinarith
    · intro m hm
      have : m1 = m := by simpa using hm
      subst this
      exact ⟨hnT1.trans hnT0, hN1.trans hN0⟩
  · show m1.nT = s.blocksizeW
    exact hnT1.trans hnT0
  · show s.curReadPos + (n : Int) = s.curReadPos + s.blocksizeW
    rw [hn]
  · rfl


/-- One `readData()` call in a streaming state with less than a block left:
it sets the latch, produces the frames that were left and moves the cursor to
the resolved end. -/
theorem readData_last (s : cWaveSource) (fh : FileStream) (hs : Streaming s fh)
    (hrem : s.endSamples - s.curReadPos < s.blocksizeW) :
    ∃ ret s1, readData s none = .ok (ret, s1, none) ∧ s1.eof = true
      ∧ produced ret s1 = s.endSamples - s.curReadPos ∧ s1.curReadPos = s.endSamples := by
  obtain ⟨n, hn⟩ := Int.eq_ofNat_of_zero_le (le_trans (by decide) hs.block)
  obtain ⟨r, hr⟩ := Int.eq_ofNat_of_zero_le (sub_nonneg.mpr hs.cursor)
  obtain ⟨m0, hm0, -, hN0⟩ : ∃ m0 : cMatrix,
      (match s.mat with
        | some m => m
        | none =>
          if s.monoMixdown then allocMat 1 s.blocksizeW
          else allocMat (s.pcmParam.nChan : Int) s.blocksizeW) = m0
      ∧ m0.nT = s.blocksizeW
      ∧ m0.N = (if s.monoMixdown then 1 else (s.pcmParam.nChan : Int)) := by
    cases hmat : s.mat with
    | some m => exact ⟨m, rfl, (hs.buffer m hmat).1, (hs.buffer m hmat).2⟩
    | none =>
      cases hmono : s.monoMixdown
      · exact ⟨_, rfl, rfl, by simp [allocMat]⟩
      · exact ⟨_, rfl, rfl, by simp [allocMat]⟩
  have havail : fh.pos + r * s.pcmParam.blockSize ≤ fh.content.length := by
    have h1 := hs.avail
    rw [hr] at h1
    exact_mod_cast h1
  obtain ⟨ret, s1, m1, hread, heof, hcur, -, hprod⟩ :=
    readDataInto_last { s with mat := some m0 } m0 fh n r hn hr (by omega) hs.align hs.format hN0
      hs.handle havail
  have hlatch : ¬ (s.eof = true) := by simp [hs.latch]
  refine ⟨ret, { s1 with mat := some m1 }, ?_, heof, ?_, ?_⟩
  · unfold readData
    rw [if_neg hlatch]
    simp only [hm0]
    rw [hread]
  · rw [hr, ← hprod]
    rfl
  · show s1.curReadPos = s.endSamples
    rw [hcur]
    show s.curReadPos + (r : Int) = s.endSamples
    omega

/-- The driver on a streaming state, with enough fuel for every call: it
stops with the latch set, the cursor at the resolved end, and the frame counts
it produced sum to the frames between the cursor and the resolved end. -/
theorem readAll_streaming (fuel : Nat) : ∀ (s : cWaveSource) (fh : FileStream),
    Streaming s fh → (s.endSamples - s.curReadPos).toNat < fuel →
    ∃ l s2, readAll fuel s = .ok (l, s2) ∧ s2.eof = true
      ∧ l.sum = s.endSamples - s.curReadPos ∧ s2.curReadPos = s.endSamples := by
  induction fuel with
  | zero => intro s fh _ h; omega
  | succ k ih =>
    intro s fh hs hfuel
    have hlatch : ¬ (s.eof = true) := by simp [hs.latch]
    have hcur := hs.cursor
    have hblock := hs.block
    by_cases hrem : s.endSamples - s.curReadPos < s.blocksizeW
    · obtain ⟨ret, s1, hread, heof, hprod, hend⟩ := readData_last s fh hs hrem
      refine ⟨[produced ret s1], s1, ?_, heof, by simpa using hprod, hend⟩
      unfold readAll
      rw [if_neg hlatch]
      simp only [hread, readAll_eof k s1 heof]
    · obtain ⟨s1, fh1, hread, hs1, hprod, hcur1, hend1⟩ := readData_full s fh hs (by omega)
      obtain ⟨l, s2, hall, heof, hsum, hfin⟩ := ih s1 fh1 hs1 (by rw [hend1, hcur1]; omega)
      refine ⟨produced 1 s1 :: l, s2, ?_, heof, ?_, ?_⟩
      · unfold readAll
        rw [if_neg hlatch]
        simp only [hread, hall]
      · rw [List.sum_cons, hsum, hprod, hend1, hcur1]
        omega
      · rw [hfin, hend1]

/-- Both resolved frames lie in `[0, totalFrameCount]`. -/
theorem resolved_bounds (cfg : ConfigInstance) (rate : ℚ) (T : Int) (hT : 0 ≤ T)
    (_ : 0 ≤ rate) :
    (0 ≤ resolveStartSamples cfg cfg.start rate T ∧ resolveStartSamples cfg cfg.start rate T ≤ T)
      ∧ 0 ≤ resolveEndSamples cfg cfg.endSec cfg.endrel rate T
      ∧ resolveEndSamples cfg cfg.endSec cfg.endrel rate T ≤ T := by
  exact ⟨resolveStartSamples_bounds cfg cfg.start rate T hT,
    resolveEndSamples_bounds cfg cfg.endSec cfg.endrel rate T hT⟩

/-- After `configureWriter` on a freshly opened file that holds every whole
frame of its data chunk, with a block size of at least one frame, a
convertible sample format and a resolved start that does not exceed the
resolved end, the cursor is at the start frame and the state is streaming. -/
theorem configureWriter_streaming (cfg : ConfigInstance) (file : List Byte) (B : Int) (ret : Nat)
    (s0 : cWaveSource)
    (hcfg : configureWriter (init cfg file B) cfg = .ok (ret, s0))
    (hB : 1 ≤ B)
    (hfmt : convertible s0.pcmParam = true)
    (hwf : s0.pcmDataBegin + s0.pcmParam.nBlocks * s0.pcmParam.blockSize ≤ file.length)
    (hrange : s0.startSamples ≤ s0.endSamples) :
    s0.curReadPos = s0.startSamples ∧ ∃ fh, Streaming s0 fh := by
  obtain ⟨sh, hr, -, hs1⟩ := configureWriter_ok _ _ _ _ hcfg
  obtain ⟨fh, f, p, hfh, hcont, -, hb, hsh⟩ := readWaveHeader_ok _ _ hr
  have hfile : fh.content = file := by
    have : some fh = some (⟨file, 0⟩ : FileStream) := hfh.symm
    rw [Option.some.injEq] at this
    rw [this]
  rw [hfile] at hcont
  subst hsh
  obtain ⟨⟨hst0, hstT⟩, hen0, henT⟩ := resolved_bounds cfg (srateOf p.sampleRate) (p.nBlocks : Int)
    (Int.natCast_nonneg _) (le_of_lt (srateOf_pos _))
  subst hs1
  simp only [init] at hfmt hwf hrange hst0 hstT hen0 henT ⊢
  generalize resolveStartSamples cfg cfg.start (srateOf p.sampleRate) (p.nBlocks : Int) = st
    at hrange hst0 hstT ⊢
  generalize resolveEndSamples cfg cfg.endSec cfg.endrel (srateOf p.sampleRate) (p.nBlocks : Int)
    = en at hrange hen0 henT ⊢
  have hkT : en * (p.blockSize : Int) ≤ (p.nBlocks : Int) * (p.blockSize : Int) :=
    mul_le_mul_of_nonneg_right henT (Int.natCast_nonneg _)
  have hwf2 : (f.pos : Int) + (p.nBlocks : Int) * (p.blockSize : Int) ≤ (file.length : Int) := by
    exact_mod_cast hwf
  by_cases hpos : st > 0
  · simp only [if_pos hpos]
    refine ⟨trivial, ⟨file, (st * (p.blockSize : Int)).toNat⟩, ?_⟩
    refine ⟨rfl, ?_, hB, hb, hfmt, hrange, ?_, ?_⟩
    · simp [FileStream.fseek, hcont]
    · show (((st * (p.blockSize : Int)).toNat : Nat) : Int) + (en - st) * (p.blockSize : Int)
        ≤ (file.length : Int)
      rw [Int.toNat_of_nonneg (mul_nonneg hst0 (Int.natCast_nonneg _))]
      have : (0 : Int) ≤ (f.pos : Int) := Int.natCast_nonneg _
      nlinarith
    · intro m hm
      simp at hm
  · simp only [if_neg hpos]
    have hst : st = 0 := by omega
    refine ⟨hst.symm, f, ?_⟩
    refine ⟨rfl, rfl, hB, hb, hfmt, ?_, ?_, ?_⟩
    · show (0 : Int) ≤ en
      exact hen0
    · show (f.pos : Int) + (en - 0) * (p.blockSize : Int) ≤ (f.content.length : Int)
      rw [hcont]
      nlinarith
    · intro m hm
      simp at hm


/-- C3 (the claim fails as stated). A mono file of two 3 byte frames holds
every byte its data chunk declares (44 + 6 = 50 bytes) and resolves the range
`[0, 2]`, yet the first `readData()` call, which also sets the latch, ends in
`COMP_ERR`: no frame is produced, not 2. -/
theorem readAll_slim24_aborts :
    (configured defaultConfig slim24File 4).map
        (fun s => (s.pcmDataBegin + s.pcmParam.nBlocks * s.pcmParam.blockSize, s.pcmParam.nBPS,
          s.startSamples, s.endSamples)) = some (50, 3, 0, 2)
      ∧ (configured defaultConfig slim24File 4).map
          (fun s => (abortOf (readData s none), abortOf (readAll 3 s)))
          = some (some .compErr, some .compErr)
      ∧ slim24File.length = 50 :=
  ⟨by decide!, by decide!, by decide⟩

/-- C3 (amended). For every file that holds every whole frame its data chunk
declares and whose sample format `readData` converts (1, 2, or 4 bytes per
sample with 24 or 32 bits), every block size `B >= 1` and every resolved range
with `startFrame <= endFrame`: after `configureWriter` the cursor is at
`startFrame`, and the successive `readData()` calls up to and including the
one that sets the EOF latch all return, end with the latch set and the cursor
at `endFrame`, and the frame counts they produce sum to
`endFrame - startFrame` (any fuel above `endFrame - startFrame` suffices). -/
theorem readAll_frame_count (cfg : ConfigInstance) (file : List Byte) (B : Int) (ret : Nat)
    (s0 : cWaveSource)
    (hcfg : configureWriter (init cfg file B) cfg = .ok (ret, s0))
    (hB : 1 ≤ B)
    (hfmt : convertible s0.pcmParam = true)
    (hwf : s0.pcmDataBegin + s0.pcmParam.nBlocks * s0.pcmParam.blockSize ≤ file.length)
    (hrange : s0.startSamples ≤ s0.endSamples) :
    s0.curReadPos = s0.startSamples
      ∧ ∀ fuel, (s0.endSamples - s0.startSamples).toNat < fuel →
        ∃ l s2, readAll fuel s0 = .ok (l, s2) ∧ s2.eof = true
          ∧ l.sum = s0.endSamples - s0.startSamples ∧ s2.curReadPos = s0.endSamples := by
  obtain ⟨hcur, fh, hs⟩ := configureWriter_streaming cfg file B ret s0 hcfg hB hfmt hwf hrange
  refine ⟨hcur, ?_⟩
  intro fuel hfuel
  have := readAll_streaming fuel s0 fh hs (by rw [hcur]; exact hfuel)
  rw [hcur] at this
  exact this

/-- On the 10 frame mono file, `startSamples = 2` with no explicit end
resolves `endSamples = 10`, the cursor starts at frame 2 and exactly 8 frames
are produced. -/
theorem readAll_frame_count_witness :
    (configureWriter (init startAtTwo mono16File 4) startAtTwo
        = .ok (1, mono16State startAtTwo 4 2 10 4)
      ∧ (1 : Int) ≤ 4
      ∧ convertible (mono16State startAtTwo 4 2 10 4).pcmParam = true
      ∧ (mono16State startAtTwo 4 2 10 4).pcmDataBegin
          + (mono16State startAtTwo 4 2 10 4).pcmParam.nBlocks
            * (mono16State startAtTwo 4 2 10 4).pcmParam.blockSize ≤ mono16File.length
      ∧ (mono16State startAtTwo 4 2 10 4).startSamples
          ≤ (mono16State startAtTwo 4 2 10 4).endSamples)
      ∧ (mono16State startAtTwo 4 2 10 4).endSamples = 10
      ∧ (mono16State startAtTwo 4 2 10 4).curReadPos = 2
      ∧ ∃ l s2, readAll 9 (mono16State startAtTwo 4 2 10 4) = .ok (l, s2) ∧ s2.eof = true
          ∧ l.sum = 8 ∧ s2.curReadPos = 10 :=
  ⟨⟨rfl, by decide, rfl, by decide, by decide⟩, rfl,
    (readAll_frame_count startAtTwo mono16File 4 1 (mono16State startAtTwo 4 2 10 4) rfl
      (by decide) rfl (by decide) (by decide)).1,
    (readAll_frame_count startAtTwo mono16File 4 1 (mono16State startAtTwo 4 2 10 4) rfl
      (by decide) rfl (by decide) (by decide)).2 9 (by decide)⟩

/-- The conversion keeps the shape of the matrix whenever it returns. -/
theorem convert_shape (mono : Bool) (p : sWaveParameters) (buf : List Byte) (m m1 : cMatrix)
    (k : Bool) (h : convert mono p buf m = .ok (m1, k)) : m1.nT = m.nT ∧ m1.N = m.N := by
  unfold convert at h
  repeat' split at h
  all_goals
    first
    | (simp only [Except.ok.injEq, Prod.mk.injEq] at h
       obtain ⟨h1, -⟩ := h
       subst h1
       first
       | exact ⟨rfl, rfl⟩
       | exact mixdownLoop_shape _ _ _ m
       | exact channelLoop_shape _ _ _ m)
    | (exact absurd h (by simp))

/-- The byte count `bs` of lines 305-306 is the requested byte count. -/
theorem bs_eq_requested (s : cWaveSource) :
    (if s.endSamples - s.curReadPos < s.blocksizeW then
        (s.endSamples - s.curReadPos) * (s.pcmParam.blockSize : Int)
      else (s.pcmParam.blockSize : Int) * s.blocksizeW) = requestedBytes s := by
  unfold requestedBytes
  split
  · rename_i h
    rw [min_eq_right (le_of_lt h)]
  · rename_i h
    rw [min_eq_left (not_lt.mp h), mul_comm]

/-- The read part of `readData` (lines 305-319) on the selected matrix: when
the call returns, the latch is set exactly when the delivered byte count is not
that of a whole block, and then the frame count of the matrix is the number of
whole frames delivered and the stream is closed. -/
theorem readDataInto_latch (s : cWaveSource) (m : cMatrix)
    (hclear : s.eof = false) (hrows : rowMismatch s m = false)
    (hret : abortOf (readDataInto s m) = none) :
    ∃ ret s1 m1, readDataInto s m = .ok (ret, s1, m1)
      ∧ (s1.eof = true ↔ (deliveredBytes s : Int) ≠ fullBlockBytes s)
      ∧ (s1.eof = true →
          m1.nT = ((deliveredBytes s / s.pcmParam.blockSize : Nat) : Int)
            ∧ s1.filehandle = none)
      ∧ s1.mat = s.mat := by
  have hrows2 : ¬ (m.N ≠ (s.pcmParam.nChan : Int) ∧ (s.monoMixdown = false ∧ m.N = 1)) := by
    simpa [rowMismatch] using hrows
  unfold readDataInto at hret ⊢
  rw [if_neg hrows2] at hret ⊢
  simp only [bs_eq_requested] at hret ⊢
  split at hret
  · simp [abortOf] at hret
  · rename_i hbs
    rw [if_neg hbs]
    cases hfh : s.filehandle with
    | none => rw [hfh] at hret; simp [abortOf] at hret
    | some fh =>
      rw [hfh] at hret
      have hdel : deliveredBytes s = (fh.fread (requestedBytes s).toNat).1.length := by
        unfold deliveredBytes; rw [hfh]
      simp only [← hdel] at hret ⊢
      unfold fullBlockBytes
      split at hret
      · simp [abortOf] at hret
      · rename_i hdz
        rw [if_neg hdz]
        by_cases hne : (deliveredBytes s : Int) ≠ (s.pcmParam.blockSize : Int) * s.blocksizeW
        · simp only [if_pos hne] at hret ⊢
          by_cases hpos : deliveredBytes s > 0
          · simp only [if_pos hpos] at hret ⊢
            split at hret
            · simp [abortOf] at hret
            · rename_i hk
              rw [if_neg hk]
              split at hret
              · simp [abortOf] at hret
              · rename_i m1 known hconv
                have hshape := convert_shape _ _ _ _ _ _ hconv
                exact ⟨_, _, m1, rfl, by simp [hne], fun _ => ⟨hshape.1, rfl⟩, rfl⟩
          · simp only [if_neg hpos]
            exact ⟨0, _, _, rfl, by simp [hne], fun _ => ⟨rfl, rfl⟩, rfl⟩
        · simp only [if_neg hne] at hret ⊢
          by_cases hpos : deliveredBytes s > 0
          · simp only [if_pos hpos] at hret ⊢
            split at hret
            · simp [abortOf] at hret
            · rename_i hk
              rw [if_neg hk]
              split at hret
              · simp [abortOf] at hret
              · rename_i m1 known hconv
                refine ⟨_, _, m1, rfl, ?_, ?_, rfl⟩
                · simp [hne, hclear]
                · intro h; simp [hclear] at h
          · simp only [if_neg hpos]
            refine ⟨0, _, _, rfl, ?_, ?_, rfl⟩
            · simp [hne, hclear]
            · intro h; simp [hclear] at h

/-- The requested byte count never exceeds that of a whole block. -/
theorem requested_le_full (s : cWaveSource) : requestedBytes s ≤ fullBlockBytes s := by
  unfold requestedBytes fullBlockBytes
  rw [mul_comm]
  exact mul_le_mul_of_nonneg_left (min_le_left _ _) (Int.natCast_nonneg _)

/-- The method `readData` on a clear latch is its body on the selected
matrix. -/
theorem readData_clear (s : cWaveSource) (mArg : Option cMatrix) (hclear : s.eof = false) :
    readData s mArg
      = match mArg with
        | some m =>
          match readDataInto s m with
          | .error a => .error a
          | .ok (ret, s1, m1) => .ok (ret, s1, some m1)
        | none =>
          match readDataInto { s with mat := some (selectedMatrix s none) }
              (selectedMatrix s none) with
          | .error a => .error a
          | .ok (ret, s1, m1) => .ok (ret, { s1 with mat := some m1 }, none) := by
  have hlatch : ¬ (s.eof = true) := by simp [hclear]
  unfold readData
  rw [if_neg hlatch]
  cases mArg with
  | some m => rfl
  | none => rfl

/-- C11 (the claim fails as stated). On the 10 frame mono file with the range
`[0, 8]` and a block size of 16 frames, the first `readData()` call requests
`min(16, 8) * 2 = 16` bytes, the stream delivers all 16, and the call sets the
latch all the same: 16 is not the byte count of a whole block, 32. -/
theorem latch_set_though_all_delivered :
    (configured endAtEight mono16File 16).map
        (fun s => (requestedBytes s, deliveredBytes s, fullBlockBytes s, eofAfterRead s))
      = some (16, 16, 32, some true) := by
  decide

/-- C11 (amended). In every `readData` call made while the latch is clear
that gets past the row check and returns, the EOF latch is set by that call if
and only if the number of bytes delivered differs from the byte count of a
whole block, `blockFrames * blockAlign`; this is so whenever the stream
delivers fewer than the requested
`min(blockFrames, endFrame - currentFrame) * blockAlign` bytes.  When the
latch is set, the frame count of the matrix is
`floor(bytesDelivered / blockAlign)` and the stream is closed; a call in which
a whole block is delivered leaves the latch clear. -/
theorem readData_latch (s : cWaveSource) (mArg : Option cMatrix)
    (hclear : s.eof = false)
    (hrows : rowMismatch s (selectedMatrix s mArg) = false)
    (hret : abortOf (readData s mArg) = none) :
    ∃ ret s1 mOut, readData s mArg = .ok (ret, s1, mOut)
      ∧ (s1.eof = true ↔ (deliveredBytes s : Int) ≠ fullBlockBytes s)
      ∧ ((deliveredBytes s : Int) < requestedBytes s → s1.eof = true)
      ∧ (s1.eof = true →
          ∃ m1, resultMatrix s1 mOut = some m1
            ∧ m1.nT = ((deliveredBytes s / s.pcmParam.blockSize : Nat) : Int)
            ∧ s1.filehandle = none)
      ∧ ((deliveredBytes s : Int) = fullBlockBytes s → s1.eof = false) := by
  have hle := requested_le_full s
  rw [readData_clear s mArg hclear] at hret ⊢
  cases mArg with
  | some m =>
    have hret2 : abortOf (readDataInto s m) = none := by
      cases hr : readDataInto s m with
      | error a => simp only [hr] at hret; simp [abortOf] at hret
      | ok r => rfl
    obtain ⟨ret, s1, m1, hrd, hiff, hset, -⟩ := readDataInto_latch s m hclear hrows hret2
    simp only [hrd]
    refine ⟨ret, s1, some m1, rfl, hiff, ?_, ?_, ?_⟩
    · intro hlt
      exact hiff.mpr (by omega)
    · intro he
      exact ⟨m1, rfl, (hset he).1, (hset he).2⟩
    · intro hfull
      cases hb : s1.eof with
      | false => rfl
      | true => exact absurd hfull (hiff.mp hb)
  | none =>
    have hret2 : abortOf (readDataInto { s with mat := some (selectedMatrix s none) }
        (selectedMatrix s none)) = none := by
      cases hr : readDataInto { s with mat := some (selectedMatrix s none) }
          (selectedMatrix s none) with
      | error a => simp only [hr] at hret; simp [abortOf] at hret
      | ok r => rfl
    obtain ⟨ret, s1, m1, hrd, hiff, hset, -⟩ :=
      readDataInto_latch { s with mat := some (selectedMatrix s none) } (selectedMatrix s none)
        hclear hrows hret2
    simp only [hrd]
    have hiff2 : s1.eof = true ↔ (deliveredBytes s : Int) ≠ fullBlockBytes s := hiff
    refine ⟨ret, { s1 with mat := some m1 }, none, rfl, hiff2, ?_, ?_, ?_⟩
    · intro hlt
      exact hiff2.mpr (by omega)
    · intro he
      exact ⟨m1, rfl, (hset he).1, (hset he).2⟩
    · intro hfull
      show s1.eof = false
      cases hb : s1.eof with
      | false => rfl
      | true => exact absurd hfull (hiff2.mp hb)

/-- On the 10 frame mono file with the range `[0, 8]` and a block size of 16
frames the first call sets the latch and leaves 8 frames in the matrix. -/
theorem readData_latch_witness :
    (shortRangeState.eof = false
      ∧ rowMismatch shortRangeState (selectedMatrix shortRangeState none) = false
      ∧ abortOf (readData shortRangeState none) = none)
    ∧ ∃ ret s1 mOut, readData shortRangeState none = .ok (ret, s1, mOut)
      ∧ (s1.eof = true ↔ (deliveredBytes shortRangeState : Int) ≠ fullBlockBytes shortRangeState)
      ∧ ((deliveredBytes shortRangeState : Int) < requestedBytes shortRangeState → s1.eof = true)
      ∧ (s1.eof = true →
          ∃ m1, resultMatrix s1 mOut = some m1
            ∧ m1.nT = ((deliveredBytes shortRangeState / shortRangeState.pcmParam.blockSize : Nat)
                : Int)
            ∧ s1.filehandle = none)
      ∧ ((deliveredBytes shortRangeState : Int) = fullBlockBytes shortRangeState
          → s1.eof = false) :=
  ⟨⟨rfl, rfl, rfl⟩, readData_latch shortRangeState none rfl rfl rfl⟩

/-- The body of `readData` either sets the latch and closes the stream, or
leaves the latch as it was and the stream open or untouched. -/
theorem readDataInto_release (s s1 : cWaveSource) (m m1 : cMatrix) (ret : Nat)
    (h : readDataInto s m = .ok (ret, s1, m1)) :
    (s1.eof = true ∧ s1.filehandle = none)
      ∨ (s1.eof = s.eof ∧ (s1.filehandle = s.filehandle ∨ ∃ f, s1.filehandle = some f)) := by
  unfold readDataInto at h
  by_cases hrows : m.N ≠ (s.pcmParam.nChan : Int) ∧ (s.monoMixdown = false ∧ m.N = 1)
  · rw [if_pos hrows] at h
    simp only [Except.ok.injEq, Prod.mk.injEq] at h
    obtain ⟨-, h2, -⟩ := h
    subst h2
    exact Or.inr ⟨rfl, Or.inl rfl⟩
  · rw [if_neg hrows] at h
    simp only [bs_eq_requested] at h
    by_cases hbs : requestedBytes s < 0
    · rw [if_pos hbs] at h
      simp at h
    · rw [if_neg hbs] at h
      cases hfh : s.filehandle with
      | none => rw [hfh] at h; simp at h
      | some fh =>
        rw [hfh] at h
        simp only at h
        generalize (fh.fread (requestedBytes s).toNat).1 = buf at h
        generalize (fh.fread (requestedBytes s).toNat).2 = f2 at h
        by_cases hdz : ((buf.length : Nat) : Int) ≠ (s.pcmParam.blockSize : Int) * s.blocksizeW
            ∧ s.pcmParam.blockSize = 0
        · rw [if_pos hdz] at h
          simp at h
        · rw [if_neg hdz] at h
          by_cases hne : ((buf.length : Nat) : Int) ≠ (s.pcmParam.blockSize : Int) * s.blocksizeW
          · simp only [if_pos hne] at h
            by_cases hpos : buf.length > 0
            · simp only [if_pos hpos] at h
              by_cases hk : s.pcmParam.blockSize = 0
              · rw [if_pos hk] at h
                simp at h
              · rw [if_neg hk] at h
                split at h
                · simp at h
                · simp only [Except.ok.injEq, Prod.mk.injEq] at h
                  obtain ⟨-, h2, -⟩ := h
                  subst h2
                  exact Or.inl ⟨rfl, rfl⟩
            · simp only [if_neg hpos] at h
              simp only [Except.ok.injEq, Prod.mk.injEq] at h
              obtain ⟨-, h2, -⟩ := h
              subst h2
              exact Or.inl ⟨rfl, rfl⟩
          · simp only [if_neg hne] at h
            by_cases hpos : buf.length > 0
            · simp only [if_pos hpos] at h
              by_cases hk : s.pcmParam.blockSize = 0
              · rw [if_pos hk] at h
                simp at h
              · rw [if_neg hk] at h
                split at h
                · simp at h
                · simp only [Except.ok.injEq, Prod.mk.injEq] at h
                  obtain ⟨-, h2, -⟩ := h
                  subst h2
                  exact Or.inr ⟨rfl, Or.inr ⟨_, rfl⟩⟩
            · simp only [if_neg hpos] at h
              simp only [Except.ok.injEq, Prod.mk.injEq] at h
              obtain ⟨-, h2, -⟩ := h
              subst h2
              exact Or.inr ⟨rfl, Or.inr ⟨_, rfl⟩⟩

/-- C12. The EOF latch is one-way.  A `readData` call made with the latch set
returns 0 and hands back the state (cursor, latch, stream handle, member
matrix) and the caller's matrix exactly as they were, so it reads nothing and
never clears the latch.  A call that closes an open stream is a call made with
the latch clear that sets the latch; hence the stream is closed at most once,
and no call follows that could close it again. -/
theorem readData_latched (s : cWaveSource) (mArg : Option cMatrix) (h : s.eof = true) :
    readData s mArg = .ok (0, s, mArg)
      ∧ (∀ ret s1 mOut, readData s mArg = .ok (ret, s1, mOut) → s1.eof = true)
      ∧ ∀ (t t1 : cWaveSource) (m mOut : Option cMatrix) (ret : Nat),
          readData t m = .ok (ret, t1, mOut) → t.filehandle ≠ none → t1.filehandle = none →
            t.eof = false ∧ t1.eof = true := by
  have h0 : readData s mArg = .ok (0, s, mArg) := by
    unfold readData
    rw [if_pos h]
  refine ⟨h0, ?_, ?_⟩
  · intro ret s1 mOut hr
    rw [h0] at hr
    simp only [Except.ok.injEq, Prod.mk.injEq] at hr
    rw [← hr.2.1]
    exact h
  · intro t t1 m mOut ret hr hopen hclosed
    cases hte : t.eof with
    | true =>
      exfalso
      unfold readData at hr
      rw [if_pos hte] at hr
      simp only [Except.ok.injEq, Prod.mk.injEq] at hr
      rw [← hr.2.1] at hclosed
      exact hopen hclosed
    | false =>
      refine ⟨rfl, ?_⟩
      rw [readData_clear t m hte] at hr
      cases m with
      | some m0 =>
        simp only at hr
        cases hb : readDataInto t m0 with
        | error a => rw [hb] at hr; simp at hr
        | ok r =>
          obtain ⟨ret0, s0, m1⟩ := r
          rw [hb] at hr
          simp only [Except.ok.injEq, Prod.mk.injEq] at hr
          obtain ⟨-, hs, -⟩ := hr
          subst hs
          rcases readDataInto_release _ _ _ _ _ hb with ⟨he, -⟩ | ⟨-, hf | ⟨f, hf⟩⟩
          · exact he
          · rw [hf] at hclosed; exact absurd hclosed hopen
          · rw [hf] at hclosed; simp at hclosed
      | none =>
        simp only at hr
        cases hb : readDataInto { t with mat := some (selectedMatrix t none) }
            (selectedMatrix t none) with
        | error a => rw [hb] at hr; simp at hr
        | ok r =>
          obtain ⟨ret0, s0, m1⟩ := r
          rw [hb] at hr
          simp only [Except.ok.injEq, Prod.mk.injEq] at hr
          obtain ⟨-, hs, -⟩ := hr
          subst hs
          rcases readDataInto_release _ _ _ _ _ hb with ⟨he, -⟩ | ⟨-, hf | ⟨f, hf⟩⟩
          · exact he
          · have hc : s0.filehandle = none := hclosed
            rw [hf] at hc; exact absurd hc hopen
          · have hc : s0.filehandle = none := hclosed
            rw [hf] at hc; simp at hc

/-- A state with the latch set and the stream closed: a further call returns
0 and changes nothing. -/
theorem readData_latched_witness :
    latchedState.eof = true
      ∧ (readData latchedState none = .ok (0, latchedState, none)
        ∧ (∀ ret s1 mOut, readData latchedState none = .ok (ret, s1, mOut) → s1.eof = true)
        ∧ ∀ (t t1 : cWaveSource) (m mOut : Option cMatrix) (ret : Nat),
            readData t m = .ok (ret, t1, mOut) → t.filehandle ≠ none → t1.filehandle = none →
              t.eof = false ∧ t1.eof = true) :=
  ⟨rfl, readData_latched latchedState none rfl⟩

/-- The masked word `b32[j]&0xFFFFFF` is the word modulo 2^24. -/
theorem b32and24_eq_mod (buf : List Byte) (j : Nat) :
    b32and24 buf j = ((le32 buf (4 * j) % 2 ^ 24 : Nat) : Int) := by
  unfold b32and24
  have h : (0xFFFFFF : Nat) = 2 ^ 24 - 1 := by norm_num
  rw [h, Nat.and_pow_two_sub_one_eq_mod]

/-- C23 (the code at the failing input). The integer `readData` decodes from a
4 byte word with 24 significant bits is `b32[j]&0xFFFFFF`, the low 24 bits as
an unsigned number in [0, 2^24 - 1]: the upper 8 bits are ignored, but the
result is never negative.  The word 0x00FFFFFF decodes to 16777215, not -1,
and 0x00800000 to 8388608, not -8388608; with mixdown the cells written for
the three frames of the file are 16777215/(32767*256), 8388608/(32767*256) and
1/(32767*256), and without mixdown the same integers over 32767*32767*2. -/
theorem readData_packed24_unsigned :
    (b32and24 (u32le 0xFFFFFF) 0, b32and24 (u32le 0x800000) 0, b32and24 (u32le 0xFF000001) 0)
        = (16777215, 8388608, 1)
      ∧ (toSigned 24 0xFFFFFF, toSigned 24 0x800000) = (-1, -8388608)
      ∧ (∀ (buf : List Byte) (j : Nat), 0 ≤ b32and24 buf j ∧ b32and24 buf j < 2 ^ 24)
      ∧ (configured { defaultConfig with monoMixdown := true } negative24File 3).bind
          (fun s => (List.range 3).mapM (cellAfterRead s 0))
          = some [16777215 / (32767 * 256), 8388608 / (32767 * 256), 1 / (32767 * 256)]
      ∧ (configured defaultConfig negative24File 3).bind
          (fun s => (List.range 3).mapM (cellAfterRead s 0))
          = some [16777215 / (32767 * 32767 * 2), 8388608 / (32767 * 32767 * 2),
              1 / (32767 * 32767 * 2)] := by
  refine ⟨by decide, by decide, ?_, by decide!, by decide!⟩
  intro buf j
  rw [b32and24_eq_mod]
  constructor
  · exact Int.natCast_nonneg _
  · have h : le32 buf (4 * j) % 2 ^ 24 < 2 ^ 24 := Nat.mod_lt _ (by norm_num)
    exact_mod_cast h

/-- C25 (the code at the failing input). On a stereo file without mixdown
(expected row count 2) a caller's matrix of 3 rows passes the check of line
298: `readData` reads the 8 bytes of the block, moves the stream from byte 44
to byte 52 and the cursor to frame 2, and returns 1.  With mixdown (expected
row count 1) a matrix of 2 rows is read into as well.  The check fires in one
case only, a matrix of one row without mixdown on a file that is not mono:
there the call returns 0 and leaves the stream at byte 44. -/
theorem readData_accepts_row_mismatch :
    (configured defaultConfig stereo16File 2).map
        (fun s => (s.pcmParam.nChan, s.monoMixdown, streamPos s)) = some (2, false, some 44)
      ∧ (configured defaultConfig stereo16File 2).map
        (fun s => (rowMismatch s (callerMatrix 3), callOutcome s (callerMatrix 3)))
        = some (false, some (1, some 52, 2))
      ∧ (configured { defaultConfig with monoMixdown := true } stereo16File 2).map
        (fun s => (s.pcmParam.nChan, s.monoMixdown, streamPos s)) = some (2, true, some 44)
      ∧ (configured { defaultConfig with monoMixdown := true } stereo16File 2).map
        (fun s => (rowMismatch s (callerMatrix 2), callOutcome s (callerMatrix 2)))
        = some (false, some (1, some 52, 2))
      ∧ (configured defaultConfig stereo16File 2).map
        (fun s => (rowMismatch s (callerMatrix 1), callOutcome s (callerMatrix 1)))
        = some (true, some (0, some 44, 0))
      ∧ (∀ (s : cWaveSource) (m : cMatrix),
          rowMismatch s m = true
            ↔ (s.monoMixdown = false ∧ m.N = 1 ∧ (s.pcmParam.nChan : Int) ≠ 1)) := by
  refine ⟨by decide!, by decide!, by decide!, by decide!, by decide!, ?_⟩
  intro s m
  unfold rowMismatch
  rw [decide_eq_true_iff]
  constructor
  · rintro ⟨h1, h2, h3⟩
    exact ⟨h2, h3, fun h => h1 (by rw [h3, h])⟩
  · rintro ⟨h2, h3, h1⟩
    exact ⟨fun h => h1 (by rw [← h, h3]), h2, h3⟩

/-- On a sample format that is neither converted nor the 3 byte one, both
`switch` statements reach `default:` and leave the matrix as it is. -/
theorem convert_unknown (mono : Bool) (p : sWaveParameters) (buf : List Byte) (m : cMatrix)
    (h1 : p.nBPS ≠ 1) (h2 : p.nBPS ≠ 2) (h3 : p.nBPS ≠ 3)
    (h4 : ¬ (p.nBPS = 4 ∧ (p.nBits = 24 ∨ p.nBits = 32))) :
    convert mono p buf m = .ok (m, false) := by
  unfold convert
  by_cases h : p.nBPS = 4
  · have h24 : p.nBits ≠ 24 := fun e => h4 ⟨h, Or.inl e⟩
    have h32 : p.nBits ≠ 32 := fun e => h4 ⟨h, Or.inr e⟩
    cases mono <;> simp [h1, h2, h3, h24, h32]
  · cases mono <;> simp [h1, h2, h3, h]

/-- On 3 byte samples both `switch` statements throw. -/
theorem convert_three (mono : Bool) (p : sWaveParameters) (buf : List Byte) (m : cMatrix)
    (h : p.nBPS = 3) : convert mono p buf m = .error .compErr := by
  unfold convert
  cases mono <;> simp [h]

/-- A call of the body of `readData` that gets past the row check and obtains
at least one byte ends in one of the two `switch` statements: it returns 1 when
the format is known and 0 when it is not, and aborts when the `switch` does. -/
theorem readDataInto_obtained (s : cWaveSource) (m : cMatrix)
    (hrows : rowMismatch s m = false) (hbytes : 0 < deliveredBytes s) :
    ∃ (buf : List Byte) (s1 : cWaveSource) (m0 : cMatrix),
      readDataInto s m
        = match convert s.monoMixdown s.pcmParam buf m0 with
          | .error a => .error a
          | .ok (m1, known) => .ok (if known then 1 else 0, s1, m1) := by
  have hrows2 : ¬ (m.N ≠ (s.pcmParam.nChan : Int) ∧ (s.monoMixdown = false ∧ m.N = 1)) := by
    simpa [rowMismatch] using hrows
  unfold readDataInto
  rw [if_neg hrows2]
  simp only [bs_eq_requested]
  cases hfh : s.filehandle with
  | none =>
    unfold deliveredBytes at hbytes
    rw [hfh] at hbytes
    simp at hbytes
  | some fh =>
    have hdel : deliveredBytes s = (fh.fread (requestedBytes s).toNat).1.length := by
      unfold deliveredBytes; rw [hfh]
    have hreq : 0 < requestedBytes s := by
      by_contra hn
      have h0 : (requestedBytes s).toNat = 0 := Int.toNat_eq_zero.mpr (not_lt.mp hn)
      rw [hdel, h0] at hbytes
      simp [FileStream.fread] at hbytes
    have hblk : s.pcmParam.blockSize ≠ 0 := by
      intro h0
      unfold requestedBytes at hreq
      rw [h0] at hreq
      simp at hreq
    have hbs : ¬ (requestedBytes s < 0) := not_lt.mpr (le_of_lt hreq)
    rw [if_neg hbs]
    simp only [← hdel]
    have hdz : ¬ ((deliveredBytes s : Int) ≠ (s.pcmParam.blockSize : Int) * s.blocksizeW
        ∧ s.pcmParam.blockSize = 0) := fun h => hblk h.2
    have hpos : deliveredBytes s > 0 := hbytes
    rw [if_neg hdz, if_pos hpos, if_neg hblk]
    exact ⟨_, _, _, rfl⟩

/-- The value returned by a `readData` call made while the latch is clear that
gets past the row check and obtains at least one byte is decided by the
`switch` statements alone. -/
theorem readData_returned (s : cWaveSource) (mArg : Option cMatrix)
    (hclear : s.eof = false)
    (hrows : rowMismatch s (selectedMatrix s mArg) = false)
    (hbytes : 0 < deliveredBytes s) :
    ∃ (buf : List Byte) (m0 : cMatrix),
      returned (readData s mArg)
        = match convert s.monoMixdown s.pcmParam buf m0 with
          | .error a => .error a
          | .ok r => .ok (if r.2 then 1 else 0) := by
  rw [readData_clear s mArg hclear]
  cases mArg with
  | some m =>
    obtain ⟨buf, s1, m0, h⟩ := readDataInto_obtained s m hrows hbytes
    refine ⟨buf, m0, ?_⟩
    simp only [h]
    cases convert s.monoMixdown s.pcmParam buf m0 with
    | error a => rfl
    | ok r => rfl
  | none =>
    obtain ⟨buf, s1, m0, h⟩ :=
      readDataInto_obtained { s with mat := some (selectedMatrix s none) }
        (selectedMatrix s none) hrows hbytes
    refine ⟨buf, m0, ?_⟩
    simp only [h]
    show returned (match (match convert s.monoMixdown s.pcmParam buf m0 with
          | .error a => .error a
          | .ok (m1, known) => .ok (if known then 1 else 0, s1, m1) :
            Except Abort (Nat × cWaveSource × cMatrix)) with
        | .error a => .error a
        | .ok (ret, s1, m1) => .ok (ret, { s1 with mat := some m1 }, none)) = _
    cases convert s.monoMixdown s.pcmParam buf m0 with
    | error a => rfl
    | ok r => rfl

/-- C26. In a `readData` call made while the latch is clear that gets past the
row check and obtains at least one byte, in both channel modes: when
`bytesPerSample` is 1 or 2, or is 4 with `bitsPerSample` 24 or 32, the
conversion does not take the error branch and the call returns 1; when
`bytesPerSample` is 3 the call aborts with `COMP_ERR`; for every other
combination the conversion takes the error branch (`default:`), leaves the
matrix as it is, and the call returns 0. -/
theorem readData_format_dispatch (s : cWaveSource) (mArg : Option cMatrix)
    (hclear : s.eof = false)
    (hrows : rowMismatch s (selectedMatrix s mArg) = false)
    (hbytes : 0 < deliveredBytes s) :
    ((s.pcmParam.nBPS = 1 ∨ s.pcmParam.nBPS = 2
        ∨ (s.pcmParam.nBPS = 4 ∧ (s.pcmParam.nBits = 24 ∨ s.pcmParam.nBits = 32))) →
      returned (readData s mArg) = .ok 1
        ∧ ∀ (buf : List Byte) (m : cMatrix),
            ∃ m1, convert s.monoMixdown s.pcmParam buf m = .ok (m1, true))
    ∧ (s.pcmParam.nBPS = 3 → returned (readData s mArg) = .error .compErr)
    ∧ (¬ (s.pcmParam.nBPS = 1 ∨ s.pcmParam.nBPS = 2 ∨ s.pcmParam.nBPS = 3
          ∨ (s.pcmParam.nBPS = 4 ∧ (s.pcmParam.nBits = 24 ∨ s.pcmParam.nBits = 32))) →
      returned (readData s mArg) = .ok 0
        ∧ produced 0 s = 0
        ∧ ∀ (buf : List Byte) (m : cMatrix),
            convert s.monoMixdown s.pcmParam buf m = .ok (m, false)) := by
  obtain ⟨buf, m0, hret⟩ := readData_returned s mArg hclear hrows hbytes
  refine ⟨?_, ?_, ?_⟩
  · intro hs
    have hconv : convertible s.pcmParam = true := by
      unfold convertible
      simp only [Bool.or_eq_true, Bool.and_eq_true, beq_iff_eq]
      tauto
    constructor
    · obtain ⟨m1, h1, -⟩ := convert_ok s.monoMixdown s.pcmParam buf m0 hconv
      rw [hret, h1]
      rfl
    · intro b m
      obtain ⟨m1, h1, -⟩ := convert_ok s.monoMixdown s.pcmParam b m hconv
      exact ⟨m1, h1⟩
  · intro h3
    rw [hret, convert_three _ _ _ _ h3]
  · intro hn
    have h1 : s.pcmParam.nBPS ≠ 1 := fun e => hn (Or.inl e)
    have h2 : s.pcmParam.nBPS ≠ 2 := fun e => hn (Or.inr (Or.inl e))
    have h3 : s.pcmParam.nBPS ≠ 3 := fun e => hn (Or.inr (Or.inr (Or.inl e)))
    have h4 : ¬ (s.pcmParam.nBPS = 4 ∧ (s.pcmParam.nBits = 24 ∨ s.pcmParam.nBits = 32)) :=
      fun e => hn (Or.inr (Or.inr (Or.inr e)))
    refine ⟨?_, rfl, fun b m => convert_unknown _ _ b m h1 h2 h3 h4⟩
    rw [hret, convert_unknown _ _ buf m0 h1 h2 h3 h4]
    rfl

/-- On the 10 frame mono 16 bit file the first call returns 1; on a header
that declares 8 byte samples with 64 bits the call obtains 20 bytes, takes the
error branch and returns 0. -/
theorem readData_format_dispatch_witness :
    (shortRangeState.eof = false
      ∧ rowMismatch shortRangeState (selectedMatrix shortRangeState none) = false
      ∧ 0 < deliveredBytes shortRangeState
      ∧ shortRangeState.pcmParam.nBPS = 2)
    ∧ returned (readData shortRangeState none) = .ok 1
    ∧ (wideSampleState.eof = false
      ∧ rowMismatch wideSampleState (selectedMatrix wideSampleState none) = false
      ∧ deliveredBytes wideSampleState = 20
      ∧ (wideSampleState.pcmParam.nBPS, wideSampleState.pcmParam.nBits) = (8, 64))
    ∧ returned (readData wideSampleState none) = .ok 0 :=
  ⟨⟨rfl, rfl, by decide, rfl⟩,
    ((readData_format_dispatch shortRangeState none rfl rfl (by decide)).1
      (Or.inr (Or.inl rfl))).1,
    ⟨rfl, rfl, by decide, rfl⟩,
    ((readData_format_dispatch wideSampleState none rfl rfl (by decide)).2.2 (by decide)).1⟩

end WaveSource

namespace FunctionalPercentiles

/-- The model of `round` gives a nearest integer, and at a tie the one
farther from zero. -/
theorem cRound_nearest (x : ℚ) :
    |(cRound x : ℚ) - x| ≤ 1 / 2 ∧ (|(cRound x : ℚ) - x| = 1 / 2 → |x| < |(cRound x : ℚ)|) := by
  unfold cRound
  split
  · rename_i h0
    have h1 := Int.floor_le (x + 1 / 2)
    have h2 := Int.lt_floor_add_one (x + 1 / 2)
    generalize (Int.floor (x + 1 / 2) : ℚ) = r at h1 h2
    refine ⟨abs_le.mpr ⟨by linarith, by linarith⟩, ?_⟩
    intro he
    have hr : r - x = 1 / 2 := by
      rcases abs_eq (by norm_num : (0 : ℚ) ≤ 1 / 2) |>.mp he with h | h
      · exact h
      · linarith
    rw [abs_of_nonneg h0, abs_of_nonneg (by linarith)]
    linarith
  · rename_i h0
    have h0 : x < 0 := not_le.mp h0
    have h1 := Int.le_ceil (x - 1 / 2)
    have h2 := Int.ceil_lt_add_one (x - 1 / 2)
    generalize (Int.ceil (x - 1 / 2) : ℚ) = r at h1 h2
    refine ⟨abs_le.mpr ⟨by linarith, by linarith⟩, ?_⟩
    intro he
    have hr : r - x = -(1 / 2) := by
      rcases abs_eq (by norm_num : (0 : ℚ) ≤ 1 / 2) |>.mp he with h | h
      · linarith
      · exact h
    rw [abs_of_neg h0, abs_of_neg (by linarith)]
    linarith

/-- `getPctlIdx` returns the rounded position, converted to `long` and clamped
into `[0, N-1]`. -/
theorem getPctlIdx_eq_clamp (p : ℚ) (N : Int) (hN : 1 ≤ N) :
    getPctlIdx p N = clampIndex N (Ieee.castLong (cRound (rankPosition p N))) := by
  unfold getPctlIdx clampIndex rankPosition
  simp only [min_def, max_def]
  split_ifs <;> omega

/-- The model of `round` leaves an integer as it is. -/
theorem cRound_intCast (n : Int) : cRound (n : ℚ) = n := by
  unfold cRound
  split
  · rw [Int.floor_eq_iff]
    constructor <;> linarith
  · rw [Int.ceil_eq_iff]
    constructor <;> linarith

/-- The model of `round` is monotone. -/
theorem cRound_mono (x y : ℚ) (h : x ≤ y) : cRound x ≤ cRound y := by
  unfold cRound
  by_cases hx : 0 ≤ x
  · have hy : 0 ≤ y := le_trans hx h
    rw [if_pos hx, if_pos hy]
    exact Int.floor_le_floor (by linarith)
  · rw [if_neg hx]
    by_cases hy : 0 ≤ y
    · rw [if_pos hy]
      have h1 : Int.ceil (x - 1 / 2) ≤ 0 := by
        rw [Int.ceil_le]
        push_cast
        linarith [not_le.mp hx]
      have h2 : 0 ≤ Int.floor (y + 1 / 2) := by
        rw [Int.le_floor]
        push_cast
        linarith
      omega
    · rw [if_neg hy]
      exact Int.ceil_le_ceil (by linarith)

/-- The `double` nearest to `2^62` is `2^62`. -/
theorem fl64_two_pow_62 : Ieee.fl64 4611686018427387904 = 4611686018427387904 := by
  decide!

/-- For `p` in `[0, 1]` and a window of at most `2^62` elements the rounded
position lies in `[0, 2^62]`. -/
theorem rankPosition_bounds (p : ℚ) (N : Int) (hN : 1 ≤ N) (hN2 : N ≤ 2 ^ 62)
    (hp0 : 0 ≤ p) (hp1 : p ≤ 1) :
    0 ≤ rankPosition p N ∧ rankPosition p N ≤ 4611686018427387904 := by
  have hc0 : (0 : ℚ) ≤ ((N - 1 : Int) : ℚ) := by exact_mod_cast (by omega : (0 : Int) ≤ N - 1)
  have hc1 : ((N - 1 : Int) : ℚ) ≤ 4611686018427387904 := by
    have : N - 1 ≤ 4611686018427387904 := by omega
    exact_mod_cast this
  have hy0 : 0 ≤ Ieee.fl64 ((N - 1 : Int) : ℚ) := Ieee.fl_nonneg _ _ _ hc0
  have hy1 : Ieee.fl64 ((N - 1 : Int) : ℚ) ≤ 4611686018427387904 := by
    have := Ieee.fl64_mono _ _ hc1
    rwa [fl64_two_pow_62] at this
  unfold rankPosition
  constructor
  · exact Ieee.fl_nonneg _ _ _ (mul_nonneg hp0 hy0)
  · have h1 : p * Ieee.fl64 ((N - 1 : Int) : ℚ) ≤ 4611686018427387904 := by
      calc p * Ieee.fl64 ((N - 1 : Int) : ℚ) ≤ 1 * Ieee.fl64 ((N - 1 : Int) : ℚ) :=
            mul_le_mul_of_nonneg_right hp1 hy0
        _ ≤ 4611686018427387904 := by rw [one_mul]; exact hy1
    have := Ieee.fl64_mono _ _ h1
    rwa [fl64_two_pow_62] at this

/-- For `p` in `[0, 1]` and a window of at most `2^62` elements the three
conversions to `long` are within range. -/
theorem rankPosition_inLong (p : ℚ) (N : Int) (hN : 1 ≤ N) (hN2 : N ≤ 2 ^ 62)
    (hp0 : 0 ≤ p) (hp1 : p ≤ 1) :
    (0 ≤ cRound (rankPosition p N) ∧ cRound (rankPosition p N) ≤ 2 ^ 62)
      ∧ (0 ≤ Int.floor (rankPosition p N) ∧ Int.floor (rankPosition p N) ≤ 2 ^ 62)
      ∧ (0 ≤ Int.ceil (rankPosition p N) ∧ Int.ceil (rankPosition p N) ≤ 2 ^ 62) := by
  obtain ⟨h0, h1⟩ := rankPosition_bounds p N hN hN2 hp0 hp1
  have e : ((4611686018427387904 : Int) : ℚ) = 4611686018427387904 := by norm_num
  have e0 : ((0 : Int) : ℚ) = 0 := by norm_num
  have r0 := cRound_mono _ _ h0
  have r1 := cRound_mono _ _ h1
  rw [← e0, cRound_intCast] at r0
  rw [← e, cRound_intCast] at r1
  have f0 : 0 ≤ Int.floor (rankPosition p N) := Int.floor_nonneg.mpr h0
  have f1 : Int.floor (rankPosition p N) ≤ 4611686018427387904 := by
    exact_mod_cast le_trans (Int.floor_le _) h1
  have c0 : 0 ≤ Int.ceil (rankPosition p N) := Int.ceil_nonneg h0
  have c1 : Int.ceil (rankPosition p N) ≤ 4611686018427387904 := by
    rw [Int.ceil_le, e]
    exact h1
  refine ⟨⟨r0, ?_⟩, ⟨f0, ?_⟩, ⟨c0, ?_⟩⟩ <;> omega

/-- C13 (the claim fails as stated). For the `double` nearest to 0.7 and
`N = 6` the code returns the index 4, the rounding of the product rounded to
`double` (3.5), while `round(p*(N-1))` for that `double` is 3; and for
`N = 46` the code returns 31, while `round(0.7 * 45)` is 32.  For `p = 1e30`
and `N = 4` the rounded product is beyond the range of `long`, the conversion
delivers a negative value and the code returns 0, while the rounded product
clamped into `[0, 3]` is 3. -/
theorem getPctlIdx_rounds_the_product :
    getPctlIdx (Ieee.fl64 (7 / 10)) 6 = 4
      ∧ max 0 (min ((6 : Int) - 1) (cRound (Ieee.fl64 (7 / 10) * (((6 : Int) - 1 : Int) : ℚ)))) = 3
      ∧ getPctlIdx (Ieee.fl64 (7 / 10)) 46 = 31
      ∧ max 0 (min ((46 : Int) - 1) (cRound ((7 / 10 : ℚ) * (((46 : Int) - 1 : Int) : ℚ)))) = 32
      ∧ getPctlIdx (Ieee.fl64 1000000000000000000000000000000) 4 = 0
      ∧ max 0 (min ((4 : Int) - 1)
          (cRound (rankPosition (Ieee.fl64 1000000000000000000000000000000) 4))) = 3 :=
  ⟨by decide!, by decide!, by decide!, by decide!, by decide!, by decide!⟩

/-- C13 (amended). For every `N >= 1` and every `p`, with `pos` the product
`p*(N-1)` as the code computes it (`N-1` converted to `double`, which is exact
up to `2^53`, and the product rounded to `double`, hence within half a unit in
the last place of the exact product): when `round(pos)` is within the range of
`long`, `getPctlIdx(p, N)` is `round(pos)` clamped into `[0, N-1]`, where the
rounding gives a nearest integer and at a tie the one farther from zero; this
is so for every `p` in `[0, 1]` and `N <= 2^62`.  The result is a valid index
into a window of length `N`.  For `N = 4` and `p = 0.5` it is 2, so the
nearest-rank median of the sorted window `[-32768, 0, 16384, 32767]`, which
`process` writes as `quartile2` to `out[1]`, is 16384. -/
theorem getPctlIdx_spec (p : ℚ) (N : Int) (hN : 1 ≤ N) :
    (Ieee.inLong (cRound (rankPosition p N)) = true →
        getPctlIdx p N = max 0 (min (N - 1) (cRound (rankPosition p N))))
      ∧ (|(cRound (rankPosition p N) : ℚ) - rankPosition p N| ≤ 1 / 2
        ∧ (|(cRound (rankPosition p N) : ℚ) - rankPosition p N| = 1 / 2 →
            |rankPosition p N| < |(cRound (rankPosition p N) : ℚ)|))
      ∧ |rankPosition p N - p * Ieee.fl64 ((N - 1 : Int) : ℚ)|
          ≤ Ieee.pow2 (-53) * |p * Ieee.fl64 ((N - 1 : Int) : ℚ)| + Ieee.pow2 (-1075)
      ∧ (N - 1 ≤ 2 ^ 53 → Ieee.fl64 ((N - 1 : Int) : ℚ) = ((N - 1 : Int) : ℚ))
      ∧ (0 ≤ p → p ≤ 1 → N ≤ 2 ^ 62 → Ieee.inLong (cRound (rankPosition p N)) = true)
      ∧ 0 ≤ getPctlIdx p N ∧ getPctlIdx p N < N
      ∧ getPctlIdx (1 / 2) 4 = 2
      ∧ elem exampleWindow (getPctlIdx (1 / 2) 4) = 16384
      ∧ outCell (process (fetchConfig (construct zeroFlags) nearestRankConfig)
          (some exampleWindow) (some zeroOut) 4) 1 = some 16384 := by
  have h := getPctlIdx_eq_clamp p N hN
  refine ⟨?_, cRound_nearest _, ?_, ?_, ?_, ?_, ?_, by decide!, by decide!, by decide!⟩
  · intro hr
    unfold Ieee.inLong at hr
    rw [decide_eq_true_iff] at hr
    rw [h, Ieee.castLong_of_range _ hr.1 hr.2]
    rfl
  · have := Ieee.fl_error 53 (-1022) (p * Ieee.fl64 ((N - 1 : Int) : ℚ))
    exact this
  · intro h53
    apply Ieee.fl_intCast 53 (-1022) (by decide) (by decide)
    rw [abs_of_nonneg (by omega)]
    exact h53
  · intro hp0 hp1 hN2
    obtain ⟨⟨a, b⟩, -, -⟩ := rankPosition_inLong p N hN hN2 hp0 hp1
    unfold Ieee.inLong
    rw [decide_eq_true_iff]
    constructor <;> omega
  · rw [h]; exact le_max_left _ _
  · rw [h]
    unfold clampIndex
    simp only [min_def, max_def]
    split_ifs <;> omega

/-- The window of four samples at `p = 0.5`. -/
theorem getPctlIdx_spec_witness :
    (1 : Int) ≤ 4
      ∧ ((Ieee.inLong (cRound (rankPosition (1 / 2) 4)) = true →
          getPctlIdx (1 / 2) 4 = max 0 (min (4 - 1) (cRound (rankPosition (1 / 2) 4))))
      ∧ (|(cRound (rankPosition (1 / 2) 4) : ℚ) - rankPosition (1 / 2) 4| ≤ 1 / 2
        ∧ (|(cRound (rankPosition (1 / 2) 4) : ℚ) - rankPosition (1 / 2) 4| = 1 / 2 →
            |rankPosition (1 / 2) 4| < |(cRound (rankPosition (1 / 2) 4) : ℚ)|))
      ∧ |rankPosition (1 / 2) 4 - (1 / 2) * Ieee.fl64 ((4 - 1 : Int) : ℚ)|
          ≤ Ieee.pow2 (-53) * |(1 / 2) * Ieee.fl64 ((4 - 1 : Int) : ℚ)| + Ieee.pow2 (-1075)
      ∧ ((4 : Int) - 1 ≤ 2 ^ 53 → Ieee.fl64 ((4 - 1 : Int) : ℚ) = ((4 - 1 : Int) : ℚ))
      ∧ ((0 : ℚ) ≤ 1 / 2 → (1 / 2 : ℚ) ≤ 1 → (4 : Int) ≤ 2 ^ 62 →
          Ieee.inLong (cRound (rankPosition (1 / 2) 4)) = true)
      ∧ 0 ≤ getPctlIdx (1 / 2) 4 ∧ getPctlIdx (1 / 2) 4 < 4
      ∧ getPctlIdx (1 / 2) 4 = 2
      ∧ elem exampleWindow (getPctlIdx (1 / 2) 4) = 16384
      ∧ outCell (process (fetchConfig (construct zeroFlags) nearestRankConfig)
          (some exampleWindow) (some zeroOut) 4) 1 = some 16384) :=
  ⟨by decide, getPctlIdx_spec (1 / 2) 4 (by decide)⟩

/-- The four clamping statements of `getInterpPctl` clamp into `[0, N-1]`. -/
theorem clamp_steps (N x : Int) (hN : 1 ≤ N) :
    (if (if x < 0 then 0 else x) ≥ N then N - 1 else (if x < 0 then 0 else x))
      = clampIndex N x := by
  unfold clampIndex
  simp only [min_def, max_def]
  split_ifs <;> omega

/-- C14 (the claim fails as stated). For the `double` nearest to 0.04 and the
window `[11, 11]` the code returns `11 - 2^-20` (10.999999 as a `float`), while
the reference definition gives 11, for that `double` and for 0.04 itself.  For
`p = 1e30` and the window `[1, 2, 3, 4]` the floor and the ceiling of the
position are beyond the range of `long`, the conversions deliver a negative
value and the code returns `sorted[0] = 1`, while the reference definition
gives `sorted[3] = 4`. -/
theorem getInterpPctl_rounds_weights :
    getInterpPctl (Ieee.fl64 (1 / 25)) [11, 11] 2 = 11 - 1 / 1048576
      ∧ interpReference (Ieee.fl64 (1 / 25)) [11, 11] 2 = 11
      ∧ interpReference (1 / 25) [11, 11] 2 = 11
      ∧ getInterpPctl (Ieee.fl64 1000000000000000000000000000000) [1, 2, 3, 4] 4 = 1
      ∧ interpReference (Ieee.fl64 1000000000000000000000000000000) [1, 2, 3, 4] 4 = 4 :=
  ⟨by decide!, by decide!, by decide!, by decide!, by decide!⟩

/-- C14 (amended). For every `N >= 1`, every window and every `p` for which
`floor(pos)` and `ceil(pos)` are within the range of `long` (as they are for
`p` in `[0, 1]` and `N <= 2^62`), `getInterpPctl(p, sorted, N)` is the
reference definition evaluated with the arithmetic of the code: `pos` is the
product `p*(N-1)` rounded to `double`, `i1 = floor(pos)` and `i2 = ceil(pos)`
are clamped into `[0, N-1]`, the result is `sorted[i1]` when `i1 = i2`, and
otherwise `sorted[i1]*(i2 - pos) + sorted[i2]*(pos - i1)` with the weights
computed in `double` and converted to `float`, and the products and the sum
rounded to `float`. -/
theorem getInterpPctl_eq_rounded (p : ℚ) (sorted : List ℚ) (N : Int) (hN : 1 ≤ N) :
    (Ieee.inLong (Int.floor (rankPosition p N)) = true →
        Ieee.inLong (Int.ceil (rankPosition p N)) = true →
        getInterpPctl p sorted N = interpRounded p sorted N)
      ∧ (0 ≤ p → p ≤ 1 → N ≤ 2 ^ 62 →
          Ieee.inLong (Int.floor (rankPosition p N)) = true
            ∧ Ieee.inLong (Int.ceil (rankPosition p N)) = true) := by
  constructor
  · intro hf hc
    unfold Ieee.inLong at hf hc
    rw [decide_eq_true_iff] at hf hc
    unfold getInterpPctl interpRounded
    simp only
    rw [show Ieee.fl64 (p * Ieee.fl64 ((N - 1 : Int) : ℚ)) = rankPosition p N from rfl,
      Ieee.castLong_of_range _ hf.1 hf.2, Ieee.castLong_of_range _ hc.1 hc.2]
    simp only [clamp_steps N _ hN]
    by_cases h : clampIndex N (Int.floor (rankPosition p N))
        = clampIndex N (Int.ceil (rankPosition p N))
    · rw [if_pos h, if_neg (not_not.mpr h)]
    · rw [if_neg h, if_pos h]
  · intro hp0 hp1 hN2
    obtain ⟨-, ⟨a, b⟩, ⟨c, d⟩⟩ := rankPosition_inLong p N hN hN2 hp0 hp1
    unfold Ieee.inLong
    rw [decide_eq_true_iff, decide_eq_true_iff]
    refine ⟨⟨?_, ?_⟩, ⟨?_, ?_⟩⟩ <;> omega

/-- The window of four samples at `p = 0.5`: both definitions give 8192. -/
theorem getInterpPctl_eq_rounded_witness :
    ((1 : Int) ≤ 4
      ∧ Ieee.inLong (Int.floor (rankPosition (1 / 2) 4)) = true
      ∧ Ieee.inLong (Int.ceil (rankPosition (1 / 2) 4)) = true)
    ∧ getInterpPctl (1 / 2) exampleWindow 4 = interpRounded (1 / 2) exampleWindow 4
    ∧ interpRounded (1 / 2) exampleWindow 4 = 8192 :=
  ⟨⟨by decide, by decide!, by decide!⟩,
    (getInterpPctl_eq_rounded (1 / 2) exampleWindow 4 (by decide)).1 (by decide!) (by decide!),
    by decide!⟩

/-- The index `getPctlIdx` returns is monotone in `p` on `[0, 1]`. -/
theorem getPctlIdx_mono (p q : ℚ) (N : Int) (hN : 1 ≤ N) (hN2 : N ≤ 2 ^ 62) (hp0 : 0 ≤ p)
    (h : p ≤ q) (hq1 : q ≤ 1) :
    getPctlIdx p N ≤ getPctlIdx q N := by
  rw [getPctlIdx_eq_clamp p N hN, getPctlIdx_eq_clamp q N hN]
  obtain ⟨⟨a1, a2⟩, -, -⟩ := rankPosition_inLong p N hN hN2 hp0 (le_trans h hq1)
  obtain ⟨⟨b1, b2⟩, -, -⟩ := rankPosition_inLong q N hN hN2 (le_trans hp0 h) hq1
  rw [Ieee.castLong_of_range _ (by omega) (by omega),
    Ieee.castLong_of_range _ (by omega) (by omega)]
  have hr : cRound (rankPosition p N) ≤ cRound (rankPosition q N) := by
    apply cRound_mono
    unfold rankPosition
    apply Ieee.fl64_mono
    have hc0 : (0 : ℚ) ≤ ((N - 1 : Int) : ℚ) := by exact_mod_cast (by omega : (0 : Int) ≤ N - 1)
    exact mul_le_mul_of_nonneg_right h (Ieee.fl_nonneg _ _ _ hc0)
  unfold clampIndex
  exact max_le_max (le_refl _) (min_le_min (le_refl _) hr)

/-- In an ascending window the elements are ordered like their indices. -/
theorem elem_mono (sorted : List ℚ) (hs : sorted.Sorted (· ≤ ·)) (i j : Int)
    (hi : 0 ≤ i) (hij : i ≤ j) (hj : j < (sorted.length : Int)) :
    elem sorted i ≤ elem sorted j := by
  unfold elem
  rw [if_neg (by omega), if_neg (by omega)]
  have h1 : i.toNat < sorted.length := by omega
  have h2 : j.toNat < sorted.length := by omega
  rw [List.getD_eq_getElem _ _ h1, List.getD_eq_getElem _ _ h2]
  have := hs.rel_get_of_le (a := ⟨i.toNat, h1⟩) (b := ⟨j.toNat, h2⟩) (by
    show i.toNat ≤ j.toNat
    omega)
  simpa using this

/-- The example window is ascending. -/
theorem exampleWindow_sorted : exampleWindow.Sorted (· ≤ ·) := by
  simp [exampleWindow]
  norm_num

/-- C16. For every ascending-sorted window of length `N >= 2` and all
`p <= p'` in `[0, 1]`, the nearest-rank estimate is monotone:
`getPctlIdx(p, N) <= getPctlIdx(p', N)` and therefore
`sorted[getPctlIdx(p, N)] <= sorted[getPctlIdx(p', N)]`.  (The window is an
array of `N` four byte values in a 64 bit address space, hence `N <= 2^62`;
the rounded product is then within the range of `long`.) -/
theorem nearest_rank_monotone (sorted : List ℚ) (N : Int) (p q : ℚ)
    (hs : sorted.Sorted (· ≤ ·)) (hlen : (sorted.length : Int) = N) (hN : 2 ≤ N)
    (hN2 : N ≤ 2 ^ 62) (hp0 : 0 ≤ p) (hpq : p ≤ q) (hq1 : q ≤ 1) :
    getPctlIdx p N ≤ getPctlIdx q N
      ∧ elem sorted (getPctlIdx p N) ≤ elem sorted (getPctlIdx q N) := by
  have hm := getPctlIdx_mono p q N (by omega) hN2 hp0 hpq hq1
  refine ⟨hm, ?_⟩
  have h0 : 0 ≤ getPctlIdx p N := by
    rw [getPctlIdx_eq_clamp p N (by omega)]; exact le_max_left _ _
  have h1 : getPctlIdx q N < N := by
    rw [getPctlIdx_eq_clamp q N (by omega)]
    unfold clampIndex
    simp only [min_def, max_def]
    split_ifs <;> omega
  exact elem_mono sorted hs _ _ h0 hm (by omega)

/-- The window of four samples at `p = 0.25 <= p' = 0.5`. -/
theorem nearest_rank_monotone_witness :
    (exampleWindow.Sorted (· ≤ ·) ∧ (exampleWindow.length : Int) = 4 ∧ (2 : Int) ≤ 4
      ∧ (4 : Int) ≤ 2 ^ 62 ∧ (0 : ℚ) ≤ 1 / 4 ∧ (1 / 4 : ℚ) ≤ 1 / 2 ∧ (1 / 2 : ℚ) ≤ 1)
    ∧ getPctlIdx (1 / 4) 4 ≤ getPctlIdx (1 / 2) 4
    ∧ elem exampleWindow (getPctlIdx (1 / 4) 4) ≤ elem exampleWindow (getPctlIdx (1 / 2) 4) :=
  ⟨⟨exampleWindow_sorted, rfl, by decide, by decide, by norm_num, by norm_num, by norm_num⟩,
    nearest_rank_monotone exampleWindow 4 (1 / 4) (1 / 2) exampleWindow_sorted rfl
      (by decide) (by decide) (by norm_num) (by norm_num) (by norm_num)⟩

/-- An index already in `[0, N-1]` is left alone by the clamping. -/
theorem clampIndex_id (N x : Int) (h0 : 0 ≤ x) (h1 : x ≤ N - 1) : clampIndex N x = x := by
  unfold clampIndex
  simp only [min_def, max_def]
  split_ifs <;> omega

/-- The error of a rounding to `float`: at most `2^-24` of the value, plus
`2^-150`. -/
theorem fl32_error (x : ℚ) : |Ieee.fl32 x - x| ≤ |x| * (1 / 2 ^ 24) + 1 / 2 ^ 150 := by
  have h := Ieee.fl_error 24 (-126) x
  have e1 : Ieee.pow2 (-((24 : Nat) : Int)) = 1 / 2 ^ 24 := by
    rw [Ieee.pow2_eq]; norm_num [zpow_neg]
  have e2 : Ieee.pow2 (-126 - ((24 : Nat) : Int)) = 1 / 2 ^ 150 := by
    rw [Ieee.pow2_eq]; norm_num [zpow_neg]
  rw [e1, e2] at h
  unfold Ieee.fl32
  linarith

/-- The `double` nearest to 1 is 1. -/
theorem fl64_one : Ieee.fl64 1 = 1 := by decide!

/-- The `float` nearest to 1 is 1. -/
theorem fl32_one : Ieee.fl32 1 = 1 := by decide!

/-- A weight in `[0, 1]`, computed in `double` and converted to `float`, stays
in `[0, 1]` and is off by at most `2^-24 + 2^-51`. -/
theorem weight_error (w : ℚ) (h0 : 0 ≤ w) (h1 : w ≤ 1) :
    0 ≤ Ieee.fl32 (Ieee.fl64 w) ∧ Ieee.fl32 (Ieee.fl64 w) ≤ 1
      ∧ |Ieee.fl32 (Ieee.fl64 w) - w| ≤ 1 / 2 ^ 24 + 1 / 2 ^ 51 := by
  have a0 : 0 ≤ Ieee.fl64 w := Ieee.fl_nonneg _ _ _ h0
  have a1 : Ieee.fl64 w ≤ 1 := by
    have := Ieee.fl64_mono _ _ h1
    rwa [fl64_one] at this
  have b0 : 0 ≤ Ieee.fl32 (Ieee.fl64 w) := Ieee.fl_nonneg _ _ _ a0
  have b1 : Ieee.fl32 (Ieee.fl64 w) ≤ 1 := by
    have := Ieee.fl32_mono _ _ a1
    rwa [fl32_one] at this
  refine ⟨b0, b1, ?_⟩
  have hd := Ieee.fl_error 53 (-1022) w
  have e1 : Ieee.pow2 (-((53 : Nat) : Int)) = 1 / 2 ^ 53 := by
    rw [Ieee.pow2_eq]; norm_num [zpow_neg]
  have e2 : Ieee.pow2 (-1022 - ((53 : Nat) : Int)) ≤ 1 / 2 ^ 53 := by
    rw [Ieee.pow2_eq]
    have : (2 : ℚ) ^ (-1022 - ((53 : Nat) : Int)) ≤ (2 : ℚ) ^ (-(53 : Int)) :=
      zpow_le_zpow_right₀ (by norm_num) (by norm_num)
    refine le_trans this ?_
    norm_num [zpow_neg]
  rw [e1] at hd
  change |Ieee.fl64 w - w| ≤ _ at hd
  have hs := fl32_error (Ieee.fl64 w)
  rw [abs_of_nonneg h0] at hd
  rw [abs_of_nonneg a0] at hs
  rw [abs_le] at hd hs ⊢
  have k1 : w * (1 / 2 ^ 53) ≤ 1 / 2 ^ 53 := by
    have : w * (1 / 2 ^ 53) ≤ 1 * (1 / 2 ^ 53) :=
      mul_le_mul_of_nonneg_right h1 (by positivity)
    linarith
  have k2 : Ieee.fl64 w * (1 / 2 ^ 24) ≤ 1 / 2 ^ 24 := by
    have : Ieee.fl64 w * (1 / 2 ^ 24) ≤ 1 * (1 / 2 ^ 24) :=
      mul_le_mul_of_nonneg_right a1 (by positivity)
    linarith
  have n1 : (1 : ℚ) / 2 ^ 53 + 1 / 2 ^ 53 + 1 / 2 ^ 24 + 1 / 2 ^ 150
      ≤ 1 / 2 ^ 24 + 1 / 2 ^ 51 := by norm_num
  constructor <;> linarith [hd.1, hd.2, hs.1, hs.2]

/-- A product of a value of magnitude at most `M` and a factor in `[0, 1]`,
rounded to `float`. -/
theorem product_error (a u M : ℚ) (ha : |a| ≤ M) (hu0 : 0 ≤ u) (hu1 : u ≤ 1) :
    |a * u| ≤ M ∧ |Ieee.fl32 (a * u) - a * u| ≤ M * (1 / 2 ^ 24) + 1 / 2 ^ 150 := by
  have hM : 0 ≤ M := le_trans (abs_nonneg a) ha
  have h1 : |a * u| ≤ M := by
    rw [abs_mul, abs_of_nonneg hu0]
    calc |a| * u ≤ M * 1 := mul_le_mul ha hu1 hu0 hM
      _ = M := mul_one M
  refine ⟨h1, ?_⟩
  have h := fl32_error (a * u)
  have : |a * u| * (1 / 2 ^ 24) ≤ M * (1 / 2 ^ 24) :=
    mul_le_mul_of_nonneg_right h1 (by positivity)
  linarith

/-- The interpolation as the code computes it, for two values of magnitude at
most `M` and exact weights `w1 + w2 = 1` in `[0, 1]`: the result is off the
exact combination by at most `2^-21 * M + 2^-148`. -/
theorem interp_error (a b M w1 w2 : ℚ) (ha : |a| ≤ M) (hb : |b| ≤ M) (h1 : 0 ≤ w1)
    (h2 : 0 ≤ w2) (hsum : w1 + w2 = 1) :
    |Ieee.fl32 (Ieee.fl32 (a * Ieee.fl32 (Ieee.fl64 w2))
        + Ieee.fl32 (b * Ieee.fl32 (Ieee.fl64 w1))) - (a * w2 + b * w1)|
      ≤ M * (1 / 2 ^ 21) + 1 / 2 ^ 148 := by
  have hM : 0 ≤ M := le_trans (abs_nonneg a) ha
  obtain ⟨u0, u1, ue⟩ := weight_error w2 h2 (by linarith)
  obtain ⟨v0, v1, ve⟩ := weight_error w1 h1 (by linarith)
  generalize Ieee.fl32 (Ieee.fl64 w2) = u at u0 u1 ue ⊢
  generalize Ieee.fl32 (Ieee.fl64 w1) = v at v0 v1 ve ⊢
  obtain ⟨pa, ea⟩ := product_error a u M ha u0 u1
  obtain ⟨pb, eb⟩ := product_error b v M hb v0 v1
  have hr := fl32_error (Ieee.fl32 (a * u) + Ieee.fl32 (b * v))
  generalize Ieee.fl32 (Ieee.fl32 (a * u) + Ieee.fl32 (b * v)) = r at hr ⊢
  generalize Ieee.fl32 (a * u) = s at ea hr ⊢
  generalize Ieee.fl32 (b * v) = t at eb hr ⊢
  have g21 : (1 : ℚ) / 2 ^ 21 = 8 * (1 / 2 ^ 24) := by norm_num
  have g148 : (1 : ℚ) / 2 ^ 148 = 4 * (1 / 2 ^ 150) := by norm_num
  have hd0 : (0 : ℚ) ≤ 1 / 2 ^ 24 := by positivity
  have hd1 : 2 * ((1 : ℚ) / 2 ^ 24) ≤ 1 := by norm_num
  have ht0 : (0 : ℚ) ≤ 1 / 2 ^ 150 := by positivity
  have he : (1 : ℚ) / 2 ^ 51 ≤ 1 / 2 ^ 24 / 2 := by norm_num
  rw [g21, g148]
  generalize (1 : ℚ) / 2 ^ 24 = d at *
  generalize (1 : ℚ) / 2 ^ 150 = τ at *
  generalize (1 : ℚ) / 2 ^ 51 = e at *
  have hMd : 0 ≤ M * d := mul_nonneg hM hd0
  have wa : |a * u - a * w2| ≤ M * (d + e) := by
    rw [← mul_sub, abs_mul]
    exact mul_le_mul ha ue (abs_nonneg _) hM
  have wb : |b * v - b * w1| ≤ M * (d + e) := by
    rw [← mul_sub, abs_mul]
    exact mul_le_mul hb ve (abs_nonneg _) hM
  have hMe : M * e ≤ M * (d / 2) := mul_le_mul_of_nonneg_left he hM
  rw [abs_le] at pa pb ea eb wa wb
  have hst : |s + t| ≤ 2 * M + 2 * (M * d + τ) := by
    rw [abs_le]
    constructor <;> linarith [pa.1, pa.2, pb.1, pb.2, ea.1, ea.2, eb.1, eb.2]
  have p1 : |s + t| * d ≤ (2 * M + 2 * (M * d + τ)) * d :=
    mul_le_mul_of_nonneg_right hst hd0
  have p2 : 2 * d * (M * d + τ) ≤ 1 * (M * d + τ) :=
    mul_le_mul_of_nonneg_right hd1 (by linarith)
  rw [abs_le] at hr ⊢
  constructor
  · linarith [pa.1, pa.2, pb.1, pb.2, ea.1, ea.2, eb.1, eb.2, wa.1, wa.2, wb.1, wb.2,
      hr.1, hr.2]
  · linarith [pa.1, pa.2, pb.1, pb.2, ea.1, ea.2, eb.1, eb.2, wa.1, wa.2, wb.1, wb.2,
      hr.1, hr.2]

/-- A `double` of at least `2^52` is an integer: a rounded position with
different floor and ceiling is below `2^52`. -/
theorem rankPosition_fraction (p : ℚ) (N : Int) (hN : 1 ≤ N) (hp0 : 0 ≤ p)
    (h : Int.floor (rankPosition p N) ≠ Int.ceil (rankPosition p N)) :
    rankPosition p N < 4503599627370496 := by
  by_contra hge
  rw [not_lt] at hge
  apply h
  have hc0 : (0 : ℚ) ≤ ((N - 1 : Int) : ℚ) := by exact_mod_cast (by omega : (0 : Int) ≤ N - 1)
  have hy : 0 ≤ p * Ieee.fl64 ((N - 1 : Int) : ℚ) :=
    mul_nonneg hp0 (Ieee.fl_nonneg _ _ _ hc0)
  rcases eq_or_lt_of_le hy with h0 | hpos
  · have : rankPosition p N = 0 := by
      unfold rankPosition
      rw [← h0]
      exact Ieee.fl_zero _ _
    rw [this] at hge
    norm_num at hge
  · have e : Ieee.pow2 (((53 : Nat) : Int) - 1) = 4503599627370496 := by
      rw [Ieee.pow2_eq]
      norm_num
    obtain ⟨n, hn⟩ := Ieee.fl_large_int 53 (-1022) (by decide) _ hpos (by
      rw [e]
      exact hge)
    have : rankPosition p N = (n : ℚ) := hn
    rw [this, Int.floor_intCast, Int.ceil_intCast]

/-- For `p` in `[0, 1]` and a window of at most `2^62` elements,
`getInterpPctl` returns `sorted[i1]` when the clamped indices agree, and
otherwise interpolates between `floor(pos)` and `ceil(pos) = floor(pos) + 1`,
both valid indices that convert to `double` unchanged. -/
theorem getInterpPctl_unit (sorted : List ℚ) (N : Int) (p : ℚ) (hN : 1 ≤ N)
    (hN2 : N ≤ 2 ^ 62) (hp0 : 0 ≤ p) (hp1 : p ≤ 1) :
    0 ≤ Int.floor (rankPosition p N)
      ∧ (clampIndex N (Int.floor (rankPosition p N))
            = clampIndex N (Int.ceil (rankPosition p N)) →
          getInterpPctl p sorted N = elem sorted (clampIndex N (Int.floor (rankPosition p N))))
      ∧ (clampIndex N (Int.floor (rankPosition p N))
            ≠ clampIndex N (Int.ceil (rankPosition p N)) →
          Int.ceil (rankPosition p N) = Int.floor (rankPosition p N) + 1
          ∧ Int.ceil (rankPosition p N) ≤ N - 1
          ∧ getInterpPctl p sorted N
            = Ieee.fl32
              (Ieee.fl32 (elem sorted (Int.floor (rankPosition p N))
                  * Ieee.fl32 (Ieee.fl64 ((Int.ceil (rankPosition p N) : ℚ) - rankPosition p N)))
                + Ieee.fl32 (elem sorted (Int.ceil (rankPosition p N))
                  * Ieee.fl32 (Ieee.fl64
                      (rankPosition p N - (Int.floor (rankPosition p N) : ℚ)))))) := by
  obtain ⟨h0, -⟩ := rankPosition_bounds p N hN hN2 hp0 hp1
  obtain ⟨hf, hc⟩ := (getInterpPctl_eq_rounded p sorted N hN).2 hp0 hp1 hN2
  have hform := (getInterpPctl_eq_rounded p sorted N hN).1 hf hc
  have f0 : 0 ≤ Int.floor (rankPosition p N) := Int.floor_nonneg.mpr h0
  have fc : Int.floor (rankPosition p N) ≤ Int.ceil (rankPosition p N) := Int.floor_le_ceil _
  have cf : Int.ceil (rankPosition p N) ≤ Int.floor (rankPosition p N) + 1 :=
    Int.ceil_le_floor_add_one _
  refine ⟨f0, ?_, ?_⟩
  · intro heq
    rw [hform]
    unfold interpRounded
    simp only
    rw [if_pos heq]
  · intro hne
    have hfc : Int.floor (rankPosition p N) ≠ Int.ceil (rankPosition p N) :=
      fun e => hne (by rw [e])
    have hlt : Int.floor (rankPosition p N) < N - 1 := by
      by_contra hge
      apply hne
      unfold clampIndex
      simp only [min_def, max_def]
      split_ifs <;> omega
    have c1 : Int.ceil (rankPosition p N) ≤ N - 1 := by omega
    have hsmall := rankPosition_fraction p N hN hp0 hfc
    have c52 : Int.ceil (rankPosition p N) ≤ 4503599627370496 := by
      rw [Int.ceil_le]
      exact_mod_cast le_of_lt hsmall
    have hint : ∀ n : Int, 0 ≤ n → n ≤ 4503599627370496 → Ieee.fl64 (n : ℚ) = (n : ℚ) := by
      intro n h0 h1
      apply Ieee.fl_intCast 53 (-1022) (by decide) (by decide)
      rw [abs_of_nonneg h0]
      omega
    refine ⟨by omega, c1, ?_⟩
    rw [hform]
    unfold interpRounded
    simp only
    rw [if_neg hne, clampIndex_id N _ f0 (by omega), clampIndex_id N _ (by omega) c1,
      hint _ f0 (by omega), hint _ (by omega) c52]

/-- The window of `2^53 + 1` zeros followed by a one. -/
theorem longWindow_facts :
    (List.replicate 9007199254740993 (0 : ℚ) ++ [1]).Sorted (· ≤ ·)
      ∧ ((List.replicate 9007199254740993 (0 : ℚ) ++ [1]).length : Int) = 9007199254740994
      ∧ elem (List.replicate 9007199254740993 (0 : ℚ) ++ [1]) 9007199254740992 = 0
      ∧ elem (List.replicate 9007199254740993 (0 : ℚ) ++ [1]) (9007199254740994 - 1) = 1 := by
  refine ⟨?_, ?_, ?_, ?_⟩
  · unfold List.Sorted
    rw [List.pairwise_append]
    refine ⟨?_, List.pairwise_singleton _ _, ?_⟩
    · rw [List.pairwise_replicate]
      exact Or.inr (le_refl _)
    · intro a ha b hb
      rw [List.mem_replicate] at ha
      rw [List.mem_singleton] at hb
      rw [ha.2, hb]
      norm_num
  · rw [List.length_append, List.length_replicate]
    rfl
  · unfold elem
    rw [if_neg (by decide)]
    have e : (9007199254740992 : Int).toNat = 9007199254740992 := rfl
    rw [e, List.getD_eq_getElem?_getD,
      List.getElem?_append_left (by rw [List.length_replicate]; decide),
      List.getElem?_replicate, if_pos (by decide)]
    rfl
  · unfold elem
    rw [if_neg (by decide)]
    have e : ((9007199254740994 : Int) - 1).toNat = 9007199254740993 := rfl
    rw [e, List.getD_eq_getElem?_getD,
      List.getElem?_append_right (by rw [List.length_replicate]),
      List.length_replicate, Nat.sub_self]
    rfl

/-- C15 (the claim fails as stated). For the ascending window `[11, 11]` and
the `double` nearest to 0.04, which lies in `[0, 1]`, the interpolated estimate
is `11 - 2^-20`, below `sorted[0] = 11`.  And for an ascending window of
`N = 2^53 + 2` elements, `2^53 + 1` zeros followed by a one, `N-1` converts to
the `double` `2^53`, so that at `p = 1` the estimate is `sorted[N-2] = 0`, not
`sorted[N-1] = 1`. -/
theorem getInterpPctl_below_window :
    (([11, 11] : List ℚ).Sorted (· ≤ ·)
      ∧ (0 ≤ Ieee.fl64 (1 / 25) ∧ Ieee.fl64 (1 / 25) ≤ 1)
      ∧ getInterpPctl (Ieee.fl64 (1 / 25)) [11, 11] 2 < elem [11, 11] 0
      ∧ elem [11, 11] 0 - getInterpPctl (Ieee.fl64 (1 / 25)) [11, 11] 2 = 1 / 1048576)
    ∧ ((List.replicate 9007199254740993 (0 : ℚ) ++ [1]).Sorted (· ≤ ·)
      ∧ ((List.replicate 9007199254740993 (0 : ℚ) ++ [1]).length : Int) = 9007199254740994
      ∧ rankPosition 1 9007199254740994 = 9007199254740992
      ∧ getInterpPctl 1 (List.replicate 9007199254740993 (0 : ℚ) ++ [1]) 9007199254740994 = 0
      ∧ elem (List.replicate 9007199254740993 (0 : ℚ) ++ [1]) (9007199254740994 - 1) = 1) := by
  obtain ⟨hs, hl, he0, he1⟩ := longWindow_facts
  have hpos : rankPosition 1 9007199254740994 = 9007199254740992 := by decide!
  refine ⟨⟨by simp, ⟨by decide!, by decide!⟩, by decide!, by decide!⟩, hs, hl, hpos, ?_, he1⟩
  obtain ⟨-, heq, -⟩ := getInterpPctl_unit (List.replicate 9007199254740993 (0 : ℚ) ++ [1])
    9007199254740994 1 (by decide) (by decide) (by norm_num) (le_refl _)
  have hq : rankPosition 1 9007199254740994 = ((9007199254740992 : Int) : ℚ) := by
    rw [hpos]
    norm_num
  rw [hq, Int.floor_intCast, Int.ceil_intCast] at heq
  rw [heq rfl]
  have hcl : clampIndex 9007199254740994 9007199254740992 = 9007199254740992 := by decide
  rw [hcl]
  exact he0

/-- C15 (amended). For every ascending-sorted window of length `N >= 2` (of
at most `2^62` elements) and every `p` in `[0, 1]`, the interpolated estimate
`getInterpPctl(p, sorted, N)` lies in `[sorted[0] - t, sorted[N-1] + t]` for
the rounding tolerance `t = 2^-21 * max(|sorted[0]|, |sorted[N-1]|) + 2^-148`,
and in `[sorted[0], sorted[N-1]]` itself when the rounded position is an
integer; at `p = 0` it is `sorted[0]`, and at `p = 1` it is `sorted[N-1]` when
`N-1` converts to `double` unchanged, as it does up to `2^53`. -/
theorem getInterpPctl_bounds (sorted : List ℚ) (N : Int) (p : ℚ)
    (hs : sorted.Sorted (· ≤ ·)) (hlen : (sorted.length : Int) = N) (hN : 2 ≤ N)
    (hN2 : N ≤ 2 ^ 62) (hp0 : 0 ≤ p) (hp1 : p ≤ 1) :
    elem sorted 0 - interpTolerance sorted N ≤ getInterpPctl p sorted N
      ∧ getInterpPctl p sorted N ≤ elem sorted (N - 1) + interpTolerance sorted N
      ∧ (Int.floor (rankPosition p N) = Int.ceil (rankPosition p N) →
          elem sorted 0 ≤ getInterpPctl p sorted N
            ∧ getInterpPctl p sorted N ≤ elem sorted (N - 1))
      ∧ getInterpPctl 0 sorted N = elem sorted 0
      ∧ (Ieee.fl64 ((N - 1 : Int) : ℚ) = ((N - 1 : Int) : ℚ) →
          getInterpPctl 1 sorted N = elem sorted (N - 1))
      ∧ (N - 1 ≤ 2 ^ 53 → Ieee.fl64 ((N - 1 : Int) : ℚ) = ((N - 1 : Int) : ℚ)) := by
  have hN1 : (1 : Int) ≤ N := by omega
  have hzero : getInterpPctl 0 sorted N = elem sorted 0 := by
    obtain ⟨-, heq, -⟩ := getInterpPctl_unit sorted N 0 hN1 hN2 (le_refl _) (by norm_num)
    have h0 : rankPosition 0 N = ((0 : Int) : ℚ) := by
      unfold rankPosition
      rw [zero_mul, Int.cast_zero]
      exact Ieee.fl_zero _ _
    rw [h0, Int.floor_intCast, Int.ceil_intCast] at heq
    rw [heq rfl, clampIndex_id N 0 (le_refl _) (by omega)]
  have hone : Ieee.fl64 ((N - 1 : Int) : ℚ) = ((N - 1 : Int) : ℚ) →
      getInterpPctl 1 sorted N = elem sorted (N - 1) := by
    intro hx
    obtain ⟨-, heq, -⟩ := getInterpPctl_unit sorted N 1 hN1 hN2 (by norm_num) (le_refl _)
    have h1 : rankPosition 1 N = ((N - 1 : Int) : ℚ) := by
      unfold rankPosition
      rw [one_mul, hx, hx]
    rw [h1, Int.floor_intCast, Int.ceil_intCast] at heq
    rw [heq rfl, clampIndex_id N (N - 1) (by omega) (le_refl _)]
  have h53 : N - 1 ≤ 2 ^ 53 → Ieee.fl64 ((N - 1 : Int) : ℚ) = ((N - 1 : Int) : ℚ) := by
    intro h
    apply Ieee.fl_intCast 53 (-1022) (by decide) (by decide)
    rw [abs_of_nonneg (by omega)]
    exact h
  obtain ⟨f0, heq, hne⟩ := getInterpPctl_unit sorted N p hN1 hN2 hp0 hp1
  have hfl := Int.floor_le (rankPosition p N)
  have hcl := Int.le_ceil (rankPosition p N)
  have htol : interpTolerance sorted N
      = max |elem sorted 0| |elem sorted (N - 1)| * (1 / 2 ^ 21) + 1 / 2 ^ 148 := by
    unfold interpTolerance
    have e1 : Ieee.pow2 (-21) = 1 / 2 ^ 21 := by rw [Ieee.pow2_eq]; norm_num [zpow_neg]
    have e2 : Ieee.pow2 (-148) = 1 / 2 ^ 148 := by rw [Ieee.pow2_eq]; norm_num [zpow_neg]
    rw [e1, e2]
  have htol0 : 0 ≤ interpTolerance sorted N := by
    rw [htol]
    have : (0 : ℚ) ≤ max |elem sorted 0| |elem sorted (N - 1)| :=
      le_trans (abs_nonneg _) (le_max_left _ _)
    positivity
  by_cases hcase : clampIndex N (Int.floor (rankPosition p N))
      = clampIndex N (Int.ceil (rankPosition p N))
  · rw [heq hcase]
    have k0 : 0 ≤ clampIndex N (Int.floor (rankPosition p N)) := le_max_left _ _
    have k1 : clampIndex N (Int.floor (rankPosition p N)) ≤ N - 1 := by
      unfold clampIndex
      simp only [min_def, max_def]
      split_ifs <;> omega
    have ha := elem_mono sorted hs 0 _ (le_refl _) k0 (by omega)
    have hb := elem_mono sorted hs _ (N - 1) k0 k1 (by omega)
    exact ⟨by linarith, by linarith, fun _ => ⟨ha, hb⟩, hzero, hone, h53⟩
  · obtain ⟨hc, c1, hform⟩ := hne hcase
    have hfc : Int.floor (rankPosition p N) ≠ Int.ceil (rankPosition p N) :=
      fun e => hcase (by rw [e])
    rw [hform]
    generalize rankPosition p N = pos at *
    generalize Int.floor pos = f at *
    generalize Int.ceil pos = c at *
    have ha1 := elem_mono sorted hs 0 f (le_refl _) f0 (by omega)
    have ha2 := elem_mono sorted hs 0 c (le_refl _) (by omega) (by omega)
    have hb1 := elem_mono sorted hs f (N - 1) f0 (by omega) (by omega)
    have hb2 := elem_mono sorted hs c (N - 1) (by omega) c1 (by omega)
    refine ⟨?_, ?_, fun h => absurd h hfc, hzero, hone, h53⟩
    all_goals
      have hcq : (c : ℚ) = (f : ℚ) + 1 := by exact_mod_cast hc
      have hw2 : (0 : ℚ) ≤ (c : ℚ) - pos := by linarith
      have hw1 : (0 : ℚ) ≤ pos - (f : ℚ) := by linarith
      have hsum : (pos - (f : ℚ)) + ((c : ℚ) - pos) = 1 := by linarith
      have hMa : |elem sorted f| ≤ max |elem sorted 0| |elem sorted (N - 1)| :=
        abs_le_max_abs_abs ha1 hb1
      have hMb : |elem sorted c| ≤ max |elem sorted 0| |elem sorted (N - 1)| :=
        abs_le_max_abs_abs ha2 hb2
      have herr := interp_error (elem sorted f) (elem sorted c) _ (pos - (f : ℚ))
        ((c : ℚ) - pos) hMa hMb hw1 hw2 hsum
      rw [← htol, abs_le] at herr
      have e1 := mul_le_mul_of_nonneg_right ha1 hw2
      have e2 := mul_le_mul_of_nonneg_right ha2 hw1
      have e3 := mul_le_mul_of_nonneg_right hb1 hw2
      have e4 := mul_le_mul_of_nonneg_right hb2 hw1
      rw [hcq] at e1 e3 herr ⊢
      linarith [herr.1, herr.2]

/-- The window of four samples at `p = 0.5`: the estimate 8192 lies between
-32768 and 32767. -/
theorem getInterpPctl_bounds_witness :
    (exampleWindow.Sorted (· ≤ ·) ∧ (exampleWindow.length : Int) = 4 ∧ (2 : Int) ≤ 4
      ∧ (4 : Int) ≤ 2 ^ 62 ∧ (0 : ℚ) ≤ 1 / 2 ∧ (1 / 2 : ℚ) ≤ 1)
    ∧ getInterpPctl (1 / 2) exampleWindow 4 = 8192
    ∧ (elem exampleWindow 0 - interpTolerance exampleWindow 4
          ≤ getInterpPctl (1 / 2) exampleWindow 4
      ∧ getInterpPctl (1 / 2) exampleWindow 4
          ≤ elem exampleWindow (4 - 1) + interpTolerance exampleWindow 4
      ∧ (Int.floor (rankPosition (1 / 2) 4) = Int.ceil (rankPosition (1 / 2) 4) →
          elem exampleWindow 0 ≤ getInterpPctl (1 / 2) exampleWindow 4
            ∧ getInterpPctl (1 / 2) exampleWindow 4 ≤ elem exampleWindow (4 - 1))
      ∧ getInterpPctl 0 exampleWindow 4 = elem exampleWindow 0
      ∧ (Ieee.fl64 (((4 : Int) - 1 : Int) : ℚ) = (((4 : Int) - 1 : Int) : ℚ) →
          getInterpPctl 1 exampleWindow 4 = elem exampleWindow (4 - 1))
      ∧ ((4 : Int) - 1 ≤ 2 ^ 53 →
          Ieee.fl64 (((4 : Int) - 1 : Int) : ℚ) = (((4 : Int) - 1 : Int) : ℚ))) :=
  ⟨⟨exampleWindow_sorted, rfl, by decide, by decide, by norm_num, by norm_num⟩, by decide!,
    getInterpPctl_bounds exampleWindow 4 (1 / 2) exampleWindow_sorted rfl (by decide)
      (by decide) (by norm_num) (by norm_num)⟩

/-- The clipping puts every fraction into `[0, 1]` and leaves those already
there. -/
theorem clip_spec (v : ℚ) :
    0 ≤ clip v ∧ clip v ≤ 1 ∧ (v < 0 → clip v = 0) ∧ (1 < v → clip v = 1)
      ∧ (0 ≤ v → v ≤ 1 → clip v = v) := by
  unfold clip
  simp only
  refine ⟨?_, ?_, ?_, ?_, ?_⟩
  · split_ifs <;> linarith
  · split_ifs <;> linarith
  · intro h
    split_ifs <;> first | rfl | linarith
  · intro h
    split_ifs <;> first | rfl | linarith
  · intro h0 h1
    split_ifs <;> first | rfl | linarith

/-- The stored fractions are the configured ones, each clipped. -/
theorem fetchConfig_pctl (e0 : Nat → Int) (cfg : ConfigInstance) :
    (fetchConfig (construct e0) cfg).pctl = cfg.percentile.map clip
      ∧ (fetchConfig (construct e0) cfg).nPctl = (cfg.percentile.length : Int) := by
  unfold fetchConfig
  simp only
  split
  · split
    · exact ⟨rfl, rfl⟩
    · exact ⟨rfl, rfl⟩
  · rename_i h
    have h0 : cfg.percentile = [] := by
      apply List.eq_nil_of_length_eq_zero
      omega
    refine ⟨?_, rfl⟩
    rw [h0]
    rfl

/-- C19. After `fetchConfig` every stored percentile fraction lies in
`[0, 1]`: a configured value below 0 is stored as 0, a value above 1 as 1 (so
1.5 becomes 1 and -0.2 becomes 0), a value already in `[0, 1]` is stored
unchanged, and none is dropped: the number of stored fractions is the number
configured. -/
theorem fetchConfig_fractions (e0 : Nat → Int) (cfg : ConfigInstance) (i : Nat)
    (hi : i < cfg.percentile.length) :
    (fetchConfig (construct e0) cfg).pctl.length = cfg.percentile.length
      ∧ (fetchConfig (construct e0) cfg).nPctl = (cfg.percentile.length : Int)
      ∧ 0 ≤ (fetchConfig (construct e0) cfg).pctl.getD i 0
      ∧ (fetchConfig (construct e0) cfg).pctl.getD i 0 ≤ 1
      ∧ (cfg.percentile.getD i 0 < 0 → (fetchConfig (construct e0) cfg).pctl.getD i 0 = 0)
      ∧ (1 < cfg.percentile.getD i 0 → (fetchConfig (construct e0) cfg).pctl.getD i 0 = 1)
      ∧ (0 ≤ cfg.percentile.getD i 0 → cfg.percentile.getD i 0 ≤ 1 →
          (fetchConfig (construct e0) cfg).pctl.getD i 0 = cfg.percentile.getD i 0)
      ∧ clip (3 / 2) = 1 ∧ clip (-1 / 5) = 0 := by
  obtain ⟨hp, hn⟩ := fetchConfig_pctl e0 cfg
  have hget : (fetchConfig (construct e0) cfg).pctl.getD i 0 = clip (cfg.percentile.getD i 0) := by
    rw [hp, List.getD_eq_getElem _ _ (by simpa using hi), List.getD_eq_getElem _ _ hi,
      List.getElem_map]
  obtain ⟨c0, c1, c2, c3, c4⟩ := clip_spec (cfg.percentile.getD i 0)
  rw [hget]
  refine ⟨by rw [hp, List.length_map], hn, c0, c1, c2, c3, c4, ?_, ?_⟩
  · exact (clip_spec (3 / 2)).2.2.2.1 (by norm_num)
  · exact (clip_spec (-1 / 5)).2.2.1 (by norm_num)

/-- The fractions 1.5, -0.2, 0.3 are stored as 1, 0, 0.3; here the first. -/
theorem fetchConfig_fractions_witness :
    0 < clippedConfig.percentile.length
      ∧ ((fetchConfig (construct zeroFlags) clippedConfig).pctl.length
          = clippedConfig.percentile.length
      ∧ (fetchConfig (construct zeroFlags) clippedConfig).nPctl
          = (clippedConfig.percentile.length : Int)
      ∧ 0 ≤ (fetchConfig (construct zeroFlags) clippedConfig).pctl.getD 0 0
      ∧ (fetchConfig (construct zeroFlags) clippedConfig).pctl.getD 0 0 ≤ 1
      ∧ (clippedConfig.percentile.getD 0 0 < 0 →
          (fetchConfig (construct zeroFlags) clippedConfig).pctl.getD 0 0 = 0)
      ∧ (1 < clippedConfig.percentile.getD 0 0 →
          (fetchConfig (construct zeroFlags) clippedConfig).pctl.getD 0 0 = 1)
      ∧ (0 ≤ clippedConfig.percentile.getD 0 0 → clippedConfig.percentile.getD 0 0 ≤ 1 →
          (fetchConfig (construct zeroFlags) clippedConfig).pctl.getD 0 0
            = clippedConfig.percentile.getD 0 0)
      ∧ clip (3 / 2) = 1 ∧ clip (-1 / 5) = 0) :=
  ⟨by decide, fetchConfig_fractions zeroFlags clippedConfig 0 (by decide)⟩

/-- C20 (the code at the failing input). With three percentile fractions, the
range tokens `2-2` and `0-5` are stored as the pairs (2, 2) and (0, 5), not as
the sentinel (-1, -1): `fetchConfig` reports "X must be != Y" and "Y is out of
range" but does not set `err`.  `process` then computes the second range from
`out[n0+5]`, a cell beyond the three percentile outputs that it has not
written: the value is 99 when the array held 100 and 1 when it held 0. -/
theorem fetchConfig_keeps_invalid_ranges :
    ((fetchConfig (construct zeroFlags) badRangeConfig).pctlr1,
        (fetchConfig (construct zeroFlags) badRangeConfig).pctlr2,
        (fetchConfig (construct zeroFlags) badRangeConfig).nPctl) = ([2, 0], [2, 5], 3)
      ∧ rangeReports badRangeConfig = [.equalIndices, .yOutOfRange]
      ∧ (List.range 5).map (outCell (process (fetchConfig (construct zeroFlags) badRangeConfig)
          (some [1, 2, 3, 4]) (some hundredOut) 4)) = [some 1, some 3, some 4, some 0, some 99]
      ∧ (List.range 5).map (outCell (process (fetchConfig (construct zeroFlags) badRangeConfig)
          (some [1, 2, 3, 4]) (some zeroOut) 4)) = [some 1, some 3, some 4, some 0, some 1] :=
  ⟨by decide, by decide, by decide!, by decide!⟩

/-- One write `out[n++] = v` after the values `l` appends `v`. -/
theorem put_writeList (o : Nat → ℚ) (l : List ℚ) (v : ℚ) :
    put (writeList o l, l.length) v = (writeList o (l ++ [v]), (l ++ [v]).length) := by
  unfold put writeList
  simp only [List.length_append, List.length_singleton, Prod.mk.injEq, and_true]
  funext j
  by_cases h1 : j = l.length
  · subst h1
    simp [List.getD_eq_getElem?_getD]
  · by_cases h2 : j < l.length
    · have h3 : j < l.length + 1 := by omega
      simp [h1, h2, h3, List.getD_eq_getElem?_getD, List.getElem?_append_left h2]
    · have h3 : ¬ j < l.length + 1 := by omega
      simp [h1, h2, h3]

/-- A guarded write `if (enab[i]) out[n++] = v` after the values `l`. -/
theorem guarded_put (c : cFunctionalPercentiles) (o : Nat → ℚ) (l : List ℚ) (i : Nat) (v : ℚ) :
    (if c.enab i ≠ 0 then put (writeList o l, l.length) v else (writeList o l, l.length))
      = (writeList o (l ++ whenEnabled c i v), (l ++ whenEnabled c i v).length) := by
  unfold whenEnabled
  split
  · exact put_writeList o l v
  · simp

/-- A loop of writes `out[n++] = f i` after the values `l` appends the values
`f i` in order. -/
theorem putLoop_writeList (o : Nat → ℚ) (f : Nat → ℚ) (xs : List Nat) :
    ∀ l : List ℚ, xs.foldl (fun st i => put st (f i)) (writeList o l, l.length)
      = (writeList o (l ++ xs.map f), (l ++ xs.map f).length) := by
  induction xs with
  | nil => intro l; simp
  | cons x xs ih =>
    intro l
    rw [List.foldl_cons, put_writeList, ih]
    simp

/-- Nothing written leaves the array as it is. -/
theorem writeList_nil (o : Nat → ℚ) : writeList o [] = o := by
  funext j
  simp [writeList]

/-- One value per range. -/
theorem rangeOutputs_length (c : cFunctionalPercentiles) (o : Nat → ℚ) (l : List ℚ)
    (n0 k : Nat) : (rangeOutputs c o l n0 k).length = k := by
  induction k with
  | zero => rfl
  | succ k ih =>
    show (rangeOutputs c o l n0 k ++ [_]).length = k + 1
    rw [List.length_append, ih]
    rfl

/-- The first `k` passes of the range loop, run after the values `l`, append
the values of the first `k` ranges. -/
theorem rangeLoop_upto (c : cFunctionalPercentiles) (n0 : Nat) (o : Nat → ℚ) (l : List ℚ)
    (k : Nat) :
    (List.range k).foldl
        (fun st i =>
          let r1 : Int := c.pctlr1.getD i 0
          let r2 : Int := c.pctlr2.getD i 0
          if r1 ≥ 0 ∧ r2 ≥ 0 then
            put st |Ieee.fl32 (st.1 ((n0 : Int) + r2).toNat - st.1 ((n0 : Int) + r1).toNat)|
          else put st 0)
        (writeList o l, l.length)
      = (writeList o (l ++ rangeOutputs c o l n0 k), (l ++ rangeOutputs c o l n0 k).length) := by
  induction k with
  | zero => simp [rangeOutputs]
  | succ k ih =>
    rw [List.range_succ, List.foldl_append, ih]
    simp only [List.foldl_cons, List.foldl_nil]
    have hstep : rangeOutputs c o l n0 (k + 1)
        = rangeOutputs c o l n0 k ++
          [if c.pctlr1.getD k 0 ≥ 0 ∧ c.pctlr2.getD k 0 ≥ 0 then
            |Ieee.fl32 (writeList o (l ++ rangeOutputs c o l n0 k)
                  ((n0 : Int) + c.pctlr2.getD k 0).toNat
              - writeList o (l ++ rangeOutputs c o l n0 k)
                  ((n0 : Int) + c.pctlr1.getD k 0).toNat)|
          else 0] := rfl
    rw [hstep, ← List.append_assoc]
    by_cases hg : c.pctlr1.getD k 0 ≥ 0 ∧ c.pctlr2.getD k 0 ≥ 0
    · rw [if_pos hg, if_pos hg, put_writeList]
    · rw [if_neg hg, if_neg hg, put_writeList]

/-- The range loop appends the values of the ranges. -/
theorem rangeLoop_writeList (c : cFunctionalPercentiles) (n0 : Nat) (o : Nat → ℚ)
    (l : List ℚ) :
    rangeLoop c n0 (writeList o l, l.length)
      = (writeList o (l ++ rangeOutputs c o l n0 c.nPctlRange.toNat),
          (l ++ rangeOutputs c o l n0 c.nPctlRange.toNat).length) := by
  unfold rangeLoop
  exact rangeLoop_upto c n0 o l c.nPctlRange.toNat

/-- The percentile loops append one estimate per stored fraction. -/
theorem percentileLoop_writeList (c : cFunctionalPercentiles) (sorted : List ℚ) (N : Int)
    (o : Nat → ℚ) (l : List ℚ) :
    percentileLoop c sorted N (writeList o l, l.length)
      = (writeList o (l ++ percentileOutputs c sorted N),
          (l ++ percentileOutputs c sorted N).length) := by
  unfold percentileLoop percentileOutputs estimate
  split
  · rw [putLoop_writeList]
  · rw [putLoop_writeList]

/-- The six guarded writes append the enabled quartile outputs in order. -/
theorem quartileWrites_writeList (c : cFunctionalPercentiles) (sorted : List ℚ) (N : Int)
    (o : Nat → ℚ) :
    quartileWrites c (estimate c (1 / 4) sorted N) (estimate c (1 / 2) sorted N)
        (estimate c (3 / 4) sorted N) (o, 0)
      = (writeList o (quartileOutputs c sorted N), (quartileOutputs c sorted N).length) := by
  have h0 : ((o, 0) : OutState) = (writeList o [], ([] : List ℚ).length) := by
    rw [writeList_nil]; rfl
  unfold quartileWrites quartileOutputs
  simp only
  rw [h0, guarded_put, guarded_put, guarded_put, guarded_put, guarded_put, guarded_put]
  simp only [List.nil_append]

/-- The values of the percentile part after the values `l`: when the
percentile or the percentile-range output is enabled, one estimate per stored
fraction and then, when the ranges are enabled, one value per range. -/
theorem variableWrites_writeList (c : cFunctionalPercentiles) (sorted : List ℚ) (N : Int)
    (o : Nat → ℚ) (l : List ℚ) :
    variableWrites c sorted N (writeList o l, l.length)
      = (writeList o (l
            ++ (if variableEnabled c then
                  percentileOutputs c sorted N
                    ++ (if c.enab FUNCT_PCTLRANGE ≠ 0 then
                          rangeOutputs c o (l ++ percentileOutputs c sorted N) l.length
                            c.nPctlRange.toNat
                        else [])
                else [])),
          (l ++ (if variableEnabled c then
                  percentileOutputs c sorted N
                    ++ (if c.enab FUNCT_PCTLRANGE ≠ 0 then
                          rangeOutputs c o (l ++ percentileOutputs c sorted N) l.length
                            c.nPctlRange.toNat
                        else [])
                else [])).length) := by
  unfold variableWrites
  by_cases hv : c.enab FUNCT_PERCENTILE ≠ 0 ∨ c.enab FUNCT_PCTLRANGE ≠ 0
  · have hve : variableEnabled c = true := decide_eq_true hv
    rw [if_pos hv, hve, if_pos rfl]
    simp only
    rw [percentileLoop_writeList]
    by_cases hr : c.enab FUNCT_PCTLRANGE ≠ 0
    · rw [if_pos hr, if_pos hr, rangeLoop_writeList, List.append_assoc]
    · rw [if_neg hr, if_neg hr, List.append_nil]
  · have hve : variableEnabled c = false := decide_eq_false hv
    rw [if_neg hv, hve, if_neg (by decide), List.append_nil]

/-- What `process` writes and returns on a present window and a present
output array with `Nin > 0`: the enabled quartile outputs, then, when the
percentile or the percentile-range output is enabled, one estimate per stored
fraction, then, when the percentile-range output is enabled, one value per
range; all contiguously from index 0, the count being the return value. -/
theorem process_repr (c : cFunctionalPercentiles) (sorted : List ℚ) (o : Nat → ℚ) (N : Int)
    (hq : c.quickAlgo = 0) (hN : 0 < N) :
    process c (some sorted) (some o) N
      = .ok (((quartileOutputs c sorted N
            ++ (if variableEnabled c then
                  percentileOutputs c sorted N
                    ++ (if c.enab FUNCT_PCTLRANGE ≠ 0 then
                          rangeOutputs c o (quartileOutputs c sorted N
                              ++ percentileOutputs c sorted N)
                            (quartileOutputs c sorted N).length c.nPctlRange.toNat
                        else [])
                else [])).length : Nat),
          some (writeList o (quartileOutputs c sorted N
            ++ (if variableEnabled c then
                  percentileOutputs c sorted N
                    ++ (if c.enab FUNCT_PCTLRANGE ≠ 0 then
                          rangeOutputs c o (quartileOutputs c sorted N
                              ++ percentileOutputs c sorted N)
                            (quartileOutputs c sorted N).length c.nPctlRange.toNat
                        else [])
                else [])))) := by
  have h := variableWrites_writeList c sorted N o (quartileOutputs c sorted N)
  have hq2 : ¬ (c.quickAlgo ≠ 0) := by simp [hq]
  have hN2 : N > 0 := hN
  have hw := quartileWrites_writeList c sorted N o
  unfold estimate at hw
  unfold process
  simp only [if_pos hN2, if_neg hq2]
  rw [hw, h]

/-- An assignment to another flag leaves the flag `j`. -/
theorem setEnab_ne (e : Nat → Int) (i j : Nat) (v : Int) (h : j ≠ i) : setEnab e i v j = e j := by
  unfold setEnab
  rw [if_neg h]

/-- Lines 113-119 assign the quartile flags only. -/
theorem quartileFlags_keep (e : Nat → Int) (cfg : ConfigInstance) (j : Nat) (hj : 3 ≤ j) :
    quartileFlags e cfg j = e j := by
  have h0 : j ≠ FUNCT_QUART1 := by unfold FUNCT_QUART1; omega
  have h1 : j ≠ FUNCT_QUART2 := by unfold FUNCT_QUART2; omega
  have h2 : j ≠ FUNCT_QUART3 := by unfold FUNCT_QUART3; omega
  unfold quartileFlags
  cases cfg.quartiles with
  | none =>
    simp only
    split_ifs <;> simp only [setEnab_ne _ _ _ _ h0, setEnab_ne _ _ _ _ h1, setEnab_ne _ _ _ _ h2]
  | some v =>
    simp only
    split_ifs <;> simp only [setEnab_ne _ _ _ _ h0, setEnab_ne _ _ _ _ h1, setEnab_ne _ _ _ _ h2]

/-- Lines 121-127 assign the inter-quartile range flags only. -/
theorem iqrFlags_keep (e : Nat → Int) (cfg : ConfigInstance) (j : Nat)
    (hj : j < 3 ∨ 6 ≤ j) : iqrFlags e cfg j = e j := by
  have h0 : j ≠ FUNCT_IQR12 := by unfold FUNCT_IQR12; omega
  have h1 : j ≠ FUNCT_IQR23 := by unfold FUNCT_IQR23; omega
  have h2 : j ≠ FUNCT_IQR13 := by unfold FUNCT_IQR13; omega
  unfold iqrFlags
  cases cfg.iqr with
  | none =>
    simp only
    split_ifs <;> simp only [setEnab_ne _ _ _ _ h0, setEnab_ne _ _ _ _ h1, setEnab_ne _ _ _ _ h2]
  | some v =>
    simp only
    split_ifs <;> simp only [setEnab_ne _ _ _ _ h0, setEnab_ne _ _ _ _ h1, setEnab_ne _ _ _ _ h2]

/-- The quartile and inter-quartile range flags are the only ones lines
113-127 assign. -/
theorem flags_keep (e : Nat → Int) (cfg : ConfigInstance) (j : Nat) (hj : 6 ≤ j) :
    iqrFlags (quartileFlags e cfg) cfg j = e j := by
  rw [iqrFlags_keep _ cfg j (Or.inr hj), quartileFlags_keep e cfg j (by omega)]

/-- The fields `fetchConfig` leaves behind after the constructor. -/
theorem fetchConfig_fields (e0 : Nat → Int) (cfg : ConfigInstance) :
    (fetchConfig (construct e0) cfg).quickAlgo = 0
      ∧ (fetchConfig (construct e0) cfg).interp = cfg.interp
      ∧ (fetchConfig (construct e0) cfg).nPctlRange = (cfg.pctlrange.length : Int)
      ∧ (fetchConfig (construct e0) cfg).enab FUNCT_PERCENTILE
          = (if 0 < cfg.percentile.length then 1 else e0 FUNCT_PERCENTILE)
      ∧ (fetchConfig (construct e0) cfg).enab FUNCT_PCTLRANGE
          = (if 0 < cfg.percentile.length ∧ 0 < cfg.pctlrange.length then 1
              else e0 FUNCT_PCTLRANGE) := by
  have k6 := flags_keep e0 cfg FUNCT_PERCENTILE (by decide)
  have k7 := flags_keep e0 cfg FUNCT_PCTLRANGE (by decide)
  unfold fetchConfig
  simp only
  by_cases hp : 0 < cfg.percentile.length
  · have hp2 : ((cfg.percentile.length : Nat) : Int) > 0 := by omega
    rw [if_pos hp2]
    by_cases hr : 0 < cfg.pctlrange.length
    · have hr2 : ((cfg.pctlrange.length : Nat) : Int) > 0 := by omega
      rw [if_pos hr2]
      refine ⟨rfl, rfl, rfl, ?_, ?_⟩
      · simp [setEnab, FUNCT_PERCENTILE, FUNCT_PCTLRANGE, hp]
      · simp [setEnab, hp, hr]
    · have hr2 : ¬ ((cfg.pctlrange.length : Nat) : Int) > 0 := by omega
      rw [if_neg hr2]
      refine ⟨rfl, rfl, rfl, ?_, ?_⟩
      · simp [setEnab, hp]
      · have : ¬ (FUNCT_PCTLRANGE = FUNCT_PERCENTILE) := by decide
        simp only [setEnab, if_neg this, construct, hr, and_false, if_false]
        exact k7
  · have hp2 : ¬ ((cfg.percentile.length : Nat) : Int) > 0 := by omega
    rw [if_neg hp2]
    refine ⟨rfl, rfl, rfl, ?_, ?_⟩
    · simp only [construct, hp, if_false]
      exact k6
    · simp only [construct, hp, false_and, if_false]
      exact k7

/-- A map over a list is the map over its indices. -/
theorem map_range_getD (l : List ℚ) (g : ℚ → ℚ) :
    (List.range l.length).map (fun i => g (l.getD i 0)) = l.map g := by
  apply List.ext_getElem
  · simp
  · intro i h1 h2
    simp only [List.length_map, List.length_range] at h1
    simp [List.getD_eq_getElem?_getD, List.getElem?_eq_getElem h1]

/-- The percentile values of a state made by `fetchConfig`: one estimate per
configured fraction, clipped into `[0, 1]`, in declared order. -/
theorem percentileOutputs_fetchConfig (e0 : Nat → Int) (cfg : ConfigInstance)
    (sorted : List ℚ) (N : Int) :
    percentileOutputs (fetchConfig (construct e0) cfg) sorted N
      = cfg.percentile.map
          (fun v => estimate (fetchConfig (construct e0) cfg) (clip v) sorted N) := by
  obtain ⟨hpctl, hnp⟩ := fetchConfig_pctl e0 cfg
  generalize fetchConfig (construct e0) cfg = c at *
  unfold percentileOutputs
  have h1 : c.nPctl.toNat = c.pctl.length := by
    rw [hnp, hpctl, List.length_map]; rfl
  rw [h1, map_range_getD c.pctl (fun p => estimate c p sorted N), hpctl, List.map_map]
  rfl

/-- A value of the middle one of three appended lists is read back at its
offset. -/
theorem getD_middle (pre P vals : List ℚ) (j : Nat) (hj : j < P.length) :
    (pre ++ P ++ vals).getD (pre.length + j) 0 = P.getD j 0 := by
  rw [List.append_assoc, List.getD_eq_getElem?_getD, List.getD_eq_getElem?_getD,
    List.getElem?_append_right (Nat.le_add_right _ _), Nat.add_sub_cancel_left,
    List.getElem?_append_left hj]

/-- The cell `j` of an array after the values `l` were written, for `j`
inside `l`. -/
theorem writeList_inside (o : Nat → ℚ) (l : List ℚ) (j : Nat) (h : j < l.length) :
    writeList o l j = l.getD j 0 := by
  unfold writeList
  rw [if_pos h]

/-- The value of the range `i`, run after the values `pre` and the percentile
values `P`, is as the specification says. -/
theorem rangeOutputs_value (c : cFunctionalPercentiles) (o : Nat → ℚ) (pre P : List ℚ)
    (k : Nat) :
    ∀ i, i < k →
      RangeValue P (c.pctlr1.getD i 0) (c.pctlr2.getD i 0)
        ((rangeOutputs c o (pre ++ P) pre.length k).getD i 0) := by
  induction k with
  | zero => exact fun i hi => absurd hi (Nat.not_lt_zero i)
  | succ k ih =>
    have hlen := rangeOutputs_length c o (pre ++ P) pre.length k
    have hstep : rangeOutputs c o (pre ++ P) pre.length (k + 1)
        = rangeOutputs c o (pre ++ P) pre.length k ++
          [if c.pctlr1.getD k 0 ≥ 0 ∧ c.pctlr2.getD k 0 ≥ 0 then
            |Ieee.fl32 (writeList o (pre ++ P ++ rangeOutputs c o (pre ++ P) pre.length k)
                  ((pre.length : Int) + c.pctlr2.getD k 0).toNat
              - writeList o (pre ++ P ++ rangeOutputs c o (pre ++ P) pre.length k)
                  ((pre.length : Int) + c.pctlr1.getD k 0).toNat)|
          else 0] := rfl
    rw [hstep]
    generalize rangeOutputs c o (pre ++ P) pre.length k = vals at *
    have hold : ∀ (v : ℚ) (i : Nat), i < k → (vals ++ [v]).getD i 0 = vals.getD i 0 := by
      intro v i hi
      rw [List.getD_eq_getElem?_getD, List.getD_eq_getElem?_getD,
        List.getElem?_append_left (by omega)]
    have hnew : ∀ v : ℚ, (vals ++ [v]).getD k 0 = v := by
      intro v
      rw [List.getD_eq_getElem?_getD, List.getElem?_append_right (by omega)]
      simp [hlen]
    intro i hi
    by_cases hik : i < k
    · rw [hold _ i hik]
      exact ih i hik
    · have hik2 : i = k := by omega
      subst hik2
      rw [hnew]
      by_cases hg : c.pctlr1.getD i 0 ≥ 0 ∧ c.pctlr2.getD i 0 ≥ 0
      · rw [if_pos hg]
        refine ⟨abs_nonneg _, fun h => ?_, fun hA hAl hB hBl => ?_⟩
        · rcases h with h | h
          · exact absurd hg.1 (not_le.mpr h)
          · exact absurd hg.2 (not_le.mpr h)
        · have eA : ((pre.length : Int) + c.pctlr1.getD i 0).toNat
              = pre.length + (c.pctlr1.getD i 0).toNat := by omega
          have eB : ((pre.length : Int) + c.pctlr2.getD i 0).toNat
              = pre.length + (c.pctlr2.getD i 0).toNat := by omega
          rw [eA, eB, writeList_inside o _ _ (by simp only [List.length_append]; omega),
            writeList_inside o _ _ (by simp only [List.length_append]; omega),
            getD_middle pre P vals _ hAl,
            getD_middle pre P vals _ hBl]
      · rw [if_neg hg]
        exact ⟨le_refl _, fun _ => rfl, fun hA _ hB _ => absurd ⟨hA, hB⟩ hg⟩

/-- What `process` writes and returns for a state made by `fetchConfig`, when
the flags of the percentile and percentile-range outputs are 0 before it. -/
theorem process_expected (e0 : Nat → Int) (cfg : ConfigInstance) (sorted : List ℚ)
    (o : Nat → ℚ) (N : Int)
    (h6 : e0 FUNCT_PERCENTILE = 0) (h7 : e0 FUNCT_PCTLRANGE = 0) (hN : 0 < N) :
    process (fetchConfig (construct e0) cfg) (some sorted) (some o) N
      = .ok (((expectedOutputs (fetchConfig (construct e0) cfg) cfg sorted o N).length : Nat),
          some (writeList o (expectedOutputs (fetchConfig (construct e0) cfg) cfg sorted o N))) := by
  obtain ⟨hq, -, hnr, he6, he7⟩ := fetchConfig_fields e0 cfg
  have hP := percentileOutputs_fetchConfig e0 cfg sorted N
  have hproc := process_repr (fetchConfig (construct e0) cfg) sorted o N hq hN
  generalize fetchConfig (construct e0) cfg = c at *
  rw [hP] at hproc
  have hnr2 : c.nPctlRange.toNat = cfg.pctlrange.length := by
    rw [hnr]; exact Int.toNat_natCast _
  unfold expectedOutputs
  rw [hproc]
  by_cases hv : variableEnabled c = true
  · rw [hv]
    simp only [if_true]
    by_cases hr : 0 < cfg.pctlrange.length
    · have hp : 0 < cfg.percentile.length := by
        by_contra hp
        have he6v : c.enab FUNCT_PERCENTILE = 0 := by rw [he6, if_neg hp, h6]
        have he7v : c.enab FUNCT_PCTLRANGE = 0 := by rw [he7, if_neg (fun h => hp h.1), h7]
        have : variableEnabled c = false := by
          unfold variableEnabled
          apply decide_eq_false
          rw [he6v, he7v]
          decide
        rw [this] at hv
        exact absurd hv (by decide)
      have he7v : c.enab FUNCT_PCTLRANGE = 1 := by rw [he7, if_pos ⟨hp, hr⟩]
      have hne : c.enab FUNCT_PCTLRANGE ≠ 0 := by rw [he7v]; decide
      rw [if_pos hne, hnr2]
    · have he7v : c.enab FUNCT_PCTLRANGE = 0 := by
        rw [he7, if_neg (fun h => hr h.2), h7]
      have hne : ¬ (c.enab FUNCT_PCTLRANGE ≠ 0) := by rw [he7v]; decide
      have h0 : cfg.pctlrange.length = 0 := by omega
      rw [if_neg hne, h0]
      rfl
  · have hv2 : variableEnabled c = false := by
      cases h : variableEnabled c
      · rfl
      · exact absurd h hv
    rw [hv2]
    rfl

/-- C18. For every configuration, every `N > 0` and every sorted window with a
present output array, `process` writes its outputs contiguously from index 0
in this order: those of `[q1, q2, q3, q2-q1, q3-q2, q3-q1]` whose flag is
enabled (the differences being `FLOAT_DMEM` subtractions), then, if the
percentile or percentile-range output is enabled, one estimate per configured
percentile fraction in declared order, then one value per configured
percentile range in declared order, the value of the range `i` being the one
of the stored pair `i`; the cells after them are untouched and the return
value is the number of values written.  When `N = 0` or the output array is
absent it writes nothing and returns 0.  (The flags of the percentile and
percentile-range outputs are taken to be 0 before `fetchConfig`.) -/
theorem process_output_order (e0 : Nat → Int) (cfg : ConfigInstance)
    (c : cFunctionalPercentiles) (sorted : List ℚ)
    (o : Nat → ℚ) (N : Int) (inS : Option (List ℚ))
    (hc : c = fetchConfig (construct e0) cfg)
    (h6 : e0 FUNCT_PERCENTILE = 0) (h7 : e0 FUNCT_PCTLRANGE = 0) (hN : 0 < N) :
    process c (some sorted) (some o) N
        = .ok (((expectedOutputs c cfg sorted o N).length : Nat),
            some (writeList o (expectedOutputs c cfg sorted o N)))
      ∧ (∀ j, j < (expectedOutputs c cfg sorted o N).length →
          outCell (process c (some sorted) (some o) N) j
            = some ((expectedOutputs c cfg sorted o N).getD j 0))
      ∧ (∀ j, (expectedOutputs c cfg sorted o N).length ≤ j →
          outCell (process c (some sorted) (some o) N) j = some (o j))
      ∧ (expectedOutputs c cfg sorted o N).length
          = (quartileOutputs c sorted N).length
            + (if variableEnabled c then cfg.percentile.length + cfg.pctlrange.length else 0)
      ∧ (∀ i, i < cfg.pctlrange.length →
          RangeValue (cfg.percentile.map (fun v => estimate c (clip v) sorted N))
            (c.pctlr1.getD i 0) (c.pctlr2.getD i 0)
            ((rangeOutputs c o
                (quartileOutputs c sorted N
                  ++ cfg.percentile.map (fun v => estimate c (clip v) sorted N))
                (quartileOutputs c sorted N).length cfg.pctlrange.length).getD i 0))
      ∧ process c inS none N = .ok (0, none)
      ∧ process c inS (some o) 0 = .ok (0, some o) := by
  subst hc
  have hproc := process_expected e0 cfg sorted o N h6 h7 hN
  refine ⟨hproc, ?_, ?_, ?_, ?_, rfl, rfl⟩
  · intro j hj
    rw [hproc]
    show some (writeList o _ j) = _
    rw [writeList_inside o _ j hj]
  · intro j hj
    rw [hproc]
    show some (writeList o _ j) = _
    unfold writeList
    rw [if_neg (by omega)]
  · unfold expectedOutputs
    split
    · simp only [List.length_append, List.length_map, rangeOutputs_length]
    · simp
  · exact rangeOutputs_value _ o _ _ cfg.pctlrange.length

/-- Two percentile fractions and one range on the example window: six
quartile outputs, two percentiles and one range value. -/
theorem process_output_order_witness :
    (zeroFlags FUNCT_PERCENTILE = 0 ∧ zeroFlags FUNCT_PCTLRANGE = 0 ∧ (0 : Int) < 4)
    ∧ expectedOutputs (fetchConfig (construct zeroFlags) twoPercentilesConfig)
        twoPercentilesConfig exampleWindow zeroOut 4
      = [0, 16384, 16384, 16384, 0, 16384, 0, 16384, 16384]
    ∧ process (fetchConfig (construct zeroFlags) twoPercentilesConfig) (some exampleWindow)
        (some zeroOut) 4
      = .ok (((expectedOutputs (fetchConfig (construct zeroFlags) twoPercentilesConfig)
              twoPercentilesConfig exampleWindow zeroOut 4).length : Nat),
          some (writeList zeroOut
            (expectedOutputs (fetchConfig (construct zeroFlags) twoPercentilesConfig)
              twoPercentilesConfig exampleWindow zeroOut 4))) :=
  ⟨⟨rfl, rfl, by decide⟩, by decide!,
    (process_output_order zeroFlags twoPercentilesConfig
      (fetchConfig (construct zeroFlags) twoPercentilesConfig) exampleWindow zeroOut 4
      (some exampleWindow) rfl rfl rfl (by decide)).1⟩

/-- Apart from the two flags it may set to 1, `fetchConfig` leaves the flag
array as lines 113-127 made it. -/
theorem fetchConfig_enab_low (e0 : Nat → Int) (cfg : ConfigInstance) (j : Nat) (hj : j < 6) :
    (fetchConfig (construct e0) cfg).enab j = iqrFlags (quartileFlags e0 cfg) cfg j := by
  have h6 : j ≠ FUNCT_PERCENTILE := by unfold FUNCT_PERCENTILE; omega
  have h7 : j ≠ FUNCT_PCTLRANGE := by unfold FUNCT_PCTLRANGE; omega
  unfold fetchConfig
  simp only
  split_ifs <;> simp only [setEnab_ne _ _ _ _ h6, setEnab_ne _ _ _ _ h7, construct]

/-- The three quartile flags after lines 113-119. -/
theorem quartileFlags_values (e : Nat → Int) (cfg : ConfigInstance) :
    quartileFlags e cfg FUNCT_QUART1 = cfg.quartiles.getD 1
      ∧ quartileFlags e cfg FUNCT_QUART2 = cfg.quartiles.getD 1
      ∧ quartileFlags e cfg FUNCT_QUART3 = cfg.quartiles.getD 1 := by
  unfold quartileFlags
  cases cfg.quartiles with
  | none =>
    simp only [Option.getD_none]
    refine ⟨?_, ?_, ?_⟩ <;> split_ifs <;>
      simp [setEnab, FUNCT_QUART1, FUNCT_QUART2, FUNCT_QUART3]
  | some v =>
    simp only [Option.getD_some]
    refine ⟨?_, ?_, ?_⟩ <;>
      simp [setEnab, FUNCT_QUART1, FUNCT_QUART2, FUNCT_QUART3]

/-- The three inter-quartile range flags after lines 121-127. -/
theorem iqrFlags_values (e : Nat → Int) (cfg : ConfigInstance) :
    iqrFlags e cfg FUNCT_IQR12 = cfg.iqr.getD 1
      ∧ iqrFlags e cfg FUNCT_IQR23 = cfg.iqr.getD 1
      ∧ iqrFlags e cfg FUNCT_IQR13 = cfg.iqr.getD 1 := by
  unfold iqrFlags
  cases cfg.iqr with
  | none =>
    simp only [Option.getD_none]
    refine ⟨?_, ?_, ?_⟩ <;> split_ifs <;>
      simp [setEnab, FUNCT_IQR12, FUNCT_IQR23, FUNCT_IQR13]
  | some v =>
    simp only [Option.getD_some]
    refine ⟨?_, ?_, ?_⟩ <;>
      simp [setEnab, FUNCT_IQR12, FUNCT_IQR23, FUNCT_IQR13]

/-- C22. For every configuration (whatever `getInt` answers for `quartile1`,
`quartile2`, `quartile3`, `iqr12`, `iqr23` and `iqr13`, and whatever the flag
array held before), the three quartile flags `fetchConfig` leaves are all the
value of `quartiles` when that key is set and all 1 (enabled) when it is not,
and the three inter-quartile range flags are all the value of `iqr` when that
key is set and all 1 when it is not. -/
theorem fetchConfig_aggregate_override (e0 : Nat → Int) (cfg : ConfigInstance) :
    (fetchConfig (construct e0) cfg).enab FUNCT_QUART1 = cfg.quartiles.getD 1
      ∧ (fetchConfig (construct e0) cfg).enab FUNCT_QUART2 = cfg.quartiles.getD 1
      ∧ (fetchConfig (construct e0) cfg).enab FUNCT_QUART3 = cfg.quartiles.getD 1
      ∧ (fetchConfig (construct e0) cfg).enab FUNCT_IQR12 = cfg.iqr.getD 1
      ∧ (fetchConfig (construct e0) cfg).enab FUNCT_IQR23 = cfg.iqr.getD 1
      ∧ (fetchConfig (construct e0) cfg).enab FUNCT_IQR13 = cfg.iqr.getD 1 := by
  obtain ⟨q1, q2, q3⟩ := quartileFlags_values e0 cfg
  obtain ⟨i1, i2, i3⟩ := iqrFlags_values (quartileFlags e0 cfg) cfg
  refine ⟨?_, ?_, ?_, ?_, ?_, ?_⟩
  · rw [fetchConfig_enab_low e0 cfg _ (by decide), iqrFlags_keep _ cfg _ (Or.inl (by decide)), q1]
  · rw [fetchConfig_enab_low e0 cfg _ (by decide), iqrFlags_keep _ cfg _ (Or.inl (by decide)), q2]
  · rw [fetchConfig_enab_low e0 cfg _ (by decide), iqrFlags_keep _ cfg _ (Or.inl (by decide)), q3]
  · rw [fetchConfig_enab_low e0 cfg _ (by decide), i1]
  · rw [fetchConfig_enab_low e0 cfg _ (by decide), i2]
  · rw [fetchConfig_enab_low e0 cfg _ (by decide), i3]

/-- C21 (the code at the failing input). With two percentile fractions, the
range tokens `x-1` and `abc` are stored as the sentinel (-1, -1) with a parse
error reported each, and the loop goes on to the entries after them; the token
`1-x` is stored as the pair (1, 0) with nothing reported: after the second
`strtol` the code compares `ep` with `tmp`, the start of the token, which `ep`
never equals.  `process` then writes |P[0] - P[1]| = 3 for that range, not 0. -/
theorem fetchConfig_accepts_malformed_second_index :
    ((fetchConfig (construct zeroFlags) malformedRangeConfig).pctlr1,
        (fetchConfig (construct zeroFlags) malformedRangeConfig).pctlr2)
        = ([-1, 1, -1, 0], [-1, 0, -1, 1])
      ∧ malformedRangeConfig.pctlrange.map (fun tok => (parseRange 2 tok).2.2)
        = [[.parseError], [], [.parseError], []]
      ∧ strtol ['x'] = (0, 0)
      ∧ (List.range 6).map
          (outCell (process (fetchConfig (construct zeroFlags) malformedRangeConfig)
            (some [1, 2, 3, 4]) (some zeroOut) 4))
        = [some 1, some 4, some 0, some 3, some 0, some 3] :=
  ⟨by decide, by decide, by decide, by decide!⟩

end FunctionalPercentiles
